import Mathlib

/-!
# The labeling engine of `qgslabelingengine.cpp`

A shallow embedding of `QgsLabelSorter::operator()`, of the settings functions
`readSettingsFromProject` / `writeSettingsToProject`, of `takeResults`,
`addProvider`, `removeProvider`, `processProvider` and `run` of
`QgsLabelingEngine`, and of the two functions of `QgsLabelingUtils` that encode
and decode an order of predefined point positions. The calls that `run` makes
on the solver, the painter and the providers are kept as a record of events.

Numbers of C++ type `double` are represented by rationals (exact arithmetic,
no NaN and no infinities); `int` is represented by `Int`.
-/

namespace QGIS

/-! ## Data model -/

/-- The `QSizeF` of a label: `width()` and `height()`. -/
structure QSizeF where
  width : ℚ
  height : ℚ
  deriving DecidableEq, Repr

/-- The part of `QgsLabelFeature` used here: `zIndex()`, `size()` and
`provider()->layerId()`, which the sorter reads, and `id()`, which tells two
labels with equal values apart. -/
structure QgsLabelFeature where
  id : Int
  zIndex : ℚ
  size : QSizeF
  layerId : String
  deriving DecidableEq, Repr

/-- Modelled from the spec: `qgsDoubleNear` is declared in `qgis.h`, which is not
among the sources. Section 4.3 calls it a tolerance-aware "nearly equal" test:
two values are nearly equal when they differ by at most the tolerance
`epsilon`, in either direction. The call in the sorter passes no tolerance, so
the header's default applies; it is a parameter here. -/
def qgsDoubleNear (a b epsilon : ℚ) : Bool :=
  decide (a - b ≤ epsilon ∧ b - a ≤ epsilon)

/-- Search of `QStringList::indexOf` from a running position: the position of
the first entry equal to `s`, or `-1`. -/
def indexOfFrom (s : String) : List String → Int → Int
  | [], _ => -1
  | x :: xs, i => if x = s then i else indexOfFrom s xs (i + 1)

/-- The call `layerIds.indexOf( id )`: position of the first occurrence, `-1` when absent. -/
def indexOf (layerIds : List String) (s : String) : Int :=
  indexOfFrom s layerIds 0

/-- The label area compared in the last line of the sorter. -/
def labelArea (lf : QgsLabelFeature) : ℚ :=
  lf.size.width * lf.size.height

/-- The body of `QgsLabelSorter::operator()( lp1, lp2 )`, on the features
`lf1`, `lf2` of the two label positions. `layerIds` is
`mMapSettings.layerIds()`. -/
def QgsLabelSorter (layerIds : List String) (epsilon : ℚ)
    (lf1 lf2 : QgsLabelFeature) : Bool :=
  if qgsDoubleNear lf1.zIndex lf2.zIndex epsilon = false then
    decide (lf1.zIndex < lf2.zIndex)
  else
    let layer1Pos := indexOf layerIds lf1.layerId
    let layer2Pos := indexOf layerIds lf2.layerId
    if layer1Pos ≠ layer2Pos ∧ layer1Pos ≥ 0 ∧ layer2Pos ≥ 0 then
      decide (layer1Pos > layer2Pos)
    else
      decide (labelArea lf1 > labelArea lf2)

/-- Placement of one element into an already ordered list: `x` goes in front
of the first entry that does not sort before it. -/
def qSortInsert {α : Type} (lessThan : α → α → Bool) (x : α) : List α → List α
  | [] => [x]
  | y :: ys => if lessThan y x then y :: qSortInsert lessThan x ys else x :: y :: ys

/-- Modelled from the spec: `qSort` is a Qt library template, not among the
sources. Section 8 (P1) describes the sort as an idempotent stable sort; this
is the stable insertion sort driven by the `lessThan` functor: entries that do
not sort before one another keep their input order. -/
def qSort {α : Type} (lessThan : α → α → Bool) : List α → List α
  | [] => []
  | x :: xs => qSortInsert lessThan x (qSort lessThan xs)

/-- The statement `qSort( labels->begin(), labels->end(), QgsLabelSorter( mMapSettings ) )`
of `QgsLabelingEngine::run`. -/
def sortLabels (layerIds : List String) (epsilon : ℚ)
    (labels : List QgsLabelFeature) : List QgsLabelFeature :=
  qSort (QgsLabelSorter layerIds epsilon) labels

/-! ## Engine settings -/

/-- The value kinds stored by `writeSettingsToProject`: `int` and `bool`. -/
inductive QVariant where
  | int (n : Int)
  | bool (b : Bool)
  deriving DecidableEq, Repr

/-- Modelled from the spec: `QgsProject` is declared in `qgsproject.h`, which is
not among the sources. Section 6 describes the persistence contract: fields are
read and written under a fixed key namespace, and a read that fails for one
key falls back to the default passed for that key. The store holds at most the
last value written for each (scope, key). -/
structure QgsProject where
  entries : List ((String × String) × QVariant)
  deriving Repr

namespace QgsProject

/-- The stored value of an entry, when there is one. -/
def value (prj : QgsProject) (scope key : String) : Option QVariant :=
  prj.entries.lookup (scope, key)

/-- The call `writeEntry( scope, key, value )`: the value replaces the one stored before. -/
def writeEntry (prj : QgsProject) (scope key : String) (v : QVariant) : QgsProject :=
  ⟨((scope, key), v) :: prj.entries.filter (fun e => e.1 != (scope, key))⟩

/-- The call `readNumEntry( scope, key, def, &ok )`; the flag `ok` is never read by the engine. -/
def readNumEntry (prj : QgsProject) (scope key : String) (dflt : Int) : Int :=
  match prj.value scope key with
  | some (QVariant.int n) => n
  | _ => dflt

/-- The call `readBoolEntry( scope, key, def, &ok )`; the flag `ok` is never read by the engine. -/
def readBoolEntry (prj : QgsProject) (scope key : String) (dflt : Bool) : Bool :=
  match prj.value scope key with
  | some (QVariant.bool b) => b
  | _ => dflt

end QgsProject

/-- The enumerators of `QgsLabelingEngine::Flag`. -/
inductive Flag where
  | UseAllLabels
  | UsePartialCandidates
  | RenderOutlineLabels
  | DrawLabelRectOnly
  | DrawCandidates
  deriving DecidableEq, Repr

/-- Modelled from the spec: the enumerator values are declared in
`qgslabelingengine.h`, which is not among the sources. Section 4.4: the flags
are independent booleans combined into one bitset, so each is one bit of its own. -/
def Flag.bit : Flag → Nat
  | Flag.UseAllLabels => 1 <<< 1
  | Flag.UsePartialCandidates => 1 <<< 2
  | Flag.RenderOutlineLabels => 1 <<< 3
  | Flag.DrawLabelRectOnly => 1 <<< 4
  | Flag.DrawCandidates => 1 <<< 5

/-- The test `mFlags.testFlag( f )` of `QFlags`: all bits of `f` are set. -/
def testFlag (flags : Nat) (f : Flag) : Bool :=
  flags &&& f.bit == f.bit

/-- Modelled from the spec: the enumerators of `QgsPalLabeling::Search` are
declared in `qgspallabeling.h`, which is not among the sources. The five search
strategies, numbered in the order in which `run` lists them; `mSearchMethod`
holds the integer, since `readSettingsFromProject` casts any stored integer. -/
inductive Search where
  | Chain
  | Popmusic_Tabu
  | Popmusic_Chain
  | Popmusic_Tabu_Chain
  | Falp
  deriving DecidableEq, Repr

/-- The cast `static_cast< int >( search )`. -/
def Search.toInt : Search → Int
  | Search.Chain => 0
  | Search.Popmusic_Tabu => 1
  | Search.Popmusic_Chain => 2
  | Search.Popmusic_Tabu_Chain => 3
  | Search.Falp => 4

/-! ## Label positions, providers and results -/

/-- The part of `pal::LabelPosition` used by the engine: an identity, and
`getFeaturePart()->feature()`, which is `none` for a null pointer. -/
structure LabelPosition where
  id : Nat
  feature : Option QgsLabelFeature
  deriving DecidableEq, Repr

/-- Modelled from the spec: `QgsLabelingResults` is declared in
`qgspallabeling.h`, which is not among the sources. Section 3: the set of
resolved placements that can be queried after a run; `new QgsLabelingResults`
is the empty set. -/
structure QgsLabelingResults where
  labels : List LabelPosition
  deriving DecidableEq, Repr

/-- The object made by `new QgsLabelingResults`. -/
def QgsLabelingResults.empty : QgsLabelingResults := ⟨[]⟩

/-- The enumerators of `QgsAbstractLabelProvider::Flag` tested by `processProvider`. -/
inductive ProviderFlag where
  | DrawLabels
  | DrawAllLabels
  | MergeConnectedLines
  | CentroidMustBeInside
  | LabelPerFeaturePart
  deriving DecidableEq, Repr

/-- Modelled from the spec: the enumerator values are declared in
`qgslabelingengine.h`, which is not among the sources. Section 3: a provider
has a flags bitset, so each flag is one bit of its own. -/
def ProviderFlag.bit : ProviderFlag → Nat
  | ProviderFlag.DrawLabels => 1 <<< 1
  | ProviderFlag.DrawAllLabels => 1 <<< 2
  | ProviderFlag.MergeConnectedLines => 1 <<< 3
  | ProviderFlag.CentroidMustBeInside => 1 <<< 4
  | ProviderFlag.LabelPerFeaturePart => 1 <<< 6

/-- The test `flags.testFlag( f )` on the flags of a provider. -/
def testProviderFlag (flags : Nat) (f : ProviderFlag) : Bool :=
  flags &&& f.bit == f.bit

/-- Modelled from the spec: the enumerators of
`QgsPalLayerSettings::UpsideDownLabels` are declared in `qgspallabeling.h`,
which is not among the sources. Section 3 names the three policies; a provider
holds the integer, which may be none of the three. -/
inductive UpsideDownLabels where
  | Upright
  | ShowDefined
  | ShowAll
  deriving DecidableEq, Repr

/-- The integer value of an upside-down policy. -/
def UpsideDownLabels.toInt : UpsideDownLabels → Int
  | UpsideDownLabels.Upright => 0
  | UpsideDownLabels.ShowDefined => 1
  | UpsideDownLabels.ShowAll => 2

/-- The members of a `QgsAbstractLabelProvider` read by `processProvider`
through `name()`, `layerId()`, `providerId()`, `flags()`, `placement()`,
`linePlacementFlags()`, `priority()`, `obstacleType()` and `upsidedownLabels()`,
and the member `mEngine` written by `addProvider` through `setEngine`: the
pointer to the engine, which is its address, or `none` for `nullptr`. -/
structure ProviderMembers where
  mEngine : Option Nat
  mName : String
  mLayerId : String
  mProviderId : String
  mFlags : Nat
  mPlacement : Int
  mLinePlacementFlags : Nat
  mPriority : ℚ
  mObstacleType : Int
  mUpsidedownLabels : Int
  deriving DecidableEq, Repr

/-- A `QgsAbstractLabelProvider`: its members, the list returned by
`labelFeatures( context )` and the list returned by `subProviders()`. The
sub-providers form a finite tree. -/
inductive QgsAbstractLabelProvider where
  | mk (members : ProviderMembers) (labelFeatures : List QgsLabelFeature)
      (subProviders : List QgsAbstractLabelProvider)
  deriving Repr

mutual

/-- Equality of two providers is decidable. A pointer to a provider is
represented by the provider it points to, so that `==` on two pointers is
equality of the two providers. -/
def QgsAbstractLabelProvider.decEq :
    (a b : QgsAbstractLabelProvider) → Decidable (a = b)
  | QgsAbstractLabelProvider.mk m1 f1 s1, QgsAbstractLabelProvider.mk m2 f2 s2 =>
    if hm : m1 = m2 then
      if hf : f1 = f2 then
        match QgsAbstractLabelProvider.decEqList s1 s2 with
        | isTrue hs => isTrue (by rw [hm, hf, hs])
        | isFalse hs => isFalse (fun h => hs (by injection h))
      else isFalse (fun h => hf (by injection h))
    else isFalse (fun h => hm (by injection h))

/-- Equality of two lists of providers is decidable. -/
def QgsAbstractLabelProvider.decEqList :
    (a b : List QgsAbstractLabelProvider) → Decidable (a = b)
  | [], [] => isTrue rfl
  | [], _ :: _ => isFalse (fun h => by cases h)
  | _ :: _, [] => isFalse (fun h => by cases h)
  | a :: as, b :: bs =>
    match QgsAbstractLabelProvider.decEq a b with
    | isTrue h1 =>
      match QgsAbstractLabelProvider.decEqList as bs with
      | isTrue h2 => isTrue (by rw [h1, h2])
      | isFalse h2 => isFalse (fun h => h2 (by injection h))
    | isFalse h1 => isFalse (fun h => h1 (by injection h))

end

instance : DecidableEq QgsAbstractLabelProvider := QgsAbstractLabelProvider.decEq

namespace QgsAbstractLabelProvider

/-- The members of the provider. -/
def members : QgsAbstractLabelProvider → ProviderMembers
  | mk m _ _ => m

/-- The call `labelFeatures( context )`. -/
def labelFeatures : QgsAbstractLabelProvider → List QgsLabelFeature
  | mk _ fs _ => fs

/-- The call `subProviders()`. -/
def subProviders : QgsAbstractLabelProvider → List QgsAbstractLabelProvider
  | mk _ _ ps => ps

/-- The identity of a provider: the pair (layer id, provider id). -/
def key (p : QgsAbstractLabelProvider) : String × String :=
  (p.members.mLayerId, p.members.mProviderId)

/-- Modelled from the spec: `setEngine` is defined in `qgslabelingengine.h`,
which is not among the sources. Section 3: a provider belongs to one engine at
a time, through a back-reference set on registration; `setEngine( engine )`
stores the pointer in `mEngine`. -/
def setEngine : QgsAbstractLabelProvider → Nat → QgsAbstractLabelProvider
  | mk m fs ps, engine => mk { m with mEngine := some engine } fs ps

end QgsAbstractLabelProvider

/-- The part of `QgsMapSettings` read by the sorter: `layerIds()`. -/
structure QgsMapSettings where
  layerIds : List String
  deriving DecidableEq, Repr

/-- The members of `QgsLabelingEngine`. -/
structure QgsLabelingEngine where
  mFlags : Nat
  mSearchMethod : Int
  mCandPoint : Int
  mCandLine : Int
  mCandPolygon : Int
  mMapSettings : QgsMapSettings
  mProviders : List QgsAbstractLabelProvider
  mSubProviders : List QgsAbstractLabelProvider
  mResults : Option QgsLabelingResults
  deriving Repr

namespace QgsLabelingEngine

/-- The constructor `QgsLabelingEngine::QgsLabelingEngine()`. -/
def new : QgsLabelingEngine :=
  { mFlags := Flag.RenderOutlineLabels.bit ||| Flag.UsePartialCandidates.bit
    mSearchMethod := Search.Chain.toInt
    mCandPoint := 16
    mCandLine := 50
    mCandPolygon := 30
    mMapSettings := ⟨[]⟩
    mProviders := []
    mSubProviders := []
    mResults := some QgsLabelingResults.empty }

/-- The function `QgsLabelingEngine::readSettingsFromProject()`, with the project
singleton passed in. -/
def readSettingsFromProject (e : QgsLabelingEngine) (prj : QgsProject) : QgsLabelingEngine :=
  let e := { e with mSearchMethod := prj.readNumEntry "PAL" "/SearchMethod" Search.Chain.toInt }
  let e := { e with mCandPoint := prj.readNumEntry "PAL" "/CandidatesPoint" 16 }
  let e := { e with mCandLine := prj.readNumEntry "PAL" "/CandidatesLine" 50 }
  let e := { e with mCandPolygon := prj.readNumEntry "PAL" "/CandidatesPolygon" 30 }
  let e := { e with mFlags := 0 }
  let e := if prj.readBoolEntry "PAL" "/ShowingCandidates" false
    then { e with mFlags := e.mFlags ||| Flag.DrawCandidates.bit } else e
  let e := if prj.readBoolEntry "PAL" "/DrawRectOnly" false
    then { e with mFlags := e.mFlags ||| Flag.DrawLabelRectOnly.bit } else e
  let e := if prj.readBoolEntry "PAL" "/ShowingAllLabels" false
    then { e with mFlags := e.mFlags ||| Flag.UseAllLabels.bit } else e
  let e := if prj.readBoolEntry "PAL" "/ShowingPartialsLabels" true
    then { e with mFlags := e.mFlags ||| Flag.UsePartialCandidates.bit } else e
  let e := if prj.readBoolEntry "PAL" "/DrawOutlineLabels" true
    then { e with mFlags := e.mFlags ||| Flag.RenderOutlineLabels.bit } else e
  e

/-- The function `QgsLabelingEngine::writeSettingsToProject()`, returning the
project store after the nine writes. -/
def writeSettingsToProject (e : QgsLabelingEngine) (prj : QgsProject) : QgsProject :=
  let prj := prj.writeEntry "PAL" "/SearchMethod" (QVariant.int e.mSearchMethod)
  let prj := prj.writeEntry "PAL" "/CandidatesPoint" (QVariant.int e.mCandPoint)
  let prj := prj.writeEntry "PAL" "/CandidatesLine" (QVariant.int e.mCandLine)
  let prj := prj.writeEntry "PAL" "/CandidatesPolygon" (QVariant.int e.mCandPolygon)
  let prj := prj.writeEntry "PAL" "/ShowingCandidates"
    (QVariant.bool (testFlag e.mFlags Flag.DrawCandidates))
  let prj := prj.writeEntry "PAL" "/DrawRectOnly"
    (QVariant.bool (testFlag e.mFlags Flag.DrawLabelRectOnly))
  let prj := prj.writeEntry "PAL" "/ShowingAllLabels"
    (QVariant.bool (testFlag e.mFlags Flag.UseAllLabels))
  let prj := prj.writeEntry "PAL" "/ShowingPartialsLabels"
    (QVariant.bool (testFlag e.mFlags Flag.UsePartialCandidates))
  let prj := prj.writeEntry "PAL" "/DrawOutlineLabels"
    (QVariant.bool (testFlag e.mFlags Flag.RenderOutlineLabels))
  prj

/-- Search of `QList::indexOf` from a running position: the position of the
first entry equal to `provider`, or `-1`. -/
def providerIndexOfFrom (provider : QgsAbstractLabelProvider) :
    List QgsAbstractLabelProvider → Int → Int
  | [], _ => -1
  | x :: xs, i => if x = provider then i else providerIndexOfFrom provider xs (i + 1)

/-- The call `mProviders.takeAt( idx )` for a position `idx >= 0`: the list
without the entry at that position. -/
def takeAt (providers : List QgsAbstractLabelProvider) (idx : Int) :
    List QgsAbstractLabelProvider :=
  providers.eraseIdx idx.toNat

/-- The function `QgsLabelingEngine::addProvider( provider )`. The pointer
`this` is the address of the engine; the entry appended to `mProviders` is the
provider after `setEngine`. -/
def addProvider (e : QgsLabelingEngine) (this : Nat) (provider : QgsAbstractLabelProvider) :
    QgsLabelingEngine :=
  let provider := provider.setEngine this
  { e with mProviders := e.mProviders ++ [provider] }

/-- The function `QgsLabelingEngine::removeProvider( provider )`; the entry
taken from the list is deleted. -/
def removeProvider (e : QgsLabelingEngine) (provider : QgsAbstractLabelProvider) :
    QgsLabelingEngine :=
  let idx := providerIndexOfFrom provider e.mProviders 0
  if idx ≥ 0 then { e with mProviders := takeAt e.mProviders idx } else e

end QgsLabelingEngine

/-! ## The solver, the painter and the run -/

/-- The enumerators of `pal::SearchMethod` named in `run`. -/
inductive PalSearchMethod where
  | CHAIN
  | POPMUSIC_TABU
  | POPMUSIC_CHAIN
  | POPMUSIC_TABU_CHAIN
  | FALP
  deriving DecidableEq, Repr

/-- The enumerators of `pal::Layer::LabelMode` named in `processProvider`. -/
inductive PalLabelMode where
  | LabelPerFeature
  | LabelPerFeaturePart
  deriving DecidableEq, Repr

/-- The enumerators of `pal::Layer::UpsideDownLabels` named in `processProvider`. -/
inductive PalUpsideDownLabels where
  | Upright
  | ShowDefined
  | ShowAll
  deriving DecidableEq, Repr

/-- The part of `pal::Problem` read by `run`: for feature `i` the candidates
`getFeatureCandidate( i, 0 )`, ..., `getFeatureCandidate( i, getFeatureCandidateCount( i ) - 1 )`;
the length of the outer list is `getNumFeatures()`. -/
structure Problem where
  candidates : List (List LabelPosition)
  deriving DecidableEq, Repr

/-- What the call `p.extractProblem( bbox )` does: it throws, or it returns a
pointer, which `run` tests for null. -/
inductive ExtractResult where
  | exception (what : String)
  | problem (ptr : Option Problem)
  deriving DecidableEq, Repr

/-- The calls that `run` and `processProvider` make on the solver, on the
painter and on the providers, and the two `delete` statements. A call on a pal
layer names the layer by the key of its provider. `deleteProblem` stands for
`delete problem` on a pointer that is not null. -/
inductive Event where
  | setSearch (s : PalSearchMethod)
  | setPointP (n : Int)
  | setLineP (n : Int)
  | setPolyP (n : Int)
  | setShowPartial (b : Bool)
  | addLayer (provider : String × String) (name : String) (placement : Int) (priority : ℚ)
      (active toLabel displayAll : Bool)
  | setArrangementFlags (layer : String × String) (flags : Nat)
  | setLabelMode (layer : String × String) (mode : PalLabelMode)
  | setMergeConnectedLines (layer : String × String) (b : Bool)
  | setObstacleType (layer : String × String) (obstacleType : Int)
  | setCentroidInside (layer : String × String) (b : Bool)
  | setUpsidedownLabels (layer : String × String) (ud : PalUpsideDownLabels)
  | registerFeature (layer : String × String) (feature : QgsLabelFeature) (registered : Bool)
  | registerCancellationCallback
  | extractProblem (result : ExtractResult)
  | setBrushNoBrush
  | drawLabelCandidateRect (lp : LabelPosition)
  | solveProblem (problem : Option Problem) (displayAll : Bool)
  | setRenderHintAntialiasing
  | drawLabel (lp : LabelPosition)
  | setCompositionModeSourceOver
  | deleteProblem
  | deleteLabels
  deriving DecidableEq, Repr

/-- Modelled from the spec: the collaborators of one run, none of which is
among the sources. Section 6: registering a feature gives an error for some
features (`registerFails`); problem extraction gives a problem or an error;
`solveProblem` gives the chosen placements; the cancellation predicate is
polled, and `renderingStopped n` is the answer to poll number `n` that `run`
itself makes through `context.renderingStopped()` (counted from 0: poll 0
follows the extraction, poll 1 follows the solving, poll `i + 2` precedes
placement `i` of the draw loop). `epsilon` is the tolerance of `qgsDoubleNear`, and
`assertsEnabled` says whether `Q_ASSERT` stops the program (it does nothing
when Qt is built without debug checks). -/
structure RunEnvironment where
  epsilon : ℚ
  assertsEnabled : Bool
  registerFails : String × String → QgsLabelFeature → Bool
  extractProblem : ExtractResult
  solveProblem : Option Problem → Bool → List LabelPosition
  renderingStopped : Nat → Bool

/-- The state threaded through a run: the engine and the calls made so far. -/
structure RunState where
  engine : QgsLabelingEngine
  calls : List Event
  deriving Repr

/-- A step either goes on or stops the program with a failed assertion. -/
inductive Outcome where
  | continues (st : RunState)
  | aborted (st : RunState)
  deriving Repr

/-- How a run ends: at one of the four `return`s or at the end of `run`, or
with the program stopped by a failed `Q_ASSERT` or by the sorter reading
through a null feature pointer. -/
inductive RunExit where
  | assertionFailed
  | extractionFailed
  | cancelledAfterExtraction
  | cancelledAfterSolving
  | nullFeatureInSort
  | completed
  deriving DecidableEq, Repr

/-- The exits at which `run` returns to its caller. -/
def RunExit.returned : RunExit → Bool
  | RunExit.assertionFailed => false
  | RunExit.nullFeatureInSort => false
  | _ => true

/-- The result of a run. -/
structure RunResult where
  engine : QgsLabelingEngine
  calls : List Event
  exit : RunExit
  deriving Repr

/-- The operator `QgsLabelSorter::operator()( lp1, lp2 )` on label positions:
both features are read through their pointers without a test, so the result
is `none` when one of them is null. -/
def QgsLabelSorter.operator (layerIds : List String) (epsilon : ℚ)
    (lp1 lp2 : LabelPosition) : Option Bool :=
  match lp1.feature, lp2.feature with
  | some lf1, some lf2 => some (QgsLabelSorter layerIds epsilon lf1 lf2)
  | _, _ => none

/-- The placement step of `qSortInsert` for a comparison that can fail. -/
def qSortInsertM {α : Type} (lessThan : α → α → Option Bool) (x : α) :
    List α → Option (List α)
  | [] => some [x]
  | y :: ys =>
    match lessThan y x with
    | none => none
    | some true =>
      match qSortInsertM lessThan x ys with
      | none => none
      | some r => some (y :: r)
    | some false => some (x :: y :: ys)

/-- The sort `qSort` for a comparison that can fail: the same insertion sort,
which fails as soon as a comparison fails. -/
def qSortM {α : Type} (lessThan : α → α → Option Bool) : List α → Option (List α)
  | [] => some []
  | x :: xs =>
    match qSortM lessThan xs with
    | none => none
    | some r => qSortInsertM lessThan x r

/-- The statement `qSort( labels->begin(), labels->end(), QgsLabelSorter( mMapSettings ) )`
on the label positions returned by the solver. -/
def sortLabelPositions (layerIds : List String) (epsilon : ℚ)
    (labels : List LabelPosition) : Option (List LabelPosition) :=
  qSortM (QgsLabelSorter.operator layerIds epsilon) labels

namespace QgsLabelingEngine

/-- The function `QgsLabelingEngine::takeResults()`: the returned pointer and
the engine after the call. -/
def takeResults (e : QgsLabelingEngine) : Option QgsLabelingResults × QgsLabelingEngine :=
  let res := e.mResults
  (res, { e with mResults := none })

/-- The `switch` of `run` on `mSearchMethod`. -/
def searchMethod (mSearchMethod : Int) : PalSearchMethod :=
  if mSearchMethod = Search.Popmusic_Tabu.toInt then PalSearchMethod.POPMUSIC_TABU
  else if mSearchMethod = Search.Popmusic_Chain.toInt then PalSearchMethod.POPMUSIC_CHAIN
  else if mSearchMethod = Search.Popmusic_Tabu_Chain.toInt then
    PalSearchMethod.POPMUSIC_TABU_CHAIN
  else if mSearchMethod = Search.Falp.toInt then PalSearchMethod.FALP
  else PalSearchMethod.CHAIN

/-- The `switch` of `processProvider` on `provider->upsidedownLabels()`;
`none` is the `default` branch. -/
def upsidedownLabels (setting : Int) : Option PalUpsideDownLabels :=
  if setting = UpsideDownLabels.Upright.toInt then some PalUpsideDownLabels.Upright
  else if setting = UpsideDownLabels.ShowDefined.toInt then some PalUpsideDownLabels.ShowDefined
  else if setting = UpsideDownLabels.ShowAll.toInt then some PalUpsideDownLabels.ShowAll
  else none

/-- The calls of `processProvider` from `p.addLayer` to `l->setCentroidInside`. -/
def configureLayer (m : ProviderMembers) : List Event :=
  [Event.addLayer (m.mLayerId, m.mProviderId) m.mName m.mPlacement m.mPriority true
      (testProviderFlag m.mFlags ProviderFlag.DrawLabels)
      (testProviderFlag m.mFlags ProviderFlag.DrawAllLabels),
    Event.setArrangementFlags (m.mLayerId, m.mProviderId) m.mLinePlacementFlags,
    Event.setLabelMode (m.mLayerId, m.mProviderId)
      (if testProviderFlag m.mFlags ProviderFlag.LabelPerFeaturePart
        then PalLabelMode.LabelPerFeaturePart else PalLabelMode.LabelPerFeature),
    Event.setMergeConnectedLines (m.mLayerId, m.mProviderId)
      (testProviderFlag m.mFlags ProviderFlag.MergeConnectedLines),
    Event.setObstacleType (m.mLayerId, m.mProviderId) m.mObstacleType,
    Event.setCentroidInside (m.mLayerId, m.mProviderId)
      (testProviderFlag m.mFlags ProviderFlag.CentroidMustBeInside)]

/-- The loop of `processProvider` over the features: `l->registerFeature( feature )`
for each feature in turn; an exception is caught and the loop goes on. -/
def registerFeatures (env : RunEnvironment) (layer : String × String) :
    List QgsLabelFeature → List Event
  | [] => []
  | feature :: rest =>
    Event.registerFeature layer feature (!env.registerFails layer feature) ::
      registerFeatures env layer rest

mutual

/-- The function `QgsLabelingEngine::processProvider( provider, context, p )`. -/
def processProvider (env : RunEnvironment) : QgsAbstractLabelProvider → RunState → Outcome
  | QgsAbstractLabelProvider.mk m features subProviders, st =>
    let st := { st with calls := st.calls ++ configureLayer m }
    match upsidedownLabels m.mUpsidedownLabels with
    | none =>
      if env.assertsEnabled then Outcome.aborted st else Outcome.continues st
    | some upsdnlabels =>
      let st := { st with calls := st.calls ++
        [Event.setUpsidedownLabels (m.mLayerId, m.mProviderId) upsdnlabels] }
      let st := { st with
        calls := st.calls ++ registerFeatures env (m.mLayerId, m.mProviderId) features }
      processSubProviders env subProviders st

/-- The loop of `processProvider` over `provider->subProviders()`. -/
def processSubProviders (env : RunEnvironment) :
    List QgsAbstractLabelProvider → RunState → Outcome
  | [], st => Outcome.continues st
  | subProvider :: rest, st =>
    let st := { st with engine :=
      { st.engine with mSubProviders := st.engine.mSubProviders ++ [subProvider] } }
    match processProvider env subProvider st with
    | Outcome.aborted st => Outcome.aborted st
    | Outcome.continues st => processSubProviders env rest st

end

/-- The loop of `run` over `mProviders`. -/
def processProviders (env : RunEnvironment) :
    List QgsAbstractLabelProvider → RunState → Outcome
  | [], st => Outcome.continues st
  | provider :: rest, st =>
    match processProvider env provider st with
    | Outcome.aborted st => Outcome.aborted st
    | Outcome.continues st => processProviders env rest st

/-- The loops of `run` that draw the rectangles of all candidates: features in
order, and the candidates of each feature in order. -/
def drawCandidates : List (List LabelPosition) → List Event
  | [] => []
  | cands :: rest => cands.map Event.drawLabelCandidateRect ++ drawCandidates rest

/-- The loop of `run` that draws the labels. `poll` is the number of the next
poll of the cancellation predicate. -/
def drawLabels (env : RunEnvironment) : Nat → List LabelPosition → List Event
  | _, [] => []
  | poll, lp :: rest =>
    if env.renderingStopped poll then []
    else
      match lp.feature with
      | none => drawLabels env (poll + 1) rest
      | some _ => Event.drawLabel lp :: drawLabels env (poll + 1) rest

/-- The first part of `run`: the solver is configured and every provider is processed. -/
def registerProviders (e : QgsLabelingEngine) (env : RunEnvironment) : Outcome :=
  let st : RunState := ⟨e,
    [Event.setSearch (searchMethod e.mSearchMethod),
      Event.setPointP e.mCandPoint,
      Event.setLineP e.mCandLine,
      Event.setPolyP e.mCandPolygon,
      Event.setShowPartial (testFlag e.mFlags Flag.UsePartialCandidates)]⟩
  processProviders env e.mProviders st

/-- The statement `delete problem`: a release when the pointer is not null. -/
def deleteProblem : Option Problem → List Event
  | none => []
  | some _ => [Event.deleteProblem]

/-- The block of `run` guarded by `mFlags.testFlag( DrawCandidates ) && problem`. -/
def drawAllCandidates (mFlags : Nat) : Option Problem → List Event
  | none => []
  | some problem =>
    if testFlag mFlags Flag.DrawCandidates then
      Event.setBrushNoBrush :: drawCandidates problem.candidates
    else []

/-- The second part of `run`, from `registerCancellationCallback` on. -/
def layout (env : RunEnvironment) (st : RunState) : RunResult :=
  let calls := st.calls ++ [Event.registerCancellationCallback]
  let calls := calls ++ [Event.extractProblem env.extractProblem]
  match env.extractProblem with
  | ExtractResult.exception _ => ⟨st.engine, calls, RunExit.extractionFailed⟩
  | ExtractResult.problem problem =>
    if env.renderingStopped 0 then
      ⟨st.engine, calls ++ deleteProblem problem, RunExit.cancelledAfterExtraction⟩
    else
      let calls := calls ++ drawAllCandidates st.engine.mFlags problem
      let displayAll := testFlag st.engine.mFlags Flag.UseAllLabels
      let labels := env.solveProblem problem displayAll
      let calls := calls ++ [Event.solveProblem problem displayAll]
      if env.renderingStopped 1 then
        ⟨st.engine, calls ++ deleteProblem problem ++ [Event.deleteLabels],
          RunExit.cancelledAfterSolving⟩
      else
        let calls := calls ++ [Event.setRenderHintAntialiasing]
        match sortLabelPositions st.engine.mMapSettings.layerIds env.epsilon labels with
        | none => ⟨st.engine, calls, RunExit.nullFeatureInSort⟩
        | some sorted =>
          let calls := calls ++ drawLabels env 2 sorted
          let calls := calls ++ [Event.setCompositionModeSourceOver]
          ⟨st.engine, calls ++ deleteProblem problem ++ [Event.deleteLabels],
            RunExit.completed⟩

/-- The function `QgsLabelingEngine::run( context )`. -/
def run (e : QgsLabelingEngine) (env : RunEnvironment) : RunResult :=
  match registerProviders e env with
  | Outcome.aborted st => ⟨st.engine, st.calls, RunExit.assertionFailed⟩
  | Outcome.continues st => layout env st

end QgsLabelingEngine

/-! ## The position-order codec -/

/-- The enumerators of `QgsPalLayerSettings::PredefinedPointPosition` named in
the two functions of `QgsLabelingUtils`. -/
inductive PredefinedPointPosition where
  | TopLeft
  | TopSlightlyLeft
  | TopMiddle
  | TopSlightlyRight
  | TopRight
  | MiddleLeft
  | MiddleRight
  | BottomLeft
  | BottomSlightlyLeft
  | BottomMiddle
  | BottomSlightlyRight
  | BottomRight
  deriving DecidableEq, Repr

/-- A `QString`, as the list of its characters. -/
abbrev QString := List Char

/-- The test `QChar::isSpace()` of Qt: the space U+0020, the controls U+0009 to
U+000D, U+0085, U+00A0, and the characters of the Unicode separator
categories (space, line and paragraph separators). -/
def QChar.isSpace (c : Char) : Bool :=
  decide (c.toNat = 0x20 ∨ (0x09 ≤ c.toNat ∧ c.toNat ≤ 0x0d) ∨ c.toNat = 0x85 ∨
    c.toNat = 0xa0 ∨ c.toNat = 0x1680 ∨ (0x2000 ≤ c.toNat ∧ c.toNat ≤ 0x200a) ∨
    c.toNat = 0x2028 ∨ c.toNat = 0x2029 ∨ c.toNat = 0x202f ∨ c.toNat = 0x205f ∨
    c.toNat = 0x3000)

/-- The upper-case form of a character, for the letters `a` to `z`; every
other character is left as it is. -/
def QChar.toUpper (c : Char) : Char :=
  if 0x61 ≤ c.toNat ∧ c.toNat ≤ 0x7a then Char.ofNat (c.toNat - 0x20) else c

/-- The call `QString::split( sep )` of Qt, which keeps empty parts: the
pieces between the occurrences of `sep`. A string without `sep` is one piece,
also when it is empty. -/
def QString.split (sep : Char) : QString → List QString
  | [] => [[]]
  | c :: cs =>
    if c = sep then [] :: QString.split sep cs
    else
      match QString.split sep cs with
      | [] => [[c]]
      | piece :: pieces => (c :: piece) :: pieces

/-- The call `QString::trimmed()` of Qt: the string without the white space at
its start and at its end. -/
def QString.trimmed (s : QString) : QString :=
  ((s.dropWhile QChar.isSpace).reverse.dropWhile QChar.isSpace).reverse

/-- The call `QString::toUpper()` of Qt on the letters `a` to `z`. The case
mapping of Qt for letters outside ASCII is not modelled: such characters are
left as they are. -/
def QString.toUpper (s : QString) : QString :=
  s.map QChar.toUpper

/-- The call `QStringList::join( sep )` of Qt: the strings of the list with
`sep` between each two neighbours. -/
def QStringList.join (sep : QString) : List QString → QString
  | [] => []
  | [s] => s
  | s :: rest => s ++ sep ++ QStringList.join sep rest

namespace QgsLabelingUtils

/-- The `switch` of `encodePredefinedPositionOrder`: the string appended for a position. -/
def positionCode : PredefinedPointPosition → QString
  | PredefinedPointPosition.TopLeft => ['T', 'L']
  | PredefinedPointPosition.TopSlightlyLeft => ['T', 'S', 'L']
  | PredefinedPointPosition.TopMiddle => ['T']
  | PredefinedPointPosition.TopSlightlyRight => ['T', 'S', 'R']
  | PredefinedPointPosition.TopRight => ['T', 'R']
  | PredefinedPointPosition.MiddleLeft => ['L']
  | PredefinedPointPosition.MiddleRight => ['R']
  | PredefinedPointPosition.BottomLeft => ['B', 'L']
  | PredefinedPointPosition.BottomSlightlyLeft => ['B', 'S', 'L']
  | PredefinedPointPosition.BottomMiddle => ['B']
  | PredefinedPointPosition.BottomSlightlyRight => ['B', 'S', 'R']
  | PredefinedPointPosition.BottomRight => ['B', 'R']

/-- The function `QgsLabelingUtils::encodePredefinedPositionOrder( positions )`. -/
def encodePredefinedPositionOrder (positions : List PredefinedPointPosition) : QString :=
  let predefinedOrderString : List QString :=
    positions.foldl (fun predefinedOrderString position =>
      predefinedOrderString ++ [positionCode position]) []
  QStringList.join [','] predefinedOrderString

/-- The chain of `if` and `else if` of `decodePredefinedPositionOrder`: the
position appended for the cleaned token, or `none` when no comparison holds. -/
def decodeToken (cleaned : QString) : Option PredefinedPointPosition :=
  if cleaned = ['T', 'L'] then some PredefinedPointPosition.TopLeft
  else if cleaned = ['T', 'S', 'L'] then some PredefinedPointPosition.TopSlightlyLeft
  else if cleaned = ['T'] then some PredefinedPointPosition.TopMiddle
  else if cleaned = ['T', 'S', 'R'] then some PredefinedPointPosition.TopSlightlyRight
  else if cleaned = ['T', 'R'] then some PredefinedPointPosition.TopRight
  else if cleaned = ['L'] then some PredefinedPointPosition.MiddleLeft
  else if cleaned = ['R'] then some PredefinedPointPosition.MiddleRight
  else if cleaned = ['B', 'L'] then some PredefinedPointPosition.BottomLeft
  else if cleaned = ['B', 'S', 'L'] then some PredefinedPointPosition.BottomSlightlyLeft
  else if cleaned = ['B'] then some PredefinedPointPosition.BottomMiddle
  else if cleaned = ['B', 'S', 'R'] then some PredefinedPointPosition.BottomSlightlyRight
  else if cleaned = ['B', 'R'] then some PredefinedPointPosition.BottomRight
  else none

/-- The function `QgsLabelingUtils::decodePredefinedPositionOrder( positionString )`. -/
def decodePredefinedPositionOrder (positionString : QString) : List PredefinedPointPosition :=
  let predefinedOrderList := QString.split ',' positionString
  predefinedOrderList.foldl (fun result position =>
    let cleaned := QString.toUpper (QString.trimmed position)
    match decodeToken cleaned with
    | some p => result ++ [p]
    | none => result) []

end QgsLabelingUtils

/-! ## Reading the record of calls -/

/-- The state at which a step goes on or stops. -/
def Outcome.state : Outcome → RunState
  | Outcome.continues st => st
  | Outcome.aborted st => st

/-- The calls made before problem extraction: the configuration of the solver
and the calls on pal layers. -/
def Event.isSetupCall : Event → Bool
  | Event.setSearch _ => true
  | Event.setPointP _ => true
  | Event.setLineP _ => true
  | Event.setPolyP _ => true
  | Event.setShowPartial _ => true
  | Event.addLayer _ _ _ _ _ _ _ => true
  | Event.setArrangementFlags _ _ => true
  | Event.setLabelMode _ _ => true
  | Event.setMergeConnectedLines _ _ => true
  | Event.setObstacleType _ _ => true
  | Event.setCentroidInside _ _ => true
  | Event.setUpsidedownLabels _ _ => true
  | Event.registerFeature _ _ _ => true
  | _ => false

/-- The label positions passed to `drawLabel`, in call order. -/
def drawLabelCalls (calls : List Event) : List LabelPosition :=
  calls.filterMap fun ev =>
    match ev with
    | Event.drawLabel lp => some lp
    | _ => none

/-- The label positions passed to `drawLabelCandidateRect`, in call order. -/
def candidateRectCalls (calls : List Event) : List LabelPosition :=
  calls.filterMap fun ev =>
    match ev with
    | Event.drawLabelCandidateRect lp => some lp
    | _ => none

/-- The providers for which `addLayer` made a pal layer, in call order. -/
def addLayerCalls (calls : List Event) : List (String × String) :=
  calls.filterMap fun ev =>
    match ev with
    | Event.addLayer provider _ _ _ _ _ _ => some provider
    | _ => none

/-- The calls of `registerFeature` on the pal layer `layer`, in call order:
the feature, and whether it was registered. -/
def registerFeatureCalls (layer : String × String) (calls : List Event) :
    List (QgsLabelFeature × Bool) :=
  calls.filterMap fun ev =>
    match ev with
    | Event.registerFeature l feature registered =>
      if l = layer then some (feature, registered) else none
    | _ => none

/-- The number of calls of `solveProblem`, each of which makes a solution list. -/
def solveProblemCount (calls : List Event) : Nat :=
  calls.countP fun ev =>
    match ev with
    | Event.solveProblem _ _ => true
    | _ => false

/-- The number of problems made by `extractProblem`. -/
def problemsCreated (calls : List Event) : Nat :=
  calls.countP fun ev =>
    match ev with
    | Event.extractProblem (ExtractResult.problem (some _)) => true
    | _ => false

/-- The number of problems released by `delete problem`. -/
def problemsDeleted (calls : List Event) : Nat :=
  calls.countP fun ev =>
    match ev with
    | Event.deleteProblem => true
    | _ => false

/-- The number of solution lists released by `delete labels`. -/
def labelsDeleted (calls : List Event) : Nat :=
  calls.countP fun ev =>
    match ev with
    | Event.deleteLabels => true
    | _ => false

mutual

/-- The providers of a tree in pre-order: a provider, then the trees of its
sub-providers in list order. -/
def preOrder : QgsAbstractLabelProvider → List QgsAbstractLabelProvider
  | QgsAbstractLabelProvider.mk m features subProviders =>
    QgsAbstractLabelProvider.mk m features subProviders :: preOrderList subProviders

/-- The providers of a list of trees in pre-order. -/
def preOrderList : List QgsAbstractLabelProvider → List QgsAbstractLabelProvider
  | [] => []
  | p :: rest => preOrder p ++ preOrderList rest

end

/-- The arguments of the calls of `solveProblem`, in call order: the problem
and the flag that allows all labels. -/
def solveProblemCalls (calls : List Event) : List (Option Problem × Bool) :=
  calls.filterMap fun ev =>
    match ev with
    | Event.solveProblem problem displayAll => some (problem, displayAll)
    | _ => none

/-- The sub-providers below the providers of a list: for each provider in
turn, the trees of its sub-providers in pre-order. -/
def descendants : List QgsAbstractLabelProvider → List QgsAbstractLabelProvider
  | [] => []
  | p :: rest => preOrderList p.subProviders ++ descendants rest

/-- One run after another on the same engine, one for each environment of the
list: the engine left by a run is the engine of the next. -/
def QgsLabelingEngine.runAll (e : QgsLabelingEngine) : List RunEnvironment → QgsLabelingEngine
  | [] => e
  | env :: rest => QgsLabelingEngine.runAll (e.run env).engine rest

/-- The value of a `QFlags` that holds the flags of a list: their bits combined. -/
def flagsOf : List Flag → Nat
  | [] => 0
  | f :: fs => f.bit ||| flagsOf fs

/-- Every provider of the list has one of the three supported upside-down settings. -/
def allSupported (ps : List QgsAbstractLabelProvider) : Prop :=
  ∀ p ∈ ps, (QgsLabelingEngine.upsidedownLabels p.members.mUpsidedownLabels).isSome = true

/-- The environment in which no registration on the pal layer `layer` fails. -/
def RunEnvironment.withoutFailuresOn (env : RunEnvironment) (layer : String × String) :
    RunEnvironment :=
  { env with registerFails := fun l feature =>
      if l = layer then false else env.registerFails l feature }

/-- The calls other than `registerFeature` on the pal layer `layer`. -/
def withoutRegistrationsOn (layer : String × String) (calls : List Event) : List Event :=
  calls.filter fun ev =>
    match ev with
    | Event.registerFeature l _ _ => !decide (l = layer)
    | _ => true

/-- Two outcomes agree up to the registrations on the pal layer `layer`: both
go on or both stop, with the same engine and with the same calls other than
`registerFeature` on `layer`. -/
inductive Outcome.AgreesUpTo (layer : String × String) : Outcome → Outcome → Prop where
  | continues (a b : RunState) (hengine : a.engine = b.engine)
      (hcalls : withoutRegistrationsOn layer a.calls = withoutRegistrationsOn layer b.calls) :
      Outcome.AgreesUpTo layer (Outcome.continues a) (Outcome.continues b)
  | aborted (a b : RunState) (hengine : a.engine = b.engine)
      (hcalls : withoutRegistrationsOn layer a.calls = withoutRegistrationsOn layer b.calls) :
      Outcome.AgreesUpTo layer (Outcome.aborted a) (Outcome.aborted b)

/-- A project store that holds two of the nine keys. -/
def partialProject : QgsProject :=
  ⟨[(("PAL", "/CandidatesPoint"), QVariant.int 20),
    (("PAL", "/ShowingPartialsLabels"), QVariant.bool false)]⟩

/-! ## Concrete placements used in the examples -/

/-- The tolerance `4 * DBL_EPSILON = 2^-50` of IEEE doubles. -/
def eps50 : ℚ := 1 / 2 ^ 50

/-- A label of layer `roads` with z-index `1.5` times the tolerance and area 3. -/
def zHigh : QgsLabelFeature := ⟨1, 3 / 2 ^ 51, ⟨3, 1⟩, "roads"⟩

/-- A label of layer `roads` with z-index `0.75` times the tolerance and area 2. -/
def zMid : QgsLabelFeature := ⟨2, 3 / 2 ^ 52, ⟨2, 1⟩, "roads"⟩

/-- A label of layer `roads` with z-index 0 and area 1. -/
def zLow : QgsLabelFeature := ⟨3, 0, ⟨1, 1⟩, "roads"⟩

/-- A label of layer `roads` with z-index 0 and area 4. -/
def zLowBig : QgsLabelFeature := ⟨14, 0, ⟨4, 1⟩, "roads"⟩

/-- A label with z-index 0 and area 3 on layer `rivers`. -/
def onRivers : QgsLabelFeature := ⟨4, 0, ⟨3, 1⟩, "rivers"⟩

/-- A label with z-index 0 and area 2 on a layer that is in no layer list used below. -/
def onUnlisted : QgsLabelFeature := ⟨5, 0, ⟨2, 1⟩, "diagrams"⟩

/-- A label with z-index 0 and area 1 on layer `roads`. -/
def onRoads : QgsLabelFeature := ⟨6, 0, ⟨1, 1⟩, "roads"⟩

/-- A small label on layer `rivers`, z-index 0. -/
def onRiversSmall : QgsLabelFeature := ⟨7, 0, ⟨1, 1⟩, "rivers"⟩

/-- The placement A of P2: z-index 1, layer `roads`, size 4x4. -/
def lowZ : QgsLabelFeature := ⟨8, 1, ⟨4, 4⟩, "roads"⟩

/-- The placement B of P2: z-index 2, on the layer `rivers` that comes first in
the layer list, and with the larger size 10x10. -/
def highZ : QgsLabelFeature := ⟨9, 2, ⟨10, 10⟩, "rivers"⟩

/-- A layer list with six entries. -/
def sixLayers : List String := ["l0", "l1", "l2", "l3", "l4", "l5"]

/-- The placement A of P3: z-index 0, layer at position 3, the larger area. -/
def atThree : QgsLabelFeature := ⟨10, 0, ⟨10, 10⟩, "l3"⟩

/-- The placement B of P3: z-index 0, layer at position 5, the smaller area. -/
def atFive : QgsLabelFeature := ⟨11, 0, ⟨4, 4⟩, "l5"⟩

/-- The placement A of P4: z-index 0, layer `roads`, size 10x10. -/
def tenByTen : QgsLabelFeature := ⟨12, 0, ⟨10, 10⟩, "roads"⟩

/-- The placement B of P4: z-index 0, layer `roads`, size 4x4. -/
def fourByFour : QgsLabelFeature := ⟨13, 0, ⟨4, 4⟩, "roads"⟩

/-! ## Concrete providers, label positions and environments used in the examples -/

/-- The members set by the constructor
`QgsAbstractLabelProvider::QgsAbstractLabelProvider( layerId, providerId )`:
no engine, flag `DrawLabels`, placement `AroundPoint` and obstacle type
`PolygonInterior` (both written 0 here), no line placement flags, priority 0.5,
upside-down setting `Upright`, and an empty name. -/
def ProviderMembers.new (layerId providerId : String) : ProviderMembers :=
  { mEngine := none
    mName := ""
    mLayerId := layerId
    mProviderId := providerId
    mFlags := ProviderFlag.DrawLabels.bit
    mPlacement := 0
    mLinePlacementFlags := 0
    mPriority := 1 / 2
    mObstacleType := 0
    mUpsidedownLabels := UpsideDownLabels.Upright.toInt }

/-- A provider without features and without sub-providers. -/
def leafA1 : QgsAbstractLabelProvider :=
  QgsAbstractLabelProvider.mk (ProviderMembers.new "roads" "a1") [] []

/-- A provider with the one sub-provider `leafA1`. -/
def subA : QgsAbstractLabelProvider :=
  QgsAbstractLabelProvider.mk (ProviderMembers.new "roads" "a") [] [leafA1]

/-- A provider without sub-providers. -/
def subB : QgsAbstractLabelProvider :=
  QgsAbstractLabelProvider.mk (ProviderMembers.new "roads" "b") [] []

/-- The provider tree of P10: a root with the two sub-providers `subA` and
`subB`, of which `subA` has one further sub-provider. -/
def rootProvider : QgsAbstractLabelProvider :=
  QgsAbstractLabelProvider.mk (ProviderMembers.new "roads" "") [] [subA, subB]

/-- The label feature number `n` of layer `rivers`. -/
def riverFeature (n : Int) : QgsLabelFeature := ⟨n, 0, ⟨1, 1⟩, "rivers"⟩

/-- The provider of P5: five features and one sub-provider with one feature. -/
def fiveFeatures : QgsAbstractLabelProvider :=
  QgsAbstractLabelProvider.mk (ProviderMembers.new "rivers" "")
    [riverFeature 1, riverFeature 2, riverFeature 3, riverFeature 4, riverFeature 5]
    [QgsAbstractLabelProvider.mk (ProviderMembers.new "rivers" "sub") [riverFeature 6] []]

/-- A provider with one feature whose upside-down setting is none of the three
supported values. -/
def oddProvider : QgsAbstractLabelProvider :=
  QgsAbstractLabelProvider.mk
    { ProviderMembers.new "rivers" "" with mUpsidedownLabels := 7 } [riverFeature 1] []

/-- A label position with the feature `tenByTen`. -/
def lpBig : LabelPosition := ⟨1, some tenByTen⟩

/-- A label position with the feature `fourByFour`. -/
def lpSmall : LabelPosition := ⟨2, some fourByFour⟩

/-- A label position with the feature `lowZ`. -/
def lpLowZ : LabelPosition := ⟨3, some lowZ⟩

/-- A label position whose feature pointer is null. -/
def lpNull : LabelPosition := ⟨4, none⟩

/-- An environment in which no registration fails, extraction gives a problem
with two features of one candidate each, the solver chooses `lpSmall`,
`lpLowZ` and `lpBig`, and nobody cancels. -/
def calmEnvironment : RunEnvironment :=
  { epsilon := eps50
    assertsEnabled := true
    registerFails := fun _ _ => false
    extractProblem := ExtractResult.problem (some ⟨[[lpBig], [lpSmall]]⟩)
    solveProblem := fun _ _ => [lpSmall, lpLowZ, lpBig]
    renderingStopped := fun _ => false }

/-- A freshly constructed engine with the layer list `rivers`, `roads`. -/
def freshEngine : QgsLabelingEngine :=
  { QgsLabelingEngine.new with mMapSettings := ⟨["rivers", "roads"]⟩ }

/-- The environment `calmEnvironment` with cancellation seen at the check
that follows `solveProblem` (poll 1), and not before. -/
def cancelAfterSolving : RunEnvironment :=
  { calmEnvironment with renderingStopped := fun n => decide (n = 1) }

/-- The environment `calmEnvironment` with cancellation seen at the check
that follows `extractProblem` (poll 0). -/
def cancelAfterExtraction : RunEnvironment :=
  { calmEnvironment with renderingStopped := fun _ => true }

/-- The environment `calmEnvironment` with a failing problem extraction. -/
def failingExtraction : RunEnvironment :=
  { calmEnvironment with extractProblem := ExtractResult.exception "bad geometry" }

/-- The engine `freshEngine` with the provider tree `rootProvider` and with
the flag `DrawCandidates` set. -/
def busyEngine : QgsLabelingEngine :=
  { freshEngine with
    mProviders := [rootProvider]
    mFlags := freshEngine.mFlags ||| Flag.DrawCandidates.bit }

/-- An engine whose Results holds one placement. -/
def filledEngine : QgsLabelingEngine :=
  { busyEngine with mResults := some ⟨[lpBig]⟩ }

/-- The environment `calmEnvironment` with cancellation first seen at the
check before the second placement is drawn (poll 3). -/
def cancelAfterFirstLabel : RunEnvironment :=
  { calmEnvironment with renderingStopped := fun n => decide (3 ≤ n) }

/-- The environment `calmEnvironment` with a solver that returns a placement
whose feature pointer is null, followed by `lpBig`. -/
def nullFeatureSolution : RunEnvironment :=
  { calmEnvironment with solveProblem := fun _ _ => [lpNull, lpBig] }

/-- The environment `calmEnvironment` in which the registration of feature
number 3 fails. -/
def thirdFails : RunEnvironment :=
  { calmEnvironment with registerFails := fun _ feature => decide (feature.id = 3) }

/-- The environment `calmEnvironment` in a build in which `Q_ASSERT` does nothing. -/
def withoutAsserts : RunEnvironment :=
  { calmEnvironment with assertsEnabled := false }

/-- A provider whose upside-down setting is none of the three supported
values, with the one sub-provider `subB`. -/
def oddParent : QgsAbstractLabelProvider :=
  QgsAbstractLabelProvider.mk
    { ProviderMembers.new "lakes" "" with mUpsidedownLabels := 7 } [] [subB]

/-- The engine `freshEngine` with the providers `oddParent` and `rootProvider`. -/
def oddEngine : QgsLabelingEngine :=
  { freshEngine with mProviders := [oddParent, rootProvider] }

/-- The engine `freshEngine` with the flag `UseAllLabels` set, the search
method `Falp` and the candidate budgets 8, 9 and 10. -/
def tunedEngine : QgsLabelingEngine :=
  { freshEngine with
    mFlags := freshEngine.mFlags ||| Flag.UseAllLabels.bit
    mSearchMethod := Search.Falp.toInt
    mCandPoint := 8
    mCandLine := 9
    mCandPolygon := 10 }

/-- The engine `freshEngine` with a stored search method that is none of the five. -/
def strangeEngine : QgsLabelingEngine :=
  { freshEngine with mSearchMethod := 9 }

/-- An engine whose list of providers holds `subA` twice. -/
def crowdedEngine : QgsLabelingEngine :=
  { freshEngine with mProviders := [subA, subB, subA] }

/-! ## The comparator -/

theorem qgsDoubleNear_iff (a b epsilon : ℚ) :
    qgsDoubleNear a b epsilon = true ↔ a - b ≤ epsilon ∧ b - a ≤ epsilon := by
  simp [qgsDoubleNear]

theorem qgsDoubleNear_comm (a b epsilon : ℚ) :
    qgsDoubleNear a b epsilon = qgsDoubleNear b a epsilon := by
  simp only [qgsDoubleNear, and_comm]

/-- The three exits of the comparator, as one disjunction. -/
theorem QgsLabelSorter_iff (layerIds : List String) (epsilon : ℚ) (x y : QgsLabelFeature) :
    QgsLabelSorter layerIds epsilon x y = true ↔
      (qgsDoubleNear x.zIndex y.zIndex epsilon = false ∧ x.zIndex < y.zIndex) ∨
      (qgsDoubleNear x.zIndex y.zIndex epsilon = true ∧
        (indexOf layerIds x.layerId ≠ indexOf layerIds y.layerId ∧
          0 ≤ indexOf layerIds x.layerId ∧ 0 ≤ indexOf layerIds y.layerId) ∧
        indexOf layerIds y.layerId < indexOf layerIds x.layerId) ∨
      (qgsDoubleNear x.zIndex y.zIndex epsilon = true ∧
        ¬ (indexOf layerIds x.layerId ≠ indexOf layerIds y.layerId ∧
          0 ≤ indexOf layerIds x.layerId ∧ 0 ≤ indexOf layerIds y.layerId) ∧
        labelArea y < labelArea x) := by
  unfold QgsLabelSorter
  by_cases hn : qgsDoubleNear x.zIndex y.zIndex epsilon = false
  · simp [hn]
  · have hn' : qgsDoubleNear x.zIndex y.zIndex epsilon = true := by simpa using hn
    by_cases hl : indexOf layerIds x.layerId ≠ indexOf layerIds y.layerId ∧
        indexOf layerIds x.layerId ≥ 0 ∧ indexOf layerIds y.layerId ≥ 0
    · simp only [hn', if_pos hl]
      simp [hl.1, hl.2.1, hl.2.2]
    · simp only [hn', if_neg hl]
      have hl' : ¬ (indexOf layerIds x.layerId ≠ indexOf layerIds y.layerId ∧
          0 ≤ indexOf layerIds x.layerId ∧ 0 ≤ indexOf layerIds y.layerId) := hl
      simp [hl']

theorem qgsDoubleNear_false_iff (a b epsilon : ℚ) :
    qgsDoubleNear a b epsilon = false ↔ ¬ (a - b ≤ epsilon ∧ b - a ≤ epsilon) := by
  rw [← qgsDoubleNear_iff]
  simp

theorem near_step_right (e za zb zc : ℚ)
    (h1 : ¬ (za - zb ≤ e ∧ zb - za ≤ e)) (h2 : za < zb)
    (h3 : zb - zc ≤ e ∧ zc - zb ≤ e) (h4 : ¬ (za - zc ≤ e ∧ zc - za ≤ e)) : za < zc := by
  rcases not_and_or.mp h1 with h | h <;> rcases not_and_or.mp h4 with h' | h' <;> linarith

theorem near_step_left (e za zb zc : ℚ)
    (h1 : za - zb ≤ e ∧ zb - za ≤ e)
    (h3 : ¬ (zb - zc ≤ e ∧ zc - zb ≤ e)) (h2 : zb < zc)
    (h4 : ¬ (za - zc ≤ e ∧ zc - za ≤ e)) : za < zc := by
  rcases not_and_or.mp h3 with h | h <;> rcases not_and_or.mp h4 with h' | h' <;> linarith

theorem far_far (e za zb zc : ℚ)
    (h1 : ¬ (za - zb ≤ e ∧ zb - za ≤ e)) (h2 : za < zb)
    (h3 : ¬ (zb - zc ≤ e ∧ zc - zb ≤ e)) (h4 : zb < zc) :
    ¬ (za - zc ≤ e ∧ zc - za ≤ e) ∧ za < zc := by
  refine ⟨?_, by linarith⟩
  rintro ⟨h5, h6⟩
  rcases not_and_or.mp h1 with h | h <;> rcases not_and_or.mp h3 with h' | h' <;> linarith

/-- The comparator with the tolerance test spelled out as two inequalities. -/
theorem QgsLabelSorter_iff_arith (layerIds : List String) (epsilon : ℚ) (x y : QgsLabelFeature) :
    QgsLabelSorter layerIds epsilon x y = true ↔
      (¬ (x.zIndex - y.zIndex ≤ epsilon ∧ y.zIndex - x.zIndex ≤ epsilon) ∧
        x.zIndex < y.zIndex) ∨
      ((x.zIndex - y.zIndex ≤ epsilon ∧ y.zIndex - x.zIndex ≤ epsilon) ∧
        (indexOf layerIds x.layerId ≠ indexOf layerIds y.layerId ∧
          0 ≤ indexOf layerIds x.layerId ∧ 0 ≤ indexOf layerIds y.layerId) ∧
        indexOf layerIds y.layerId < indexOf layerIds x.layerId) ∨
      ((x.zIndex - y.zIndex ≤ epsilon ∧ y.zIndex - x.zIndex ≤ epsilon) ∧
        ¬ (indexOf layerIds x.layerId ≠ indexOf layerIds y.layerId ∧
          0 ≤ indexOf layerIds x.layerId ∧ 0 ≤ indexOf layerIds y.layerId) ∧
        labelArea y < labelArea x) := by
  rw [QgsLabelSorter_iff, qgsDoubleNear_false_iff, qgsDoubleNear_iff]

/-- C1 (as stated, refuted): transitivity fails on the triple `zHigh`, `zMid`, `zLow`,
whose z-indices are pairwise within the tolerance except for the outer pair,
and on the triple `onRivers`, `onUnlisted`, `onRoads` of equal z-index, where
the layer of the middle label is not in the layer list. -/
theorem QgsLabelSorter_not_transitive :
    (QgsLabelSorter ["rivers", "roads"] eps50 zHigh zMid = true ∧
      QgsLabelSorter ["rivers", "roads"] eps50 zMid zLow = true ∧
      QgsLabelSorter ["rivers", "roads"] eps50 zHigh zLow = false) ∧
    (QgsLabelSorter ["rivers", "roads"] eps50 onRivers onUnlisted = true ∧
      QgsLabelSorter ["rivers", "roads"] eps50 onUnlisted onRoads = true ∧
      QgsLabelSorter ["rivers", "roads"] eps50 onRivers onRoads = false) := by
  refine ⟨⟨?_, ?_, ?_⟩, ?_, ?_, ?_⟩ <;>
    simp +decide [QgsLabelSorter, qgsDoubleNear, eps50, zHigh, zMid, zLow, onRivers,
      onUnlisted, onRoads, indexOf, indexOfFrom, labelArea] <;> norm_num

/-- C1 (amended): for placements `a`, `b`, `c` on whose z-indices the
nearly-equal test is transitive, and whose layers are either all found in the
layer list or, where found, at one and the same position: if `a` sorts before
`b` and `b` sorts before `c`, then `a` sorts before `c`. -/
theorem QgsLabelSorter_transitive_of_consistent (layerIds : List String) (epsilon : ℚ)
    (a b c : QgsLabelFeature)
    (hz : ∀ x ∈ [a, b, c], ∀ y ∈ [a, b, c], ∀ z ∈ [a, b, c],
      qgsDoubleNear x.zIndex y.zIndex epsilon = true →
      qgsDoubleNear y.zIndex z.zIndex epsilon = true →
      qgsDoubleNear x.zIndex z.zIndex epsilon = true)
    (hl : (∀ x ∈ [a, b, c], 0 ≤ indexOf layerIds x.layerId) ∨
      (∀ x ∈ [a, b, c], ∀ y ∈ [a, b, c], 0 ≤ indexOf layerIds x.layerId →
        0 ≤ indexOf layerIds y.layerId →
        indexOf layerIds x.layerId = indexOf layerIds y.layerId))
    (hab : QgsLabelSorter layerIds epsilon a b = true)
    (hbc : QgsLabelSorter layerIds epsilon b c = true) :
    QgsLabelSorter layerIds epsilon a c = true := by
  have ma : a ∈ [a, b, c] := by simp
  have mb : b ∈ [a, b, c] := by simp
  have mc : c ∈ [a, b, c] := by simp
  simp only [qgsDoubleNear_iff] at hz
  have hz1 := hz a ma b mb c mc
  have hz2 := hz a ma c mc b mb
  have hz3 := hz b mb a ma c mc
  have hl' : (0 ≤ indexOf layerIds a.layerId ∧ 0 ≤ indexOf layerIds b.layerId ∧
        0 ≤ indexOf layerIds c.layerId) ∨
      ((0 ≤ indexOf layerIds a.layerId → 0 ≤ indexOf layerIds b.layerId →
          indexOf layerIds a.layerId = indexOf layerIds b.layerId) ∧
        (0 ≤ indexOf layerIds a.layerId → 0 ≤ indexOf layerIds c.layerId →
          indexOf layerIds a.layerId = indexOf layerIds c.layerId) ∧
        (0 ≤ indexOf layerIds b.layerId → 0 ≤ indexOf layerIds c.layerId →
          indexOf layerIds b.layerId = indexOf layerIds c.layerId)) := by
    rcases hl with h | h
    · exact Or.inl ⟨h a ma, h b mb, h c mc⟩
    · exact Or.inr ⟨h a ma b mb, h a ma c mc, h b mb c mc⟩
  clear hz hl ma mb mc
  rw [QgsLabelSorter_iff_arith] at hab hbc ⊢
  generalize indexOf layerIds a.layerId = pa at *
  generalize indexOf layerIds b.layerId = pb at *
  generalize indexOf layerIds c.layerId = pc at *
  generalize labelArea a = ra at *
  generalize labelArea b = rb at *
  generalize labelArea c = rc at *
  generalize a.zIndex = za at *
  generalize b.zIndex = zb at *
  generalize c.zIndex = zc at *
  by_cases hac : za - zc ≤ epsilon ∧ zc - za ≤ epsilon
  · -- the outer pair is nearly equal
    rcases hab with ⟨n1, l1⟩ | hab
    · rcases hbc with ⟨n2, l2⟩ | ⟨n2, -, -⟩ | ⟨n2, -, -⟩
      · exact absurd hac (far_far epsilon za zb zc n1 l1 n2 l2).1
      · exact absurd (hz2 hac ⟨n2.2, n2.1⟩) n1
      · exact absurd (hz2 hac ⟨n2.2, n2.1⟩) n1
    · have n1 : za - zb ≤ epsilon ∧ zb - za ≤ epsilon := by
        rcases hab with ⟨n1, -, -⟩ | ⟨n1, -, -⟩ <;> exact n1
      rcases hbc with ⟨n2, l2⟩ | hbc
      · exact absurd (hz3 ⟨n1.2, n1.1⟩ hac) n2
      · right
        by_cases cac : pa ≠ pc ∧ 0 ≤ pa ∧ 0 ≤ pc
        · left
          refine ⟨hac, cac, ?_⟩
          rcases hab with ⟨-, c1, l1⟩ | ⟨-, c1, l1⟩ <;>
            rcases hbc with ⟨-, c2, l2⟩ | ⟨-, c2, l2⟩ <;>
            rcases hl' with h | ⟨h1, h2, h3⟩ <;> omega
        · right
          refine ⟨hac, cac, ?_⟩
          rcases hab with ⟨-, c1, l1⟩ | ⟨-, c1, l1⟩ <;>
            rcases hbc with ⟨-, c2, l2⟩ | ⟨-, c2, l2⟩ <;>
            rcases hl' with h | ⟨h1, h2, h3⟩ <;>
            first | linarith | (exfalso; omega)
  · left
    refine ⟨hac, ?_⟩
    rcases hab with ⟨n1, l1⟩ | ⟨n1, -, -⟩ | ⟨n1, -, -⟩ <;>
      rcases hbc with ⟨n2, l2⟩ | ⟨n2, -, -⟩ | ⟨n2, -, -⟩
    · exact (far_far epsilon za zb zc n1 l1 n2 l2).2
    · exact near_step_right epsilon za zb zc n1 l1 n2 hac
    · exact near_step_right epsilon za zb zc n1 l1 n2 hac
    · exact near_step_left epsilon za zb zc n1 n2 l2 hac
    · exact absurd (hz1 n1 n2) hac
    · exact absurd (hz1 n1 n2) hac
    · exact near_step_left epsilon za zb zc n1 n2 l2 hac
    · exact absurd (hz1 n1 n2) hac
    · exact absurd (hz1 n1 n2) hac

theorem QgsLabelSorter_transitive_of_consistent_witness :
    QgsLabelSorter ["rivers", "roads"] eps50 onRoads onRivers = true ∧
    QgsLabelSorter ["rivers", "roads"] eps50 onRivers onRiversSmall = true ∧
    QgsLabelSorter ["rivers", "roads"] eps50 onRoads onRiversSmall = true := by
  have h1 : QgsLabelSorter ["rivers", "roads"] eps50 onRoads onRivers = true := by
    simp +decide [QgsLabelSorter, qgsDoubleNear, eps50, onRoads, onRivers, indexOf, indexOfFrom]
  have h2 : QgsLabelSorter ["rivers", "roads"] eps50 onRivers onRiversSmall = true := by
    simp +decide [QgsLabelSorter, qgsDoubleNear, eps50, onRiversSmall, onRivers, indexOf,
      indexOfFrom, labelArea]
  refine ⟨h1, h2, QgsLabelSorter_transitive_of_consistent ["rivers", "roads"] eps50
    onRoads onRivers onRiversSmall ?_ ?_ h1 h2⟩
  · intro x _ y _ z _ _ _
    simp only [List.mem_cons, List.mem_singleton, List.not_mem_nil, or_false] at *
    rcases ‹x = _ ∨ _› with h | h | h <;> rcases ‹z = _ ∨ _› with h' | h' | h' <;>
      subst h <;> subst h' <;>
      simp [qgsDoubleNear, eps50, onRoads, onRivers, onRiversSmall]
  · left
    intro x hx
    simp only [List.mem_cons, List.mem_singleton, List.not_mem_nil, or_false] at hx
    rcases hx with h | h | h <;> subst h <;>
      simp +decide [onRoads, onRivers, onRiversSmall, indexOf, indexOfFrom]

/-- C2: the comparator is irreflexive and asymmetric: no placement sorts before
itself, and two placements never sort before each other both ways. -/
theorem QgsLabelSorter_irreflexive_asymmetric (layerIds : List String) (epsilon : ℚ)
    (a b : QgsLabelFeature) :
    QgsLabelSorter layerIds epsilon a a = false ∧
    ¬ (QgsLabelSorter layerIds epsilon a b = true ∧
        QgsLabelSorter layerIds epsilon b a = true) := by
  constructor
  · cases h : QgsLabelSorter layerIds epsilon a a
    · rfl
    · rw [QgsLabelSorter_iff_arith] at h
      rcases h with ⟨-, l⟩ | ⟨-, ⟨c, -⟩, -⟩ | ⟨-, -, l⟩
      · exact absurd l (lt_irrefl _)
      · exact absurd rfl c
      · exact absurd l (lt_irrefl _)
  · rintro ⟨hab, hba⟩
    rw [QgsLabelSorter_iff_arith] at hab hba
    rcases hab with ⟨n1, l1⟩ | ⟨n1, c1, l1⟩ | ⟨n1, c1, l1⟩ <;>
      rcases hba with ⟨n2, l2⟩ | ⟨n2, c2, l2⟩ | ⟨n2, c2, l2⟩
    · exact absurd l2 (not_lt.mpr l1.le)
    · exact n1 ⟨n2.2, n2.1⟩
    · exact n1 ⟨n2.2, n2.1⟩
    · exact n2 ⟨n1.2, n1.1⟩
    · omega
    · exact c2 ⟨c1.1.symm, c1.2.2, c1.2.1⟩
    · exact n2 ⟨n1.2, n1.1⟩
    · exact c1 ⟨c2.1.symm, c2.2.2, c2.2.1⟩
    · exact absurd l2 (not_lt.mpr l1.le)

/-- C3: z-index dominates: when the z-indices of `A` and `B` are not nearly
equal and `A` has the lower one, `A` sorts before `B` and `B` does not sort
before `A`, whatever the layer positions and the areas. -/
theorem QgsLabelSorter_zIndex_dominates (layerIds : List String) (epsilon : ℚ)
    (A B : QgsLabelFeature)
    (hfar : qgsDoubleNear A.zIndex B.zIndex epsilon = false)
    (hlt : A.zIndex < B.zIndex) :
    QgsLabelSorter layerIds epsilon A B = true ∧
    QgsLabelSorter layerIds epsilon B A = false := by
  constructor
  · rw [QgsLabelSorter_iff]
    exact Or.inl ⟨hfar, hlt⟩
  · have hfar' : qgsDoubleNear B.zIndex A.zIndex epsilon = false := by
      rw [qgsDoubleNear_comm]; exact hfar
    simp [QgsLabelSorter, hfar', hlt.le]

theorem QgsLabelSorter_zIndex_dominates_witness :
    indexOf ["rivers", "roads"] highZ.layerId < indexOf ["rivers", "roads"] lowZ.layerId ∧
    labelArea lowZ < labelArea highZ ∧
    QgsLabelSorter ["rivers", "roads"] eps50 lowZ highZ = true ∧
    QgsLabelSorter ["rivers", "roads"] eps50 highZ lowZ = false :=
  ⟨by simp +decide [indexOf, indexOfFrom, lowZ, highZ],
   by norm_num [labelArea, lowZ, highZ],
   QgsLabelSorter_zIndex_dominates ["rivers", "roads"] eps50 lowZ highZ
     (by norm_num [qgsDoubleNear, eps50, lowZ, highZ])
     (by norm_num [lowZ, highZ])⟩

/-- C4: layer order breaks z-index ties: for nearly equal z-indices and two
layers found at different positions of the layer list, `A` sorts before `B`
exactly when the layer of `A` has the higher position, and likewise with the
roles exchanged; the areas play no part. -/
theorem QgsLabelSorter_layer_breaks_ties (layerIds : List String) (epsilon : ℚ)
    (A B : QgsLabelFeature)
    (hnear : qgsDoubleNear A.zIndex B.zIndex epsilon = true)
    (hA : 0 ≤ indexOf layerIds A.layerId) (hB : 0 ≤ indexOf layerIds B.layerId)
    (hne : indexOf layerIds A.layerId ≠ indexOf layerIds B.layerId) :
    (QgsLabelSorter layerIds epsilon A B = true ↔
      indexOf layerIds B.layerId < indexOf layerIds A.layerId) ∧
    (QgsLabelSorter layerIds epsilon B A = true ↔
      indexOf layerIds A.layerId < indexOf layerIds B.layerId) := by
  have hnear' : qgsDoubleNear B.zIndex A.zIndex epsilon = true := by
    rw [qgsDoubleNear_comm]; exact hnear
  constructor
  · simp [QgsLabelSorter, hnear, hA, hB, hne]
  · simp [QgsLabelSorter, hnear', hA, hB, hne.symm]

theorem QgsLabelSorter_layer_breaks_ties_witness :
    indexOf sixLayers atThree.layerId = 3 ∧ indexOf sixLayers atFive.layerId = 5 ∧
    labelArea atFive < labelArea atThree ∧
    QgsLabelSorter sixLayers eps50 atFive atThree = true ∧
    QgsLabelSorter sixLayers eps50 atThree atFive = false := by
  have h3 : indexOf sixLayers atThree.layerId = 3 := by
    simp +decide [indexOf, indexOfFrom, sixLayers, atThree]
  have h5 : indexOf sixLayers atFive.layerId = 5 := by
    simp +decide [indexOf, indexOfFrom, sixLayers, atFive]
  have h := QgsLabelSorter_layer_breaks_ties sixLayers eps50 atThree atFive
    (by norm_num [qgsDoubleNear, eps50, atThree, atFive])
    (by rw [h3]; decide) (by rw [h5]; decide) (by rw [h3, h5]; decide)
  rw [h3, h5] at h
  refine ⟨h3, h5, by norm_num [labelArea, atThree, atFive], h.2.mpr (by decide), ?_⟩
  cases hc : QgsLabelSorter sixLayers eps50 atThree atFive
  · rfl
  · exact absurd (h.1.mp hc) (by decide)

/-- C5: for nearly equal z-indices, when the layer of `A` or the layer of `B`
is not found in the layer list, `A` sorts before `B` exactly when the area of
`A` is larger than the area of `B`. -/
theorem QgsLabelSorter_absent_layer_uses_area (layerIds : List String) (epsilon : ℚ)
    (A B : QgsLabelFeature)
    (hnear : qgsDoubleNear A.zIndex B.zIndex epsilon = true)
    (habsent : indexOf layerIds A.layerId < 0 ∨ indexOf layerIds B.layerId < 0) :
    (QgsLabelSorter layerIds epsilon A B = true ↔
      A.size.width * A.size.height > B.size.width * B.size.height) := by
  have hc : ¬ (indexOf layerIds A.layerId ≠ indexOf layerIds B.layerId ∧
      indexOf layerIds A.layerId ≥ 0 ∧ indexOf layerIds B.layerId ≥ 0) := by
    rintro ⟨-, h1, h2⟩
    rcases habsent with h | h <;> omega
  simp [QgsLabelSorter, hnear, hc, labelArea]

theorem QgsLabelSorter_absent_layer_uses_area_witness :
    indexOf ["rivers", "roads"] onUnlisted.layerId < 0 ∧
    QgsLabelSorter ["rivers", "roads"] eps50 onUnlisted onRoads = true ∧
    QgsLabelSorter ["rivers", "roads"] eps50 onUnlisted onRivers = false := by
  have hu : indexOf ["rivers", "roads"] onUnlisted.layerId < 0 := by
    simp +decide [indexOf, indexOfFrom, onUnlisted]
  refine ⟨hu, ?_, ?_⟩
  · exact (QgsLabelSorter_absent_layer_uses_area ["rivers", "roads"] eps50 onUnlisted onRoads
      (by norm_num [qgsDoubleNear, eps50, onUnlisted, onRoads]) (Or.inl hu)).mpr
      (by norm_num [onUnlisted, onRoads])
  · cases hc : QgsLabelSorter ["rivers", "roads"] eps50 onUnlisted onRivers
    · rfl
    · exact absurd ((QgsLabelSorter_absent_layer_uses_area ["rivers", "roads"] eps50
        onUnlisted onRivers (by norm_num [qgsDoubleNear, eps50, onUnlisted, onRivers])
        (Or.inl hu)).mp hc) (by norm_num [onUnlisted, onRivers])

/-- C6: area breaks the remaining ties: for nearly equal z-indices and layer
positions that are equal, or of which one is absent, `A` sorts before `B`
exactly when the area (width times height) of `A` is strictly larger. -/
theorem QgsLabelSorter_area_breaks_ties (layerIds : List String) (epsilon : ℚ)
    (A B : QgsLabelFeature)
    (hnear : qgsDoubleNear A.zIndex B.zIndex epsilon = true)
    (hpos : indexOf layerIds A.layerId = indexOf layerIds B.layerId ∨
      indexOf layerIds A.layerId < 0 ∨ indexOf layerIds B.layerId < 0) :
    (QgsLabelSorter layerIds epsilon A B = true ↔
      B.size.width * B.size.height < A.size.width * A.size.height) := by
  have hc : ¬ (indexOf layerIds A.layerId ≠ indexOf layerIds B.layerId ∧
      indexOf layerIds A.layerId ≥ 0 ∧ indexOf layerIds B.layerId ≥ 0) := by
    rintro ⟨h0, h1, h2⟩
    rcases hpos with h | h | h
    · exact h0 h
    · omega
    · omega
  simp [QgsLabelSorter, hnear, hc, labelArea]

theorem QgsLabelSorter_area_breaks_ties_witness :
    QgsLabelSorter ["rivers", "roads"] eps50 tenByTen fourByFour = true ∧
    QgsLabelSorter ["rivers", "roads"] eps50 fourByFour tenByTen = false := by
  constructor
  · exact (QgsLabelSorter_area_breaks_ties ["rivers", "roads"] eps50 tenByTen fourByFour
      (by norm_num [qgsDoubleNear, eps50, tenByTen, fourByFour]) (Or.inl rfl)).mpr
      (by norm_num [tenByTen, fourByFour])
  · cases hc : QgsLabelSorter ["rivers", "roads"] eps50 fourByFour tenByTen
    · rfl
    · exact absurd ((QgsLabelSorter_area_breaks_ties ["rivers", "roads"] eps50 fourByFour
        tenByTen (by norm_num [qgsDoubleNear, eps50, tenByTen, fourByFour])
        (Or.inl rfl)).mp hc) (by norm_num [tenByTen, fourByFour])

/-! ## The sort -/

theorem mem_qSortInsert {α : Type} (lessThan : α → α → Bool) (x y : α) (l : List α) :
    y ∈ qSortInsert lessThan x l ↔ y = x ∨ y ∈ l := by
  induction l with
  | nil => simp [qSortInsert]
  | cons z zs ih =>
    unfold qSortInsert
    by_cases h : lessThan z x = true
    · simp only [h, if_true, List.mem_cons, ih]
      tauto
    · simp only [h, List.mem_cons]
      simp

theorem mem_qSort {α : Type} (lessThan : α → α → Bool) (y : α) (l : List α) :
    y ∈ qSort lessThan l ↔ y ∈ l := by
  induction l with
  | nil => simp [qSort]
  | cons z zs ih => simp [qSort, mem_qSortInsert, ih]

/-- Inserting into a list without adjacent inversions leaves it without adjacent
inversions, for every asymmetric `lessThan`. -/
theorem chain_qSortInsert {α : Type} (lessThan : α → α → Bool)
    (hasym : ∀ a b, lessThan a b = true → lessThan b a = false) (x : α) (l : List α)
    (hl : List.Chain' (fun a b => lessThan b a = false) l) :
    List.Chain' (fun a b => lessThan b a = false) (qSortInsert lessThan x l) := by
  induction l with
  | nil => simp [qSortInsert]
  | cons y ys ih =>
    unfold qSortInsert
    by_cases h : lessThan y x = true
    · simp only [h, if_true]
      have ih' := ih hl.tail
      cases ys with
      | nil =>
        simp only [qSortInsert]
        exact List.chain'_pair.mpr (hasym y x h)
      | cons w ws =>
        unfold qSortInsert at ih' ⊢
        have hyw : lessThan w y = false := (List.chain'_cons.mp hl).1
        by_cases h2 : lessThan w x = true
        · simp only [h2, if_true] at ih' ⊢
          exact List.chain'_cons.mpr ⟨hyw, ih'⟩
        · simp only [h2] at ih' ⊢
          exact List.chain'_cons.mpr ⟨hasym y x h, ih'⟩
    · simp only [h]
      have hf : lessThan y x = false := by simpa using h
      exact List.chain'_cons.mpr ⟨hf, hl⟩

theorem chain_qSort {α : Type} (lessThan : α → α → Bool)
    (hasym : ∀ a b, lessThan a b = true → lessThan b a = false) (l : List α) :
    List.Chain' (fun a b => lessThan b a = false) (qSort lessThan l) := by
  induction l with
  | nil => simp [qSort]
  | cons x xs ih => exact chain_qSortInsert lessThan hasym x _ ih

/-- A list without adjacent inversions is left as it is. -/
theorem qSort_eq_self_of_chain {α : Type} (lessThan : α → α → Bool) (l : List α)
    (hl : List.Chain' (fun a b => lessThan b a = false) l) : qSort lessThan l = l := by
  induction l with
  | nil => rfl
  | cons x xs ih =>
    rw [qSort, ih hl.tail]
    cases xs with
    | nil => rfl
    | cons y ys =>
      have hxy : lessThan y x = false := (List.chain'_cons.mp hl).1
      simp [qSortInsert, hxy]

theorem QgsLabelSorter_asymm (layerIds : List String) (epsilon : ℚ) (a b : QgsLabelFeature)
    (h : QgsLabelSorter layerIds epsilon a b = true) :
    QgsLabelSorter layerIds epsilon b a = false := by
  rw [QgsLabelSorter_iff_arith] at h
  cases hc : QgsLabelSorter layerIds epsilon b a
  · rfl
  · rw [QgsLabelSorter_iff_arith] at hc
    exfalso
    rcases h with ⟨n1, l1⟩ | ⟨n1, c1, l1⟩ | ⟨n1, c1, l1⟩ <;>
      rcases hc with ⟨n2, l2⟩ | ⟨n2, c2, l2⟩ | ⟨n2, c2, l2⟩
    · exact absurd l2 (not_lt.mpr l1.le)
    · exact n1 ⟨n2.2, n2.1⟩
    · exact n1 ⟨n2.2, n2.1⟩
    · exact n2 ⟨n1.2, n1.1⟩
    · omega
    · exact c2 ⟨c1.1.symm, c1.2.2, c1.2.1⟩
    · exact n2 ⟨n1.2, n1.1⟩
    · exact c1 ⟨c2.1.symm, c2.2.2, c2.2.1⟩
    · exact absurd l2 (not_lt.mpr l1.le)

/-- Negative transitivity of "lower z-index and not nearly equal", where the
nearly-equal test is transitive on the three values. -/
theorem far_below_split (e zw zy zx : ℚ)
    (hz : (zw - zy ≤ e ∧ zy - zw ≤ e) → (zy - zx ≤ e ∧ zx - zy ≤ e) →
      (zw - zx ≤ e ∧ zx - zw ≤ e))
    (h : ¬ (zw - zx ≤ e ∧ zx - zw ≤ e) ∧ zw < zx)
    (h1 : ¬ (¬ (zw - zy ≤ e ∧ zy - zw ≤ e) ∧ zw < zy))
    (h2 : ¬ (¬ (zy - zx ≤ e ∧ zx - zy ≤ e) ∧ zy < zx)) : False := by
  obtain ⟨hn, hlt⟩ := h
  by_cases n1 : zw - zy ≤ e ∧ zy - zw ≤ e
  · by_cases n2 : zy - zx ≤ e ∧ zx - zy ≤ e
    · exact hn (hz n1 n2)
    · have h3 : ¬ zy < zx := fun h3 => h2 ⟨n2, h3⟩
      rcases not_and_or.mp hn with h4 | h4 <;> linarith [n1.1, n1.2]
  · have h3 : ¬ zw < zy := fun h3 => h1 ⟨n1, h3⟩
    by_cases n2 : zy - zx ≤ e ∧ zx - zy ≤ e
    · rcases not_and_or.mp hn with h4 | h4 <;> linarith [n2.1, n2.2]
    · have h5 : ¬ zy < zx := fun h5 => h2 ⟨n2, h5⟩
      linarith

theorem sorts_before_of_far_below (layerIds : List String) (epsilon : ℚ)
    (a b : QgsLabelFeature)
    (h : qgsDoubleNear a.zIndex b.zIndex epsilon = false ∧ a.zIndex < b.zIndex) :
    QgsLabelSorter layerIds epsilon a b = true ∧ QgsLabelSorter layerIds epsilon b a = false :=
  have h1 : QgsLabelSorter layerIds epsilon a b = true :=
    (QgsLabelSorter_iff layerIds epsilon a b).mpr (Or.inl h)
  ⟨h1, QgsLabelSorter_asymm layerIds epsilon a b h1⟩

/-- Insertion keeps every pair with z-indices that are not nearly equal in
ascending z order, where the nearly-equal test is transitive on the z-indices
at hand. -/
theorem pairwise_qSortInsert (layerIds : List String) (epsilon : ℚ) (x : QgsLabelFeature)
    (l : List QgsLabelFeature)
    (hz : ∀ u ∈ x :: l, ∀ v ∈ x :: l, ∀ w ∈ x :: l,
      qgsDoubleNear u.zIndex v.zIndex epsilon = true →
      qgsDoubleNear v.zIndex w.zIndex epsilon = true →
      qgsDoubleNear u.zIndex w.zIndex epsilon = true)
    (hl : l.Pairwise (fun a b =>
      ¬ (qgsDoubleNear b.zIndex a.zIndex epsilon = false ∧ b.zIndex < a.zIndex))) :
    (qSortInsert (QgsLabelSorter layerIds epsilon) x l).Pairwise (fun a b =>
      ¬ (qgsDoubleNear b.zIndex a.zIndex epsilon = false ∧ b.zIndex < a.zIndex)) := by
  induction l with
  | nil => simp [qSortInsert]
  | cons y ys ih =>
    have hys := List.pairwise_cons.mp hl
    unfold qSortInsert
    by_cases h : QgsLabelSorter layerIds epsilon y x = true
    · simp only [h, if_true]
      refine List.pairwise_cons.mpr ⟨?_, ih ?_ hys.2⟩
      · intro w hw
        rcases (mem_qSortInsert _ x w ys).mp hw with rfl | hw
        · intro hfar
          have := (sorts_before_of_far_below layerIds epsilon w y hfar).2
          rw [h] at this
          exact Bool.noConfusion this
        · exact hys.1 w hw
      · intro u hu v hv w hw
        have sub : ∀ t, t ∈ x :: ys → t ∈ x :: y :: ys := by
          intro t ht
          rcases List.mem_cons.mp ht with rfl | ht
          · exact List.mem_cons_self _ _
          · exact List.mem_cons_of_mem _ (List.mem_cons_of_mem _ ht)
        exact hz u (sub u hu) v (sub v hv) w (sub w hw)
    · simp only [h]
      have hyx : ¬ (qgsDoubleNear y.zIndex x.zIndex epsilon = false ∧ y.zIndex < x.zIndex) :=
        fun hfar => h (sorts_before_of_far_below layerIds epsilon y x hfar).1
      refine List.pairwise_cons.mpr ⟨?_, hl⟩
      intro w hw
      rcases List.mem_cons.mp hw with rfl | hw
      · exact hyx
      · intro hfar
        have hwy := hys.1 w hw
        have mw : w ∈ x :: y :: ys := List.mem_cons_of_mem _ (List.mem_cons_of_mem _ hw)
        have my : y ∈ x :: y :: ys := List.mem_cons_of_mem _ (List.mem_cons_self _ _)
        have mx : x ∈ x :: y :: ys := List.mem_cons_self _ _
        have hz' := hz w mw y my x mx
        simp only [qgsDoubleNear_iff, qgsDoubleNear_false_iff] at hz' hfar hwy hyx
        exact far_below_split epsilon w.zIndex y.zIndex x.zIndex hz' hfar hwy hyx

/-- C7 (as stated, refuted): the list `zLowBig`, `zHigh`, `zMid`, `zLow` is left
in this order by the sort, although the z-index of `zLow` is lower than, and
not nearly equal to, the z-index of `zHigh`: the sorted list does not draw
lower z-index first. -/
theorem sortLabels_lower_zIndex_not_first :
    sortLabels ["rivers", "roads"] eps50 [zLowBig, zHigh, zMid, zLow] =
      [zLowBig, zHigh, zMid, zLow] ∧
    qgsDoubleNear zLow.zIndex zHigh.zIndex eps50 = false ∧
    zLow.zIndex < zHigh.zIndex ∧
    ¬ (sortLabels ["rivers", "roads"] eps50 [zLowBig, zHigh, zMid, zLow]).Pairwise
      (fun earlier later =>
        ¬ (qgsDoubleNear later.zIndex earlier.zIndex eps50 = false ∧
            later.zIndex < earlier.zIndex)) := by
  have e1 : QgsLabelSorter ["rivers", "roads"] eps50 zLow zMid = false := by
    norm_num [QgsLabelSorter, qgsDoubleNear, eps50, zMid, zLow, indexOf, indexOfFrom, labelArea]
  have e2 : QgsLabelSorter ["rivers", "roads"] eps50 zMid zHigh = false := by
    norm_num [QgsLabelSorter, qgsDoubleNear, eps50, zMid, zHigh, indexOf, indexOfFrom, labelArea]
  have e3 : QgsLabelSorter ["rivers", "roads"] eps50 zHigh zLowBig = false := by
    norm_num [QgsLabelSorter, qgsDoubleNear, eps50, zLowBig, zHigh]
  have hs : sortLabels ["rivers", "roads"] eps50 [zLowBig, zHigh, zMid, zLow] =
      [zLowBig, zHigh, zMid, zLow] := by
    simp [sortLabels, qSort, qSortInsert, e1, e2, e3]
  have hfar : qgsDoubleNear zLow.zIndex zHigh.zIndex eps50 = false := by
    norm_num [qgsDoubleNear, eps50, zHigh, zLow]
  have hlow : zLow.zIndex < zHigh.zIndex := by
    norm_num [zHigh, zLow]
  refine ⟨hs, hfar, hlow, ?_⟩
  rw [hs]
  intro hp
  have h1 := (List.pairwise_cons.mp (List.pairwise_cons.mp hp).2).1 zLow (by simp)
  exact h1 ⟨hfar, hlow⟩

/-- C7 (amended): for every list of placements on whose z-indices the
nearly-equal test is transitive, the sorted list draws lower z-index first:
no placement is preceded by one whose z-index is higher and not nearly equal. -/
theorem sortLabels_lower_zIndex_first (layerIds : List String) (epsilon : ℚ)
    (labels : List QgsLabelFeature)
    (hz : ∀ u ∈ labels, ∀ v ∈ labels, ∀ w ∈ labels,
      qgsDoubleNear u.zIndex v.zIndex epsilon = true →
      qgsDoubleNear v.zIndex w.zIndex epsilon = true →
      qgsDoubleNear u.zIndex w.zIndex epsilon = true) :
    (sortLabels layerIds epsilon labels).Pairwise (fun earlier later =>
      ¬ (qgsDoubleNear later.zIndex earlier.zIndex epsilon = false ∧
          later.zIndex < earlier.zIndex)) := by
  unfold sortLabels
  induction labels with
  | nil => simp [qSort]
  | cons x xs ih =>
    rw [qSort]
    refine pairwise_qSortInsert layerIds epsilon x _ ?_ (ih ?_)
    · have sub : ∀ t, t ∈ x :: qSort (QgsLabelSorter layerIds epsilon) xs → t ∈ x :: xs := by
        intro t ht
        rcases List.mem_cons.mp ht with rfl | ht
        · exact List.mem_cons_self _ _
        · exact List.mem_cons_of_mem _ ((mem_qSort _ t xs).mp ht)
      intro u hu v hv w hw
      exact hz u (sub u hu) v (sub v hv) w (sub w hw)
    · intro u hu v hv w hw
      exact hz u (List.mem_cons_of_mem _ hu) v (List.mem_cons_of_mem _ hv) w
        (List.mem_cons_of_mem _ hw)

/-- C8: sorting is idempotent: sorting a sorted list of placements again gives
the same order. -/
theorem sortLabels_idempotent (layerIds : List String) (epsilon : ℚ)
    (labels : List QgsLabelFeature) :
    sortLabels layerIds epsilon (sortLabels layerIds epsilon labels) =
      sortLabels layerIds epsilon labels := by
  unfold sortLabels
  exact qSort_eq_self_of_chain _ _
    (chain_qSort _ (QgsLabelSorter_asymm layerIds epsilon) labels)

theorem sortLabels_lower_zIndex_first_witness :
    sortLabels ["rivers", "roads"] eps50 [highZ, lowZ, tenByTen] = [tenByTen, lowZ, highZ] ∧
    (sortLabels ["rivers", "roads"] eps50 [highZ, lowZ, tenByTen]).Pairwise
      (fun earlier later =>
        ¬ (qgsDoubleNear later.zIndex earlier.zIndex eps50 = false ∧
            later.zIndex < earlier.zIndex)) := by
  have e1 : QgsLabelSorter ["rivers", "roads"] eps50 tenByTen lowZ = true := by
    norm_num [QgsLabelSorter, qgsDoubleNear, eps50, tenByTen, lowZ]
  have e2 : QgsLabelSorter ["rivers", "roads"] eps50 tenByTen highZ = true := by
    norm_num [QgsLabelSorter, qgsDoubleNear, eps50, tenByTen, highZ]
  have e3 : QgsLabelSorter ["rivers", "roads"] eps50 lowZ highZ = true := by
    norm_num [QgsLabelSorter, qgsDoubleNear, eps50, lowZ, highZ]
  refine ⟨by simp [sortLabels, qSort, qSortInsert, e1, e2, e3],
    sortLabels_lower_zIndex_first ["rivers", "roads"] eps50 [highZ, lowZ, tenByTen] ?_⟩
  intro u hu v hv w hw
  simp only [List.mem_cons, List.mem_singleton, List.not_mem_nil, or_false] at hu hv hw
  rcases hu with h | h | h <;> rcases hv with h' | h' | h' <;>
    rcases hw with h'' | h'' | h'' <;> subst h <;> subst h' <;> subst h'' <;>
    norm_num [qgsDoubleNear, eps50, highZ, lowZ, tenByTen]

/-! ## Engine settings -/

theorem lookup_filter_ne (k k' : String × String) (hk : k' ≠ k)
    (l : List ((String × String) × QVariant)) :
    (l.filter (fun e => e.1 != k)).lookup k' = l.lookup k' := by
  induction l with
  | nil => rfl
  | cons e es ih =>
    obtain ⟨ek, ev⟩ := e
    by_cases h : ek = k
    · subst h
      have h1 : (k' == ek) = false := by simpa using hk
      simp [List.filter, List.lookup, h1, ih]
    · have h2 : (ek != k) = true := by simpa using h
      simp only [List.filter, h2, List.lookup, ih]

theorem value_writeEntry_same (prj : QgsProject) (scope key : String) (v : QVariant) :
    (prj.writeEntry scope key v).value scope key = some v := by
  simp [QgsProject.writeEntry, QgsProject.value, List.lookup]

theorem value_writeEntry_other (prj : QgsProject) (scope key scope' key' : String)
    (v : QVariant) (h : (scope', key') ≠ (scope, key)) :
    (prj.writeEntry scope key v).value scope' key' = prj.value scope' key' := by
  have h1 : ((scope', key') == (scope, key)) = false := by simpa using h
  simp only [QgsProject.writeEntry, QgsProject.value, List.lookup, h1]
  exact lookup_filter_ne (scope, key) (scope', key') h prj.entries

/-- Every member set by `readSettingsFromProject` is the result of the read of its own key. -/
theorem readSettingsFromProject_fields (e : QgsLabelingEngine) (prj : QgsProject) :
    (e.readSettingsFromProject prj).mSearchMethod =
      prj.readNumEntry "PAL" "/SearchMethod" Search.Chain.toInt ∧
    (e.readSettingsFromProject prj).mCandPoint = prj.readNumEntry "PAL" "/CandidatesPoint" 16 ∧
    (e.readSettingsFromProject prj).mCandLine = prj.readNumEntry "PAL" "/CandidatesLine" 50 ∧
    (e.readSettingsFromProject prj).mCandPolygon =
      prj.readNumEntry "PAL" "/CandidatesPolygon" 30 ∧
    testFlag (e.readSettingsFromProject prj).mFlags Flag.DrawCandidates =
      prj.readBoolEntry "PAL" "/ShowingCandidates" false ∧
    testFlag (e.readSettingsFromProject prj).mFlags Flag.DrawLabelRectOnly =
      prj.readBoolEntry "PAL" "/DrawRectOnly" false ∧
    testFlag (e.readSettingsFromProject prj).mFlags Flag.UseAllLabels =
      prj.readBoolEntry "PAL" "/ShowingAllLabels" false ∧
    testFlag (e.readSettingsFromProject prj).mFlags Flag.UsePartialCandidates =
      prj.readBoolEntry "PAL" "/ShowingPartialsLabels" true ∧
    testFlag (e.readSettingsFromProject prj).mFlags Flag.RenderOutlineLabels =
      prj.readBoolEntry "PAL" "/DrawOutlineLabels" true := by
  unfold QgsLabelingEngine.readSettingsFromProject
  generalize prj.readBoolEntry "PAL" "/ShowingCandidates" false = c at *
  generalize prj.readBoolEntry "PAL" "/DrawRectOnly" false = r at *
  generalize prj.readBoolEntry "PAL" "/ShowingAllLabels" false = a at *
  generalize prj.readBoolEntry "PAL" "/ShowingPartialsLabels" true = p at *
  generalize prj.readBoolEntry "PAL" "/DrawOutlineLabels" true = o at *
  cases c <;> cases r <;> cases a <;> cases p <;> cases o <;>
    (simp only [if_true, Bool.false_eq_true, if_false]
     refine ⟨trivial, trivial, trivial, trivial, ?_, ?_, ?_, ?_, ?_⟩ <;> decide)

/-- The nine reads of `readSettingsFromProject` after `writeSettingsToProject`
return the nine values written. -/
theorem reads_after_writeSettingsToProject (e : QgsLabelingEngine) (prj : QgsProject)
    (d : Int) (b : Bool) :
    (e.writeSettingsToProject prj).readNumEntry "PAL" "/SearchMethod" d = e.mSearchMethod ∧
    (e.writeSettingsToProject prj).readNumEntry "PAL" "/CandidatesPoint" d = e.mCandPoint ∧
    (e.writeSettingsToProject prj).readNumEntry "PAL" "/CandidatesLine" d = e.mCandLine ∧
    (e.writeSettingsToProject prj).readNumEntry "PAL" "/CandidatesPolygon" d = e.mCandPolygon ∧
    (e.writeSettingsToProject prj).readBoolEntry "PAL" "/ShowingCandidates" b =
      testFlag e.mFlags Flag.DrawCandidates ∧
    (e.writeSettingsToProject prj).readBoolEntry "PAL" "/DrawRectOnly" b =
      testFlag e.mFlags Flag.DrawLabelRectOnly ∧
    (e.writeSettingsToProject prj).readBoolEntry "PAL" "/ShowingAllLabels" b =
      testFlag e.mFlags Flag.UseAllLabels ∧
    (e.writeSettingsToProject prj).readBoolEntry "PAL" "/ShowingPartialsLabels" b =
      testFlag e.mFlags Flag.UsePartialCandidates ∧
    (e.writeSettingsToProject prj).readBoolEntry "PAL" "/DrawOutlineLabels" b =
      testFlag e.mFlags Flag.RenderOutlineLabels := by
  unfold QgsLabelingEngine.writeSettingsToProject
  refine ⟨?_, ?_, ?_, ?_, ?_, ?_, ?_, ?_, ?_⟩ <;>
    simp +decide [QgsProject.readNumEntry, QgsProject.readBoolEntry, value_writeEntry_same,
      value_writeEntry_other]

/-- C9: a freshly constructed engine has candidates point=16, line=50,
polygon=30, draw-candidates, draw-rect-only and use-all-labels off,
use-partial-candidates and render-outline-labels on and search method Chain;
writing these settings to any project store and reading them back gives the
same engine configuration. -/
theorem default_settings_round_trip (prj : QgsProject) :
    (QgsLabelingEngine.new.mCandPoint = 16 ∧ QgsLabelingEngine.new.mCandLine = 50 ∧
      QgsLabelingEngine.new.mCandPolygon = 30 ∧
      testFlag QgsLabelingEngine.new.mFlags Flag.DrawCandidates = false ∧
      testFlag QgsLabelingEngine.new.mFlags Flag.DrawLabelRectOnly = false ∧
      testFlag QgsLabelingEngine.new.mFlags Flag.UseAllLabels = false ∧
      testFlag QgsLabelingEngine.new.mFlags Flag.UsePartialCandidates = true ∧
      testFlag QgsLabelingEngine.new.mFlags Flag.RenderOutlineLabels = true ∧
      QgsLabelingEngine.new.mSearchMethod = Search.Chain.toInt) ∧
    QgsLabelingEngine.new.readSettingsFromProject
        (QgsLabelingEngine.new.writeSettingsToProject prj) = QgsLabelingEngine.new := by
  refine ⟨by decide, ?_⟩
  have hr := reads_after_writeSettingsToProject QgsLabelingEngine.new prj
  unfold QgsLabelingEngine.readSettingsFromProject
  rw [(hr Search.Chain.toInt false).1, (hr 16 false).2.1, (hr 50 false).2.2.1,
    (hr 30 false).2.2.2.1, (hr 0 false).2.2.2.2.1, (hr 0 false).2.2.2.2.2.1,
    (hr 0 false).2.2.2.2.2.2.1, (hr 0 true).2.2.2.2.2.2.2.1, (hr 0 true).2.2.2.2.2.2.2.2]
  rfl

/-- C10: per-key default on read: for every project store, each member set by
`readSettingsFromProject` takes the documented default of its key when the
key is missing and the stored value when the key is present, whatever the
other keys hold. -/
theorem readSettingsFromProject_per_key_default (e : QgsLabelingEngine) (prj : QgsProject) :
    ((prj.value "PAL" "/SearchMethod" = none →
        (e.readSettingsFromProject prj).mSearchMethod = Search.Chain.toInt) ∧
      (∀ n, prj.value "PAL" "/SearchMethod" = some (QVariant.int n) →
        (e.readSettingsFromProject prj).mSearchMethod = n)) ∧
    ((prj.value "PAL" "/CandidatesPoint" = none →
        (e.readSettingsFromProject prj).mCandPoint = 16) ∧
      (∀ n, prj.value "PAL" "/CandidatesPoint" = some (QVariant.int n) →
        (e.readSettingsFromProject prj).mCandPoint = n)) ∧
    ((prj.value "PAL" "/CandidatesLine" = none →
        (e.readSettingsFromProject prj).mCandLine = 50) ∧
      (∀ n, prj.value "PAL" "/CandidatesLine" = some (QVariant.int n) →
        (e.readSettingsFromProject prj).mCandLine = n)) ∧
    ((prj.value "PAL" "/CandidatesPolygon" = none →
        (e.readSettingsFromProject prj).mCandPolygon = 30) ∧
      (∀ n, prj.value "PAL" "/CandidatesPolygon" = some (QVariant.int n) →
        (e.readSettingsFromProject prj).mCandPolygon = n)) ∧
    ((prj.value "PAL" "/ShowingCandidates" = none →
        testFlag (e.readSettingsFromProject prj).mFlags Flag.DrawCandidates = false) ∧
      (∀ b, prj.value "PAL" "/ShowingCandidates" = some (QVariant.bool b) →
        testFlag (e.readSettingsFromProject prj).mFlags Flag.DrawCandidates = b)) ∧
    ((prj.value "PAL" "/DrawRectOnly" = none →
        testFlag (e.readSettingsFromProject prj).mFlags Flag.DrawLabelRectOnly = false) ∧
      (∀ b, prj.value "PAL" "/DrawRectOnly" = some (QVariant.bool b) →
        testFlag (e.readSettingsFromProject prj).mFlags Flag.DrawLabelRectOnly = b)) ∧
    ((prj.value "PAL" "/ShowingAllLabels" = none →
        testFlag (e.readSettingsFromProject prj).mFlags Flag.UseAllLabels = false) ∧
      (∀ b, prj.value "PAL" "/ShowingAllLabels" = some (QVariant.bool b) →
        testFlag (e.readSettingsFromProject prj).mFlags Flag.UseAllLabels = b)) ∧
    ((prj.value "PAL" "/ShowingPartialsLabels" = none →
        testFlag (e.readSettingsFromProject prj).mFlags Flag.UsePartialCandidates = true) ∧
      (∀ b, prj.value "PAL" "/ShowingPartialsLabels" = some (QVariant.bool b) →
        testFlag (e.readSettingsFromProject prj).mFlags Flag.UsePartialCandidates = b)) ∧
    ((prj.value "PAL" "/DrawOutlineLabels" = none →
        testFlag (e.readSettingsFromProject prj).mFlags Flag.RenderOutlineLabels = true) ∧
      (∀ b, prj.value "PAL" "/DrawOutlineLabels" = some (QVariant.bool b) →
        testFlag (e.readSettingsFromProject prj).mFlags Flag.RenderOutlineLabels = b)) := by
  obtain ⟨h1, h2, h3, h4, h5, h6, h7, h8, h9⟩ := readSettingsFromProject_fields e prj
  rw [h1, h2, h3, h4, h5, h6, h7, h8, h9]
  simp only [QgsProject.readNumEntry, QgsProject.readBoolEntry]
  refine ⟨⟨?_, ?_⟩, ⟨?_, ?_⟩, ⟨?_, ?_⟩, ⟨?_, ?_⟩, ⟨?_, ?_⟩, ⟨?_, ?_⟩, ⟨?_, ?_⟩, ⟨?_, ?_⟩,
    ⟨?_, ?_⟩⟩ <;> intros <;> simp [*]

theorem readSettingsFromProject_per_key_default_witness :
    (QgsLabelingEngine.new.readSettingsFromProject partialProject).mCandPoint = 20 ∧
    (QgsLabelingEngine.new.readSettingsFromProject partialProject).mCandLine = 50 ∧
    testFlag (QgsLabelingEngine.new.readSettingsFromProject partialProject).mFlags
      Flag.UsePartialCandidates = false ∧
    testFlag (QgsLabelingEngine.new.readSettingsFromProject partialProject).mFlags
      Flag.RenderOutlineLabels = true :=
  have h := readSettingsFromProject_per_key_default QgsLabelingEngine.new partialProject
  ⟨h.2.1.2 20 (by decide), h.2.2.1.1 (by decide), h.2.2.2.2.2.2.2.1.2 false (by decide),
    h.2.2.2.2.2.2.2.2.1 (by decide)⟩

/-! ## Results -/

/-- C11: `takeResults` is single-use: on an engine holding a Results object the
first call returns that object and a second call returns nothing; both calls
return. -/
theorem takeResults_single_use (e : QgsLabelingEngine) (r : QgsLabelingResults)
    (h : e.mResults = some r) :
    e.takeResults.1 = some r ∧ e.takeResults.2.takeResults.1 = none := by
  simp [QgsLabelingEngine.takeResults, h]

theorem takeResults_single_use_witness :
    QgsLabelingEngine.new.takeResults.1 = some QgsLabelingResults.empty ∧
    QgsLabelingEngine.new.takeResults.2.takeResults.1 = none :=
  takeResults_single_use QgsLabelingEngine.new QgsLabelingResults.empty rfl

/-! ## Processing the providers -/

theorem forall_isSetupCall_append {a b : List Event}
    (ha : ∀ ev ∈ a, ev.isSetupCall = true) (hb : ∀ ev ∈ b, ev.isSetupCall = true) :
    ∀ ev ∈ a ++ b, ev.isSetupCall = true := by
  intro ev hev
  rcases List.mem_append.mp hev with h | h
  · exact ha ev h
  · exact hb ev h

theorem configureLayer_isSetupCall (m : ProviderMembers) :
    ∀ ev ∈ QgsLabelingEngine.configureLayer m, ev.isSetupCall = true := by
  intro ev hev
  simp only [QgsLabelingEngine.configureLayer, List.mem_cons, List.mem_singleton,
    List.not_mem_nil, or_false] at hev
  rcases hev with h | h | h | h | h | h <;> subst h <;> rfl

theorem registerFeatures_isSetupCall (env : RunEnvironment) (layer : String × String)
    (features : List QgsLabelFeature) :
    ∀ ev ∈ QgsLabelingEngine.registerFeatures env layer features, ev.isSetupCall = true := by
  induction features with
  | nil => simp [QgsLabelingEngine.registerFeatures]
  | cons f fs ih =>
    intro ev hev
    simp only [QgsLabelingEngine.registerFeatures, List.mem_cons] at hev
    rcases hev with h | h
    · subst h; rfl
    · exact ih ev h

mutual

/-- The function `processProvider` only adds setup calls to the record and only
appends to `mSubProviders`. -/
theorem processProvider_frame (env : RunEnvironment) :
    ∀ (p : QgsAbstractLabelProvider) (st : RunState), ∃ evs subs,
      (QgsLabelingEngine.processProvider env p st).state =
        ⟨{ st.engine with mSubProviders := st.engine.mSubProviders ++ subs },
          st.calls ++ evs⟩ ∧
      ∀ ev ∈ evs, ev.isSetupCall = true
  | QgsAbstractLabelProvider.mk m features subProviders, st => by
    rw [QgsLabelingEngine.processProvider]
    simp only
    split
    · refine ⟨QgsLabelingEngine.configureLayer m, [], ?_, configureLayer_isSetupCall m⟩
      split <;> simp [Outcome.state]
    · rename_i ud hud
      obtain ⟨evs, subs, h, hs⟩ := processSubProviders_frame env subProviders
        { engine := st.engine,
          calls := st.calls ++ QgsLabelingEngine.configureLayer m ++
            [Event.setUpsidedownLabels (m.mLayerId, m.mProviderId) ud] ++
            QgsLabelingEngine.registerFeatures env (m.mLayerId, m.mProviderId) features }
      refine ⟨QgsLabelingEngine.configureLayer m ++
        [Event.setUpsidedownLabels (m.mLayerId, m.mProviderId) ud] ++
        QgsLabelingEngine.registerFeatures env (m.mLayerId, m.mProviderId) features ++ evs,
        subs, ?_, ?_⟩
      · rw [h]
        simp [List.append_assoc]
      · refine forall_isSetupCall_append (forall_isSetupCall_append
          (forall_isSetupCall_append (configureLayer_isSetupCall m) ?_)
          (registerFeatures_isSetupCall env _ features)) hs
        intro ev hev
        rw [List.mem_singleton] at hev
        subst hev
        rfl

theorem processSubProviders_frame (env : RunEnvironment) :
    ∀ (ps : List QgsAbstractLabelProvider) (st : RunState), ∃ evs subs,
      (QgsLabelingEngine.processSubProviders env ps st).state =
        ⟨{ st.engine with mSubProviders := st.engine.mSubProviders ++ subs },
          st.calls ++ evs⟩ ∧
      ∀ ev ∈ evs, ev.isSetupCall = true
  | [], st => ⟨[], [], by simp [QgsLabelingEngine.processSubProviders, Outcome.state], by simp⟩
  | p :: rest, st => by
    rw [QgsLabelingEngine.processSubProviders]
    simp only
    obtain ⟨evs, subs, h, hs⟩ := processProvider_frame env p
      { engine := { st.engine with mSubProviders := st.engine.mSubProviders ++ [p] },
        calls := st.calls }
    cases hp : QgsLabelingEngine.processProvider env p
      { engine := { st.engine with mSubProviders := st.engine.mSubProviders ++ [p] },
        calls := st.calls } with
    | aborted st1 =>
      rw [hp] at h
      simp only [Outcome.state] at h ⊢
      exact ⟨evs, [p] ++ subs, by rw [h]; simp [List.append_assoc], hs⟩
    | continues st1 =>
      rw [hp] at h
      simp only [Outcome.state] at h
      obtain ⟨evs2, subs2, h2, hs2⟩ := processSubProviders_frame env rest st1
      refine ⟨evs ++ evs2, [p] ++ subs ++ subs2, ?_, forall_isSetupCall_append hs hs2⟩
      simp only
      rw [h2, h]
      simp [List.append_assoc]

end

theorem processProviders_frame (env : RunEnvironment) :
    ∀ (ps : List QgsAbstractLabelProvider) (st : RunState), ∃ evs subs,
      (QgsLabelingEngine.processProviders env ps st).state =
        ⟨{ st.engine with mSubProviders := st.engine.mSubProviders ++ subs },
          st.calls ++ evs⟩ ∧
      ∀ ev ∈ evs, ev.isSetupCall = true
  | [], st => ⟨[], [], by simp [QgsLabelingEngine.processProviders, Outcome.state], by simp⟩
  | p :: rest, st => by
    rw [QgsLabelingEngine.processProviders]
    obtain ⟨evs, subs, h, hs⟩ := processProvider_frame env p st
    cases hp : QgsLabelingEngine.processProvider env p st with
    | aborted st1 =>
      rw [hp] at h
      simp only [Outcome.state] at h ⊢
      exact ⟨evs, subs, h, hs⟩
    | continues st1 =>
      rw [hp] at h
      simp only [Outcome.state] at h
      obtain ⟨evs2, subs2, h2, hs2⟩ := processProviders_frame env rest st1
      refine ⟨evs ++ evs2, subs ++ subs2, ?_, forall_isSetupCall_append hs hs2⟩
      simp only
      rw [h2, h]
      simp [List.append_assoc]

/-- The first part of `run` makes setup calls only and changes no member of the
engine but `mSubProviders`, to which it appends. -/
theorem registerProviders_frame (e : QgsLabelingEngine) (env : RunEnvironment) :
    ∃ evs subs,
      (e.registerProviders env).state =
        ⟨{ e with mSubProviders := e.mSubProviders ++ subs }, evs⟩ ∧
      ∀ ev ∈ evs, ev.isSetupCall = true := by
  unfold QgsLabelingEngine.registerProviders
  obtain ⟨evs, subs, h, hs⟩ := processProviders_frame env e.mProviders
    ⟨e, [Event.setSearch (QgsLabelingEngine.searchMethod e.mSearchMethod),
      Event.setPointP e.mCandPoint, Event.setLineP e.mCandLine, Event.setPolyP e.mCandPolygon,
      Event.setShowPartial (testFlag e.mFlags Flag.UsePartialCandidates)]⟩
  refine ⟨_, subs, h, forall_isSetupCall_append ?_ hs⟩
  intro ev hev
  simp only [List.mem_cons, List.mem_singleton, List.not_mem_nil, or_false] at hev
  rcases hev with h | h | h | h | h <;> subst h <;> rfl

/-- The second part of `run` leaves the engine as it is. -/
theorem layout_engine (env : RunEnvironment) (st : RunState) :
    (QgsLabelingEngine.layout env st).engine = st.engine := by
  unfold QgsLabelingEngine.layout
  simp only
  split
  · rfl
  · split
    · rfl
    · split
      · rfl
      · split <;> rfl

/-- The function `run` never assigns `mResults`. -/
theorem run_mResults (e : QgsLabelingEngine) (env : RunEnvironment) :
    (e.run env).engine.mResults = e.mResults := by
  obtain ⟨evs, subs, h, -⟩ := registerProviders_frame e env
  unfold QgsLabelingEngine.run
  cases hr : e.registerProviders env with
  | aborted st =>
    rw [hr] at h
    simp only [Outcome.state] at h
    simp [h]
  | continues st =>
    rw [hr] at h
    simp only [Outcome.state] at h
    simp [layout_engine, h]

/-! ## The run -/

/-- Setup calls are no drawing, no solving, no creation and no release. -/
theorem setup_calls_silent (l : List Event) (h : ∀ ev ∈ l, ev.isSetupCall = true) :
    drawLabelCalls l = [] ∧ candidateRectCalls l = [] ∧ solveProblemCount l = 0 ∧
    problemsCreated l = 0 ∧ problemsDeleted l = 0 ∧ labelsDeleted l = 0 := by
  refine ⟨?_, ?_, ?_, ?_, ?_, ?_⟩
  · rw [drawLabelCalls, List.filterMap_eq_nil_iff]
    intro ev hev
    have hs := h ev hev
    clear h hev
    cases ev <;> simp_all [Event.isSetupCall]
  · rw [candidateRectCalls, List.filterMap_eq_nil_iff]
    intro ev hev
    have hs := h ev hev
    clear h hev
    cases ev <;> simp_all [Event.isSetupCall]
  · rw [solveProblemCount, List.countP_eq_zero]
    intro ev hev
    have hs := h ev hev
    clear h hev
    cases ev <;> simp_all [Event.isSetupCall]
  · rw [problemsCreated, List.countP_eq_zero]
    intro ev hev
    have hs := h ev hev
    clear h hev
    cases ev <;> simp_all [Event.isSetupCall]
  · rw [problemsDeleted, List.countP_eq_zero]
    intro ev hev
    have hs := h ev hev
    clear h hev
    cases ev <;> simp_all [Event.isSetupCall]
  · rw [labelsDeleted, List.countP_eq_zero]
    intro ev hev
    have hs := h ev hev
    clear h hev
    cases ev <;> simp_all [Event.isSetupCall]

/-- When the first part of `run` goes on, the run is the second part from the
state reached, whose calls are setup calls and whose engine differs from the
engine at the start in `mSubProviders` only. -/
theorem run_of_registerProviders (e : QgsLabelingEngine) (env : RunEnvironment)
    (st : RunState) (hreg : e.registerProviders env = Outcome.continues st) :
    e.run env = QgsLabelingEngine.layout env st ∧
    (∀ ev ∈ st.calls, ev.isSetupCall = true) ∧
    st.engine.mFlags = e.mFlags ∧ st.engine.mMapSettings = e.mMapSettings ∧
    st.engine.mResults = e.mResults := by
  obtain ⟨evs, subs, h, hs⟩ := registerProviders_frame e env
  rw [hreg] at h
  simp only [Outcome.state] at h
  refine ⟨by simp [QgsLabelingEngine.run, hreg], ?_, ?_, ?_, ?_⟩
  · rw [h]; exact hs
  all_goals rw [h]

theorem drawLabelCalls_append (a b : List Event) :
    drawLabelCalls (a ++ b) = drawLabelCalls a ++ drawLabelCalls b := by
  simp [drawLabelCalls, List.filterMap_append]

theorem candidateRectCalls_append (a b : List Event) :
    candidateRectCalls (a ++ b) = candidateRectCalls a ++ candidateRectCalls b := by
  simp [candidateRectCalls, List.filterMap_append]

theorem solveProblemCount_append (a b : List Event) :
    solveProblemCount (a ++ b) = solveProblemCount a + solveProblemCount b := by
  simp [solveProblemCount, List.countP_append]

theorem problemsCreated_append (a b : List Event) :
    problemsCreated (a ++ b) = problemsCreated a + problemsCreated b := by
  simp [problemsCreated, List.countP_append]

theorem problemsDeleted_append (a b : List Event) :
    problemsDeleted (a ++ b) = problemsDeleted a + problemsDeleted b := by
  simp [problemsDeleted, List.countP_append]

theorem labelsDeleted_append (a b : List Event) :
    labelsDeleted (a ++ b) = labelsDeleted a + labelsDeleted b := by
  simp [labelsDeleted, List.countP_append]

/-- The candidate loops draw rectangles only: every candidate of every feature once, in order. -/
theorem drawCandidates_calls (cs : List (List LabelPosition)) :
    drawLabelCalls (QgsLabelingEngine.drawCandidates cs) = [] ∧
    candidateRectCalls (QgsLabelingEngine.drawCandidates cs) = cs.flatten ∧
    solveProblemCount (QgsLabelingEngine.drawCandidates cs) = 0 ∧
    problemsCreated (QgsLabelingEngine.drawCandidates cs) = 0 ∧
    problemsDeleted (QgsLabelingEngine.drawCandidates cs) = 0 ∧
    labelsDeleted (QgsLabelingEngine.drawCandidates cs) = 0 := by
  induction cs with
  | nil => simp [QgsLabelingEngine.drawCandidates, drawLabelCalls, candidateRectCalls,
      solveProblemCount, problemsCreated, problemsDeleted, labelsDeleted]
  | cons c cs ih =>
    obtain ⟨h1, h2, h3, h4, h5, h6⟩ := ih
    have hc : drawLabelCalls (c.map Event.drawLabelCandidateRect) = [] ∧
        candidateRectCalls (c.map Event.drawLabelCandidateRect) = c ∧
        solveProblemCount (c.map Event.drawLabelCandidateRect) = 0 ∧
        problemsCreated (c.map Event.drawLabelCandidateRect) = 0 ∧
        problemsDeleted (c.map Event.drawLabelCandidateRect) = 0 ∧
        labelsDeleted (c.map Event.drawLabelCandidateRect) = 0 := by
      induction c with
      | nil => simp [drawLabelCalls, candidateRectCalls, solveProblemCount, problemsCreated,
          problemsDeleted, labelsDeleted]
      | cons x xs ihx =>
        obtain ⟨g1, g2, g3, g4, g5, g6⟩ := ihx
        simp only [drawLabelCalls, candidateRectCalls, solveProblemCount, problemsCreated,
          problemsDeleted, labelsDeleted] at g1 g2 g3 g4 g5 g6 ⊢
        simp_all [List.filterMap_cons, List.countP_cons]
    obtain ⟨c1, c2, c3, c4, c5, c6⟩ := hc
    simp only [QgsLabelingEngine.drawCandidates, drawLabelCalls_append,
      candidateRectCalls_append, solveProblemCount_append, problemsCreated_append,
      problemsDeleted_append, labelsDeleted_append, h1, h2, h3, h4, h5, h6, c1, c2, c3, c4,
      c5, c6, List.flatten_cons]
    simp

/-- The draw loop calls `drawLabel` only. -/
theorem drawLabels_calls (env : RunEnvironment) (labels : List LabelPosition) (poll : Nat) :
    candidateRectCalls (QgsLabelingEngine.drawLabels env poll labels) = [] ∧
    solveProblemCount (QgsLabelingEngine.drawLabels env poll labels) = 0 ∧
    problemsCreated (QgsLabelingEngine.drawLabels env poll labels) = 0 ∧
    problemsDeleted (QgsLabelingEngine.drawLabels env poll labels) = 0 ∧
    labelsDeleted (QgsLabelingEngine.drawLabels env poll labels) = 0 := by
  induction labels generalizing poll with
  | nil => simp [QgsLabelingEngine.drawLabels, candidateRectCalls, solveProblemCount,
      problemsCreated, problemsDeleted, labelsDeleted]
  | cons lp rest ih =>
    obtain ⟨h1, h2, h3, h4, h5⟩ := ih (poll + 1)
    unfold QgsLabelingEngine.drawLabels
    split
    · simp [candidateRectCalls, solveProblemCount, problemsCreated, problemsDeleted,
        labelsDeleted]
    · split
      · exact ⟨h1, h2, h3, h4, h5⟩
      · simp only [candidateRectCalls, solveProblemCount, problemsCreated, problemsDeleted,
          labelsDeleted] at h1 h2 h3 h4 h5 ⊢
        simp_all [List.filterMap_cons, List.countP_cons]

/-- The sort of the three placements chosen in `calmEnvironment`. -/
theorem sortLabelPositions_example :
    sortLabelPositions ["rivers", "roads"] eps50 [lpSmall, lpLowZ, lpBig] =
      some [lpBig, lpSmall, lpLowZ] := by
  have e1 : QgsLabelSorter ["rivers", "roads"] eps50 tenByTen lowZ = true := by
    norm_num [QgsLabelSorter, qgsDoubleNear, eps50, tenByTen, lowZ]
  have e2 : QgsLabelSorter ["rivers", "roads"] eps50 tenByTen fourByFour = true := by
    norm_num [QgsLabelSorter, qgsDoubleNear, eps50, tenByTen, fourByFour, indexOf, indexOfFrom,
      labelArea]
  have e3 : QgsLabelSorter ["rivers", "roads"] eps50 lowZ fourByFour = false := by
    norm_num [QgsLabelSorter, qgsDoubleNear, eps50, lowZ, fourByFour]
  simp [sortLabelPositions, qSortM, qSortInsertM, QgsLabelSorter.operator, lpSmall, lpLowZ,
    lpBig, e1, e2, e3]

/-- C12 (as stated, refuted): a freshly constructed engine whose Results was
taken runs to completion and holds no Results afterwards, so that a further
`takeResults` returns nothing. -/
theorem run_after_takeResults_example :
    (busyEngine.takeResults.2.run calmEnvironment).exit = RunExit.completed ∧
    (busyEngine.takeResults.2.run calmEnvironment).engine.mResults = none ∧
    (busyEngine.takeResults.2.run calmEnvironment).engine.takeResults.1 = none := by
  have hreg : busyEngine.takeResults.2.registerProviders calmEnvironment =
    Outcome.continues (busyEngine.takeResults.2.registerProviders calmEnvironment).state := rfl
  have hm : (busyEngine.takeResults.2.registerProviders
    calmEnvironment).state.engine.mMapSettings.layerIds = ["rivers", "roads"] := rfl
  have hres := run_mResults busyEngine.takeResults.2 calmEnvironment
  refine ⟨?_, hres, hres⟩
  rw [(run_of_registerProviders _ _ _ hreg).1]
  unfold QgsLabelingEngine.layout
  simp only [hm]
  simp [calmEnvironment, sortLabelPositions_example]

/-- C12 (amended): `run` allocates no Results: for every engine and every run,
calling `takeResults` and then `run` leaves the engine without a Results
object, and a `takeResults` after that run returns nothing. -/
theorem run_after_takeResults_holds_nothing (e : QgsLabelingEngine) (env : RunEnvironment) :
    (e.takeResults.2.run env).engine.mResults = none ∧
    (e.takeResults.2.run env).engine.takeResults.1 = none := by
  have h := run_mResults e.takeResults.2 env
  have h2 : e.takeResults.2.mResults = none := rfl
  rw [h2] at h
  exact ⟨h, h⟩

theorem drawAllCandidates_calls (mFlags : Nat) (problem : Option Problem) :
    drawLabelCalls (QgsLabelingEngine.drawAllCandidates mFlags problem) = [] ∧
    solveProblemCount (QgsLabelingEngine.drawAllCandidates mFlags problem) = 0 ∧
    problemsCreated (QgsLabelingEngine.drawAllCandidates mFlags problem) = 0 ∧
    problemsDeleted (QgsLabelingEngine.drawAllCandidates mFlags problem) = 0 ∧
    labelsDeleted (QgsLabelingEngine.drawAllCandidates mFlags problem) = 0 := by
  cases problem with
  | none => exact ⟨rfl, rfl, rfl, rfl, rfl⟩
  | some prob =>
    obtain ⟨h1, -, h3, h4, h5, h6⟩ := drawCandidates_calls prob.candidates
    simp only [QgsLabelingEngine.drawAllCandidates]
    by_cases hf : testFlag mFlags Flag.DrawCandidates = true
    · have hc : ∀ l : List Event, Event.setBrushNoBrush :: l = [Event.setBrushNoBrush] ++ l :=
        fun _ => rfl
      rw [if_pos hf, hc]
      simp only [drawLabelCalls_append, solveProblemCount_append, problemsCreated_append,
        problemsDeleted_append, labelsDeleted_append, h1, h3, h4, h5, h6]
      exact ⟨rfl, rfl, rfl, rfl, rfl⟩
    · rw [if_neg hf]
      exact ⟨rfl, rfl, rfl, rfl, rfl⟩

theorem deleteProblem_calls (problem : Option Problem) :
    drawLabelCalls (QgsLabelingEngine.deleteProblem problem) = [] ∧
    candidateRectCalls (QgsLabelingEngine.deleteProblem problem) = [] ∧
    solveProblemCount (QgsLabelingEngine.deleteProblem problem) = 0 ∧
    problemsCreated (QgsLabelingEngine.deleteProblem problem) = 0 ∧
    problemsDeleted (QgsLabelingEngine.deleteProblem problem) =
      problemsCreated [Event.extractProblem (ExtractResult.problem problem)] ∧
    labelsDeleted (QgsLabelingEngine.deleteProblem problem) = 0 := by
  cases problem <;> exact ⟨rfl, rfl, rfl, rfl, rfl, rfl⟩

/-- The exit at the `return` of the `catch` block. -/
theorem layout_extraction_failed (env : RunEnvironment) (st : RunState) (what : String)
    (hext : env.extractProblem = ExtractResult.exception what) :
    QgsLabelingEngine.layout env st =
      ⟨st.engine, st.calls ++ [Event.registerCancellationCallback] ++
        [Event.extractProblem (ExtractResult.exception what)], RunExit.extractionFailed⟩ := by
  unfold QgsLabelingEngine.layout
  simp [hext]

/-- The exit at the `return` that follows the first cancellation check. -/
theorem layout_cancelled_after_extraction (env : RunEnvironment) (st : RunState)
    (problem : Option Problem)
    (hext : env.extractProblem = ExtractResult.problem problem)
    (h0 : env.renderingStopped 0 = true) :
    QgsLabelingEngine.layout env st =
      ⟨st.engine, st.calls ++ [Event.registerCancellationCallback] ++
        [Event.extractProblem (ExtractResult.problem problem)] ++
        QgsLabelingEngine.deleteProblem problem, RunExit.cancelledAfterExtraction⟩ := by
  unfold QgsLabelingEngine.layout
  simp [hext, h0]

/-- The exit at the `return` that follows the second cancellation check. -/
theorem layout_cancelled_after_solving (env : RunEnvironment) (st : RunState)
    (problem : Option Problem)
    (hext : env.extractProblem = ExtractResult.problem problem)
    (h0 : env.renderingStopped 0 = false) (h1 : env.renderingStopped 1 = true) :
    QgsLabelingEngine.layout env st =
      ⟨st.engine, st.calls ++ [Event.registerCancellationCallback] ++
        [Event.extractProblem (ExtractResult.problem problem)] ++
        QgsLabelingEngine.drawAllCandidates st.engine.mFlags problem ++
        [Event.solveProblem problem (testFlag st.engine.mFlags Flag.UseAllLabels)] ++
        QgsLabelingEngine.deleteProblem problem ++ [Event.deleteLabels],
        RunExit.cancelledAfterSolving⟩ := by
  unfold QgsLabelingEngine.layout
  simp [hext, h0, h1]

/-- The run stopped by the sorter reading through a null feature pointer. -/
theorem layout_null_feature (env : RunEnvironment) (st : RunState)
    (problem : Option Problem)
    (hext : env.extractProblem = ExtractResult.problem problem)
    (h0 : env.renderingStopped 0 = false) (h1 : env.renderingStopped 1 = false)
    (hsort : sortLabelPositions st.engine.mMapSettings.layerIds env.epsilon
      (env.solveProblem problem (testFlag st.engine.mFlags Flag.UseAllLabels)) = none) :
    QgsLabelingEngine.layout env st =
      ⟨st.engine, st.calls ++ [Event.registerCancellationCallback] ++
        [Event.extractProblem (ExtractResult.problem problem)] ++
        QgsLabelingEngine.drawAllCandidates st.engine.mFlags problem ++
        [Event.solveProblem problem (testFlag st.engine.mFlags Flag.UseAllLabels)] ++
        [Event.setRenderHintAntialiasing], RunExit.nullFeatureInSort⟩ := by
  unfold QgsLabelingEngine.layout
  simp [hext, h0, h1, hsort]

/-- The run that reaches the end of `run`. -/
theorem layout_completed (env : RunEnvironment) (st : RunState)
    (problem : Option Problem) (sorted : List LabelPosition)
    (hext : env.extractProblem = ExtractResult.problem problem)
    (h0 : env.renderingStopped 0 = false) (h1 : env.renderingStopped 1 = false)
    (hsort : sortLabelPositions st.engine.mMapSettings.layerIds env.epsilon
      (env.solveProblem problem (testFlag st.engine.mFlags Flag.UseAllLabels)) = some sorted) :
    QgsLabelingEngine.layout env st =
      ⟨st.engine, st.calls ++ [Event.registerCancellationCallback] ++
        [Event.extractProblem (ExtractResult.problem problem)] ++
        QgsLabelingEngine.drawAllCandidates st.engine.mFlags problem ++
        [Event.solveProblem problem (testFlag st.engine.mFlags Flag.UseAllLabels)] ++
        [Event.setRenderHintAntialiasing] ++ QgsLabelingEngine.drawLabels env 2 sorted ++
        [Event.setCompositionModeSourceOver] ++ QgsLabelingEngine.deleteProblem problem ++
        [Event.deleteLabels], RunExit.completed⟩ := by
  unfold QgsLabelingEngine.layout
  simp [hext, h0, h1, hsort]

/-- C15 (as stated, refuted): with cancellation seen right after solving, an
engine whose Results was taken holds no Results after the run, and an engine
whose Results held a placement still holds it: the Results is not made empty. -/
theorem run_cancelled_after_solving_results_example :
    ((busyEngine.takeResults.2.run cancelAfterSolving).exit = RunExit.cancelledAfterSolving ∧
      (busyEngine.takeResults.2.run cancelAfterSolving).engine.mResults = none) ∧
    ((filledEngine.run cancelAfterSolving).exit = RunExit.cancelledAfterSolving ∧
      (filledEngine.run cancelAfterSolving).engine.mResults = some ⟨[lpBig]⟩) := by
  have hreg1 : busyEngine.takeResults.2.registerProviders cancelAfterSolving =
    Outcome.continues
      (busyEngine.takeResults.2.registerProviders cancelAfterSolving).state := rfl
  have hreg2 : filledEngine.registerProviders cancelAfterSolving =
    Outcome.continues (filledEngine.registerProviders cancelAfterSolving).state := rfl
  refine ⟨⟨?_, run_mResults _ _⟩, ?_, run_mResults _ _⟩
  · rw [(run_of_registerProviders _ _ _ hreg1).1,
      layout_cancelled_after_solving cancelAfterSolving _ _ rfl rfl rfl]
  · rw [(run_of_registerProviders _ _ _ hreg2).1,
      layout_cancelled_after_solving cancelAfterSolving _ _ rfl rfl rfl]

/-- C15 (amended): in every run that reaches the check following `solveProblem`
and finds cancellation there, `solveProblem` was called once, `drawLabel` is
never called, whatever placements the solver returned, and the Results of
the engine is left as it was before the run. -/
theorem run_cancelled_after_solving (e : QgsLabelingEngine) (env : RunEnvironment)
    (st : RunState) (problem : Option Problem)
    (hreg : e.registerProviders env = Outcome.continues st)
    (hext : env.extractProblem = ExtractResult.problem problem)
    (h0 : env.renderingStopped 0 = false)
    (h1 : env.renderingStopped 1 = true) :
    (e.run env).exit = RunExit.cancelledAfterSolving ∧
    solveProblemCount (e.run env).calls = 1 ∧
    drawLabelCalls (e.run env).calls = [] ∧
    (e.run env).engine.mResults = e.mResults := by
  obtain ⟨hrun, hsetup, -, -, hres⟩ := run_of_registerProviders e env st hreg
  obtain ⟨s1, -, s3, -, -, -⟩ := setup_calls_silent st.calls hsetup
  obtain ⟨c1, c3, -, -, -⟩ :=
    QGIS.drawAllCandidates_calls st.engine.mFlags problem
  obtain ⟨d1, -, d3, -, -, -⟩ := deleteProblem_calls problem
  rw [hrun, layout_cancelled_after_solving env st problem hext h0 h1] at *
  refine ⟨rfl, ?_, ?_, hres⟩
  · simp only [drawLabelCalls_append, candidateRectCalls_append, solveProblemCount_append, problemsCreated_append,
      problemsDeleted_append, labelsDeleted_append, s3, c3, d3]
    rfl
  · simp only [drawLabelCalls_append, candidateRectCalls_append, solveProblemCount_append, problemsCreated_append,
      problemsDeleted_append, labelsDeleted_append, s1, c1, d1]
    rfl

theorem run_cancelled_after_solving_witness :
    (busyEngine.run cancelAfterSolving).exit = RunExit.cancelledAfterSolving ∧
    solveProblemCount (busyEngine.run cancelAfterSolving).calls = 1 ∧
    drawLabelCalls (busyEngine.run cancelAfterSolving).calls = [] ∧
    (busyEngine.run cancelAfterSolving).engine.mResults = some QgsLabelingResults.empty :=
  run_cancelled_after_solving busyEngine cancelAfterSolving
    (busyEngine.registerProviders cancelAfterSolving).state
    (some ⟨[[lpBig], [lpSmall]]⟩) rfl rfl rfl rfl

/-- C17 (as stated, refuted): with a failing problem extraction, an engine whose
Results was taken holds no Results after the run, and an engine whose Results
held a placement still holds it: no empty-but-valid Results is left. -/
theorem run_extraction_failed_results_example :
    ((busyEngine.takeResults.2.run failingExtraction).exit = RunExit.extractionFailed ∧
      (busyEngine.takeResults.2.run failingExtraction).engine.mResults = none) ∧
    ((filledEngine.run failingExtraction).exit = RunExit.extractionFailed ∧
      (filledEngine.run failingExtraction).engine.mResults = some ⟨[lpBig]⟩) := by
  have hreg1 : busyEngine.takeResults.2.registerProviders failingExtraction =
    Outcome.continues
      (busyEngine.takeResults.2.registerProviders failingExtraction).state := rfl
  have hreg2 : filledEngine.registerProviders failingExtraction =
    Outcome.continues (filledEngine.registerProviders failingExtraction).state := rfl
  refine ⟨⟨?_, run_mResults _ _⟩, ?_, run_mResults _ _⟩
  · rw [(run_of_registerProviders _ _ _ hreg1).1,
      layout_extraction_failed failingExtraction _ _ rfl]
  · rw [(run_of_registerProviders _ _ _ hreg2).1,
      layout_extraction_failed failingExtraction _ _ rfl]

/-- C17 (amended): in every run that reaches `extractProblem` and in which it
fails, `run` returns at once: `solveProblem` is never called, no candidate
rectangle and no label is drawn, and the Results of the engine is left as it
was before the run. -/
theorem run_extraction_failed (e : QgsLabelingEngine) (env : RunEnvironment)
    (st : RunState) (what : String)
    (hreg : e.registerProviders env = Outcome.continues st)
    (hext : env.extractProblem = ExtractResult.exception what) :
    (e.run env).exit = RunExit.extractionFailed ∧
    (e.run env).exit.returned = true ∧
    solveProblemCount (e.run env).calls = 0 ∧
    candidateRectCalls (e.run env).calls = [] ∧
    drawLabelCalls (e.run env).calls = [] ∧
    (e.run env).engine.mResults = e.mResults := by
  obtain ⟨hrun, hsetup, -, -, hres⟩ := run_of_registerProviders e env st hreg
  obtain ⟨s1, s2, s3, -, -, -⟩ := setup_calls_silent st.calls hsetup
  rw [hrun, layout_extraction_failed env st what hext] at *
  refine ⟨rfl, rfl, ?_, ?_, ?_, hres⟩
  · simp only [drawLabelCalls_append, candidateRectCalls_append, solveProblemCount_append, problemsCreated_append,
      problemsDeleted_append, labelsDeleted_append, s3]
    rfl
  · simp only [drawLabelCalls_append, candidateRectCalls_append, solveProblemCount_append, problemsCreated_append,
      problemsDeleted_append, labelsDeleted_append, s2]
    rfl
  · simp only [drawLabelCalls_append, candidateRectCalls_append, solveProblemCount_append, problemsCreated_append,
      problemsDeleted_append, labelsDeleted_append, s1]
    rfl

theorem run_extraction_failed_witness :
    (busyEngine.run failingExtraction).exit = RunExit.extractionFailed ∧
    (busyEngine.run failingExtraction).exit.returned = true ∧
    solveProblemCount (busyEngine.run failingExtraction).calls = 0 ∧
    candidateRectCalls (busyEngine.run failingExtraction).calls = [] ∧
    drawLabelCalls (busyEngine.run failingExtraction).calls = [] ∧
    (busyEngine.run failingExtraction).engine.mResults = some QgsLabelingResults.empty :=
  run_extraction_failed busyEngine failingExtraction
    (busyEngine.registerProviders failingExtraction).state "bad geometry" rfl rfl

/-- C18: in every run that reaches the check following a successful
`extractProblem` and finds cancellation there, `solveProblem` is never called,
no candidate rectangle and no label is drawn, whatever the flags, and the
extracted problem is released. -/
theorem run_cancelled_after_extraction (e : QgsLabelingEngine) (env : RunEnvironment)
    (st : RunState) (problem : Problem)
    (hreg : e.registerProviders env = Outcome.continues st)
    (hext : env.extractProblem = ExtractResult.problem (some problem))
    (h0 : env.renderingStopped 0 = true) :
    (e.run env).exit = RunExit.cancelledAfterExtraction ∧
    solveProblemCount (e.run env).calls = 0 ∧
    candidateRectCalls (e.run env).calls = [] ∧
    drawLabelCalls (e.run env).calls = [] ∧
    problemsCreated (e.run env).calls = 1 ∧
    problemsDeleted (e.run env).calls = 1 := by
  obtain ⟨hrun, hsetup, -, -, -⟩ := run_of_registerProviders e env st hreg
  obtain ⟨s1, s2, s3, s4, s5, -⟩ := setup_calls_silent st.calls hsetup
  rw [hrun, layout_cancelled_after_extraction env st (some problem) hext h0] at *
  refine ⟨rfl, ?_, ?_, ?_, ?_, ?_⟩
  · simp only [drawLabelCalls_append, candidateRectCalls_append, solveProblemCount_append, problemsCreated_append,
      problemsDeleted_append, labelsDeleted_append, s3]
    rfl
  · simp only [drawLabelCalls_append, candidateRectCalls_append, solveProblemCount_append, problemsCreated_append,
      problemsDeleted_append, labelsDeleted_append, s2]
    rfl
  · simp only [drawLabelCalls_append, candidateRectCalls_append, solveProblemCount_append, problemsCreated_append,
      problemsDeleted_append, labelsDeleted_append, s1]
    rfl
  · simp only [drawLabelCalls_append, candidateRectCalls_append, solveProblemCount_append, problemsCreated_append,
      problemsDeleted_append, labelsDeleted_append, s4]
    rfl
  · simp only [drawLabelCalls_append, candidateRectCalls_append, solveProblemCount_append, problemsCreated_append,
      problemsDeleted_append, labelsDeleted_append, s5]
    rfl

theorem run_cancelled_after_extraction_witness :
    testFlag busyEngine.mFlags Flag.DrawCandidates = true ∧
    (busyEngine.run cancelAfterExtraction).exit = RunExit.cancelledAfterExtraction ∧
    solveProblemCount (busyEngine.run cancelAfterExtraction).calls = 0 ∧
    candidateRectCalls (busyEngine.run cancelAfterExtraction).calls = [] ∧
    drawLabelCalls (busyEngine.run cancelAfterExtraction).calls = [] ∧
    problemsCreated (busyEngine.run cancelAfterExtraction).calls = 1 ∧
    problemsDeleted (busyEngine.run cancelAfterExtraction).calls = 1 :=
  ⟨by decide, run_cancelled_after_extraction busyEngine cancelAfterExtraction
    (busyEngine.registerProviders cancelAfterExtraction).state ⟨[[lpBig], [lpSmall]]⟩
    rfl rfl rfl⟩

/-- C19: no leak on any exit path: whenever `run` returns, the problem made by
`extractProblem` and the solution list made by `solveProblem`, if made at all,
have each been released exactly once. -/
theorem run_releases_what_it_creates (e : QgsLabelingEngine) (env : RunEnvironment)
    (hret : (e.run env).exit.returned = true) :
    problemsDeleted (e.run env).calls = problemsCreated (e.run env).calls ∧
    labelsDeleted (e.run env).calls = solveProblemCount (e.run env).calls ∧
    problemsCreated (e.run env).calls ≤ 1 ∧
    solveProblemCount (e.run env).calls ≤ 1 := by
  cases hreg : e.registerProviders env with
  | aborted st =>
    simp [QgsLabelingEngine.run, hreg, RunExit.returned] at hret
  | continues st =>
    obtain ⟨hrun, hsetup, -, -, -⟩ := run_of_registerProviders e env st hreg
    obtain ⟨-, -, s3, s4, s5, s6⟩ := setup_calls_silent st.calls hsetup
    rw [hrun] at hret ⊢
    cases hext : env.extractProblem with
    | exception what =>
      rw [layout_extraction_failed env st what hext]
      simp only [drawLabelCalls_append, candidateRectCalls_append, solveProblemCount_append, problemsCreated_append,
      problemsDeleted_append, labelsDeleted_append, s3, s4, s5, s6]
      exact ⟨rfl, rfl, by simp [problemsCreated], by simp [solveProblemCount]⟩
    | problem problem =>
      obtain ⟨-, c3, c4, c5, c6⟩ := QGIS.drawAllCandidates_calls st.engine.mFlags problem
      obtain ⟨-, -, d3, d4, d5, d6⟩ := deleteProblem_calls problem
      cases h0 : env.renderingStopped 0 with
      | true =>
        rw [layout_cancelled_after_extraction env st problem hext h0]
        simp only [drawLabelCalls_append, candidateRectCalls_append, solveProblemCount_append, problemsCreated_append,
      problemsDeleted_append, labelsDeleted_append, s3, s4, s5, s6, d3, d4, d5, d6]
        cases problem <;> exact ⟨rfl, rfl, by simp [problemsCreated], by simp [solveProblemCount]⟩
      | false =>
        cases h1 : env.renderingStopped 1 with
        | true =>
          rw [layout_cancelled_after_solving env st problem hext h0 h1]
          simp only [drawLabelCalls_append, candidateRectCalls_append, solveProblemCount_append, problemsCreated_append,
      problemsDeleted_append, labelsDeleted_append, s3, s4, s5, s6, c3, c4, c5, c6, d3, d4, d5, d6]
          cases problem <;> exact ⟨rfl, rfl, by simp [problemsCreated], by simp [solveProblemCount]⟩
        | false =>
          cases hsort : sortLabelPositions st.engine.mMapSettings.layerIds env.epsilon
              (env.solveProblem problem (testFlag st.engine.mFlags Flag.UseAllLabels)) with
          | none =>
            rw [layout_null_feature env st problem hext h0 h1 hsort] at hret
            simp [RunExit.returned] at hret
          | some sorted =>
            obtain ⟨-, l3, l4, l5, l6⟩ := drawLabels_calls env sorted 2
            rw [layout_completed env st problem sorted hext h0 h1 hsort]
            simp only [drawLabelCalls_append, candidateRectCalls_append, solveProblemCount_append, problemsCreated_append,
      problemsDeleted_append, labelsDeleted_append, s3, s4, s5, s6, c3, c4, c5, c6, d3, d4, d5, d6, l3, l4, l5, l6]
            cases problem <;> exact ⟨rfl, rfl, by simp [problemsCreated], by simp [solveProblemCount]⟩

theorem run_releases_what_it_creates_witness :
    (busyEngine.run calmEnvironment).exit = RunExit.completed ∧
    problemsCreated (busyEngine.run calmEnvironment).calls = 1 ∧
    solveProblemCount (busyEngine.run calmEnvironment).calls = 1 ∧
    problemsDeleted (busyEngine.run calmEnvironment).calls =
      problemsCreated (busyEngine.run calmEnvironment).calls ∧
    labelsDeleted (busyEngine.run calmEnvironment).calls =
      solveProblemCount (busyEngine.run calmEnvironment).calls := by
  have hreg : busyEngine.registerProviders calmEnvironment =
    Outcome.continues (busyEngine.registerProviders calmEnvironment).state := rfl
  have hrun := (run_of_registerProviders _ _ _ hreg).1
  have hlay := layout_completed calmEnvironment
    (busyEngine.registerProviders calmEnvironment).state (some ⟨[[lpBig], [lpSmall]]⟩)
    [lpBig, lpSmall, lpLowZ] rfl rfl rfl sortLabelPositions_example
  have hexit : (busyEngine.run calmEnvironment).exit = RunExit.completed := by
    rw [hrun, hlay]
  have h := run_releases_what_it_creates busyEngine calmEnvironment (by rw [hexit]; rfl)
  refine ⟨hexit, ?_, ?_, h.1, h.2.1⟩
  · rw [hrun, hlay]; rfl
  · rw [hrun, hlay]; rfl

/-! ## The draw loop -/

/-- The draw loop draws the first `k` of the placements handed to it when all
features resolve and cancellation is first seen at the check before
placement number `k`. -/
theorem drawLabels_until_cancelled (env : RunEnvironment) :
    ∀ (l : List LabelPosition) (poll k : Nat),
      (∀ lp ∈ l, lp.feature.isSome = true) → k < l.length →
      (∀ n, n < k → env.renderingStopped (poll + n) = false) →
      env.renderingStopped (poll + k) = true →
      QgsLabelingEngine.drawLabels env poll l = (l.take k).map Event.drawLabel
  | [], _, _, _, hk, _, _ => by simp at hk
  | lp :: rest, poll, 0, _, _, _, htrue => by
    simp only [Nat.add_zero] at htrue
    simp [QgsLabelingEngine.drawLabels, htrue]
  | lp :: rest, poll, k + 1, hres, hk, hfalse, htrue => by
    have h0 : env.renderingStopped poll = false := by
      have := hfalse 0 (Nat.succ_pos k)
      simpa using this
    obtain ⟨f, hf⟩ := Option.isSome_iff_exists.mp (hres lp (List.mem_cons_self _ _))
    have ih := drawLabels_until_cancelled env rest (poll + 1) k
      (fun x hx => hres x (List.mem_cons_of_mem _ hx))
      (by simpa using hk)
      (fun n hn => by
        have := hfalse (n + 1) (Nat.succ_lt_succ hn)
        rw [show poll + 1 + n = poll + (n + 1) by omega]
        exact this)
      (by rw [show poll + 1 + k = poll + (k + 1) by omega]; exact htrue)
    simp [QgsLabelingEngine.drawLabels, h0, hf, ih]

theorem drawLabelCalls_map_drawLabel (l : List LabelPosition) :
    drawLabelCalls (l.map Event.drawLabel) = l := by
  induction l with
  | nil => rfl
  | cons x xs ih =>
    simp only [drawLabelCalls] at ih ⊢
    simp [List.filterMap_cons, ih]

/-- C16: cancellation mid-draw yields a partial result: when the sort gives `N`
placements whose features all resolve, and cancellation is not seen at the
two checks before the draw loop nor at the checks before the first `k`
placements (`k < N`) but is seen at the next check, then `drawLabel` is called
exactly for the first `k` placements in sorted order, and the run goes on to
the end of `run`, where the problem and the solution list are released. -/
theorem run_cancelled_mid_draw (e : QgsLabelingEngine) (env : RunEnvironment)
    (st : RunState) (problem : Option Problem) (sorted : List LabelPosition) (k : Nat)
    (hreg : e.registerProviders env = Outcome.continues st)
    (hext : env.extractProblem = ExtractResult.problem problem)
    (hsort : sortLabelPositions e.mMapSettings.layerIds env.epsilon
      (env.solveProblem problem (testFlag e.mFlags Flag.UseAllLabels)) = some sorted)
    (hres : ∀ lp ∈ sorted, lp.feature.isSome = true)
    (hk : k < sorted.length)
    (hfalse : ∀ n, n < k + 2 → env.renderingStopped n = false)
    (htrue : env.renderingStopped (k + 2) = true) :
    drawLabelCalls (e.run env).calls = sorted.take k ∧
    (drawLabelCalls (e.run env).calls).length = k ∧
    (e.run env).exit = RunExit.completed ∧
    problemsDeleted (e.run env).calls = problemsCreated (e.run env).calls ∧
    labelsDeleted (e.run env).calls = 1 := by
  obtain ⟨hrun, hsetup, hflags, hmap, -⟩ := run_of_registerProviders e env st hreg
  obtain ⟨s1, -, -, s4, s5, s6⟩ := setup_calls_silent st.calls hsetup
  obtain ⟨c1, -, c4, c5, c6⟩ := QGIS.drawAllCandidates_calls st.engine.mFlags problem
  obtain ⟨d1, -, -, d4, d5, d6⟩ := deleteProblem_calls problem
  obtain ⟨-, -, l4, l5, l6⟩ := drawLabels_calls env sorted 2
  have h0 : env.renderingStopped 0 = false := hfalse 0 (by omega)
  have h1 : env.renderingStopped 1 = false := hfalse 1 (by omega)
  rw [← hflags, ← hmap] at hsort
  have hloop := drawLabels_until_cancelled env sorted 2 k hres hk
    (fun n hn => hfalse (2 + n) (by omega)) (by rw [Nat.add_comm]; exact htrue)
  have hdraw : drawLabelCalls (QgsLabelingEngine.drawLabels env 2 sorted) = sorted.take k := by
    rw [hloop, drawLabelCalls_map_drawLabel]
  rw [hrun, layout_completed env st problem sorted hext h0 h1 hsort]
  have hcalls : drawLabelCalls (st.calls ++ [Event.registerCancellationCallback] ++
      [Event.extractProblem (ExtractResult.problem problem)] ++
      QgsLabelingEngine.drawAllCandidates st.engine.mFlags problem ++
      [Event.solveProblem problem (testFlag st.engine.mFlags Flag.UseAllLabels)] ++
      [Event.setRenderHintAntialiasing] ++ QgsLabelingEngine.drawLabels env 2 sorted ++
      [Event.setCompositionModeSourceOver] ++ QgsLabelingEngine.deleteProblem problem ++
      [Event.deleteLabels]) = sorted.take k := by
    simp only [drawLabelCalls_append, candidateRectCalls_append, solveProblemCount_append, problemsCreated_append,
      problemsDeleted_append, labelsDeleted_append, s1, c1, d1, hdraw]
    simp [drawLabelCalls]
  refine ⟨hcalls, ?_, rfl, ?_, ?_⟩
  · simp only [hcalls, List.length_take]
    omega
  · simp only [drawLabelCalls_append, candidateRectCalls_append, solveProblemCount_append, problemsCreated_append,
      problemsDeleted_append, labelsDeleted_append, s4, s5, c4, c5, d4, d5, l4, l5]
    cases problem <;> rfl
  · simp only [drawLabelCalls_append, candidateRectCalls_append, solveProblemCount_append, problemsCreated_append,
      problemsDeleted_append, labelsDeleted_append, s6, c6, d6, l6]
    rfl

theorem run_cancelled_mid_draw_witness :
    drawLabelCalls (busyEngine.run cancelAfterFirstLabel).calls = [lpBig] ∧
    (drawLabelCalls (busyEngine.run cancelAfterFirstLabel).calls).length = 1 ∧
    (busyEngine.run cancelAfterFirstLabel).exit = RunExit.completed ∧
    problemsDeleted (busyEngine.run cancelAfterFirstLabel).calls =
      problemsCreated (busyEngine.run cancelAfterFirstLabel).calls ∧
    labelsDeleted (busyEngine.run cancelAfterFirstLabel).calls = 1 :=
  run_cancelled_mid_draw busyEngine cancelAfterFirstLabel
    (busyEngine.registerProviders cancelAfterFirstLabel).state
    (some ⟨[[lpBig], [lpSmall]]⟩) [lpBig, lpSmall, lpLowZ] 1 rfl rfl
    sortLabelPositions_example
    (by
      intro lp hlp
      simp only [List.mem_cons, List.mem_singleton, List.not_mem_nil, or_false] at hlp
      rcases hlp with h | h | h <;> subst h <;> rfl)
    (by decide)
    (by
      intro n hn
      simp only [cancelAfterFirstLabel, decide_eq_false_iff_not]
      omega)
    (by decide)

theorem operator_isSome (layerIds : List String) (epsilon : ℚ) (a b : LabelPosition)
    (v : Bool) (h : QgsLabelSorter.operator layerIds epsilon a b = some v) :
    a.feature.isSome = true ∧ b.feature.isSome = true := by
  unfold QgsLabelSorter.operator at h
  cases ha : a.feature <;> cases hb : b.feature <;> simp_all

theorem qSortInsertM_success (layerIds : List String) (epsilon : ℚ) (x : LabelPosition) :
    ∀ (l r : List LabelPosition),
      qSortInsertM (QgsLabelSorter.operator layerIds epsilon) x l = some r →
      r.length = l.length + 1 ∧ (∀ lp, lp ∈ r ↔ lp = x ∨ lp ∈ l) ∧
      (∀ y ys, l = y :: ys → x.feature.isSome = true ∧ y.feature.isSome = true)
  | [], r, h => by
    simp only [qSortInsertM, Option.some.injEq] at h
    subst h
    simp
  | y :: ys, r, h => by
    rw [qSortInsertM] at h
    cases hc : QgsLabelSorter.operator layerIds epsilon y x with
    | none => simp [hc] at h
    | some v =>
      have hsome := operator_isSome layerIds epsilon y x v hc
      have hhead : ∀ y1 ys1, y :: ys = y1 :: ys1 →
          x.feature.isSome = true ∧ y1.feature.isSome = true := by
        intro y1 ys1 heq
        cases heq
        exact ⟨hsome.2, hsome.1⟩
      cases v with
      | false =>
        simp only [hc, Option.some.injEq] at h
        subst h
        refine ⟨by simp, ?_, hhead⟩
        intro lp
        simp
      | true =>
        simp only [hc] at h
        cases hrec : qSortInsertM (QgsLabelSorter.operator layerIds epsilon) x ys with
        | none => simp [hrec] at h
        | some r1 =>
          simp only [hrec, Option.some.injEq] at h
          subst h
          obtain ⟨hlen, hmem, -⟩ := qSortInsertM_success layerIds epsilon x ys r1 hrec
          refine ⟨by simp [hlen], ?_, hhead⟩
          intro lp
          simp only [List.mem_cons, hmem lp]
          tauto

/-- A sort that succeeds keeps the placements, and on two or more placements it
has met no null feature pointer: every placement of such a list is compared
at least once. -/
theorem qSortM_features_of_success (layerIds : List String) (epsilon : ℚ) :
    ∀ (l r : List LabelPosition),
      qSortM (QgsLabelSorter.operator layerIds epsilon) l = some r →
      r.length = l.length ∧ (∀ lp, lp ∈ r ↔ lp ∈ l) ∧
      (2 ≤ l.length → ∀ lp ∈ r, lp.feature.isSome = true)
  | [], r, h => by
    simp only [qSortM, Option.some.injEq] at h
    subst h
    simp
  | x :: xs, r, h => by
    rw [qSortM] at h
    cases hxs : qSortM (QgsLabelSorter.operator layerIds epsilon) xs with
    | none => simp [hxs] at h
    | some r1 =>
      simp only [hxs] at h
      obtain ⟨hlen, hsub, hall⟩ := qSortM_features_of_success layerIds epsilon xs r1 hxs
      obtain ⟨hlen2, hmem, hhead⟩ := qSortInsertM_success layerIds epsilon x r1 r h
      refine ⟨by simp [hlen2, hlen], ?_, ?_⟩
      · intro lp
        simp only [List.mem_cons, hmem lp, hsub lp]
      · intro h2 lp hlp
        cases r1 with
        | nil =>
          simp only [List.length_nil] at hlen
          simp only [List.length_cons] at h2
          omega
        | cons y ys =>
          obtain ⟨hx, hy⟩ := hhead y ys rfl
          rcases (hmem lp).mp hlp with h1 | h1
          · rw [h1]; exact hx
          · by_cases h3 : 2 ≤ xs.length
            · exact hall h3 lp h1
            · have hys : ys = [] := by
                simp only [List.length_cons] at hlen
                have : ys.length = 0 := by omega
                exact List.length_eq_zero.mp this
              subst hys
              rw [List.mem_singleton] at h1
              rw [h1]; exact hy

/-- The sorter fails on every list of two or more placements of which one has
a null feature pointer. -/
theorem sortLabelPositions_null_feature (layerIds : List String) (epsilon : ℚ)
    (labels : List LabelPosition) (hlen : 2 ≤ labels.length)
    (lp : LabelPosition) (hlp : lp ∈ labels) (hnull : lp.feature = none) :
    sortLabelPositions layerIds epsilon labels = none := by
  unfold sortLabelPositions
  cases h : qSortM (QgsLabelSorter.operator layerIds epsilon) labels with
  | none => rfl
  | some r =>
    exfalso
    obtain ⟨-, hmem, hall⟩ := qSortM_features_of_success layerIds epsilon labels r h
    have := hall hlen lp ((hmem lp).mpr hlp)
    rw [hnull] at this
    exact Bool.noConfusion this

/-- Without cancellation the draw loop calls `drawLabel` for the placements
whose feature resolves, in order, and skips the others. -/
theorem drawLabels_skips_null (env : RunEnvironment)
    (hgo : ∀ n, env.renderingStopped n = false) :
    ∀ (l : List LabelPosition) (poll : Nat),
      drawLabelCalls (QgsLabelingEngine.drawLabels env poll l) =
        l.filter (fun lp => lp.feature.isSome)
  | [], _ => rfl
  | lp :: rest, poll => by
    have ih := drawLabels_skips_null env hgo rest (poll + 1)
    unfold QgsLabelingEngine.drawLabels
    simp only [hgo poll, Bool.false_eq_true, if_false]
    cases hf : lp.feature with
    | none => simp [ih, hf]
    | some f =>
      simp only [drawLabelCalls] at ih ⊢
      simp [List.filterMap_cons, ih, hf]

/-- C20 (the code at the failing input): when the solver returns `lpNull`, whose
feature pointer is null, and `lpBig`, the run does not get past the sort: the
sorter reads through the null pointer, `run` does not return, and `drawLabel`
is not called for `lpBig`. -/
theorem run_null_feature_in_sort :
    (busyEngine.run nullFeatureSolution).exit = RunExit.nullFeatureInSort ∧
    (busyEngine.run nullFeatureSolution).exit.returned = false ∧
    drawLabelCalls (busyEngine.run nullFeatureSolution).calls = [] := by
  have hreg : busyEngine.registerProviders nullFeatureSolution =
    Outcome.continues (busyEngine.registerProviders nullFeatureSolution).state := rfl
  have hsort : sortLabelPositions
      (busyEngine.registerProviders nullFeatureSolution).state.engine.mMapSettings.layerIds
      nullFeatureSolution.epsilon
      (nullFeatureSolution.solveProblem (some ⟨[[lpBig], [lpSmall]]⟩)
        (testFlag (busyEngine.registerProviders nullFeatureSolution).state.engine.mFlags
          Flag.UseAllLabels)) = none :=
    sortLabelPositions_null_feature _ _ [lpNull, lpBig] (by decide) lpNull
      (List.mem_cons_self _ _) rfl
  have hlay := layout_null_feature nullFeatureSolution
    (busyEngine.registerProviders nullFeatureSolution).state (some ⟨[[lpBig], [lpSmall]]⟩)
    rfl rfl rfl hsort
  rw [(run_of_registerProviders _ _ _ hreg).1, hlay]
  exact ⟨rfl, rfl, rfl⟩

/-! ## The provider tree -/

theorem addLayerCalls_append (a b : List Event) :
    addLayerCalls (a ++ b) = addLayerCalls a ++ addLayerCalls b := by
  simp [addLayerCalls, List.filterMap_append]

theorem addLayerCalls_registerFeatures (env : RunEnvironment) (layer : String × String)
    (features : List QgsLabelFeature) :
    addLayerCalls (QgsLabelingEngine.registerFeatures env layer features) = [] := by
  induction features with
  | nil => rfl
  | cons f fs ih =>
    simp only [addLayerCalls] at ih ⊢
    simp [QgsLabelingEngine.registerFeatures, List.filterMap_cons, ih]

theorem allSupported_preOrder (m : ProviderMembers) (features : List QgsLabelFeature)
    (subProviders : List QgsAbstractLabelProvider)
    (h : allSupported (preOrder (QgsAbstractLabelProvider.mk m features subProviders))) :
    (QgsLabelingEngine.upsidedownLabels m.mUpsidedownLabels).isSome = true ∧
    allSupported (preOrderList subProviders) := by
  rw [preOrder] at h
  exact ⟨h _ (List.mem_cons_self _ _), fun p hp => h p (List.mem_cons_of_mem _ hp)⟩

theorem allSupported_preOrderList (p : QgsAbstractLabelProvider)
    (rest : List QgsAbstractLabelProvider) (h : allSupported (preOrderList (p :: rest))) :
    allSupported (preOrder p) ∧ allSupported (preOrderList rest) := by
  rw [preOrderList] at h
  exact ⟨fun q hq => h q (List.mem_append_left _ hq),
    fun q hq => h q (List.mem_append_right _ hq)⟩

mutual

/-- The pal layers made by `processProvider` on a tree with supported settings. -/
theorem processProvider_addLayerCalls (env : RunEnvironment) :
    ∀ (p : QgsAbstractLabelProvider) (st : RunState), allSupported (preOrder p) →
      ∃ st1, QgsLabelingEngine.processProvider env p st = Outcome.continues st1 ∧
        addLayerCalls st1.calls =
          addLayerCalls st.calls ++ (preOrder p).map QgsAbstractLabelProvider.key
  | QgsAbstractLabelProvider.mk m features subProviders, st, hsup => by
    obtain ⟨hm, hsubs⟩ := allSupported_preOrder m features subProviders hsup
    obtain ⟨ud, hud⟩ := Option.isSome_iff_exists.mp hm
    obtain ⟨st1, h1, h2⟩ := processSubProviders_addLayerCalls env subProviders
      { engine := st.engine,
        calls := st.calls ++ QgsLabelingEngine.configureLayer m ++
          [Event.setUpsidedownLabels (m.mLayerId, m.mProviderId) ud] ++
          QgsLabelingEngine.registerFeatures env (m.mLayerId, m.mProviderId) features } hsubs
    refine ⟨st1, ?_, ?_⟩
    · rw [QgsLabelingEngine.processProvider]
      simp only [hud]
      exact h1
    · rw [h2, preOrder]
      simp only [addLayerCalls_append, addLayerCalls_registerFeatures, List.map_cons,
        List.append_nil]
      have hc : addLayerCalls (QgsLabelingEngine.configureLayer m) =
          [(m.mLayerId, m.mProviderId)] := rfl
      have hu : addLayerCalls
          [Event.setUpsidedownLabels (m.mLayerId, m.mProviderId) ud] = [] := rfl
      rw [hc, hu]
      simp [QgsAbstractLabelProvider.key, QgsAbstractLabelProvider.members]

theorem processSubProviders_addLayerCalls (env : RunEnvironment) :
    ∀ (ps : List QgsAbstractLabelProvider) (st : RunState), allSupported (preOrderList ps) →
      ∃ st1, QgsLabelingEngine.processSubProviders env ps st = Outcome.continues st1 ∧
        addLayerCalls st1.calls =
          addLayerCalls st.calls ++ (preOrderList ps).map QgsAbstractLabelProvider.key
  | [], st, _ => ⟨st, by simp [QgsLabelingEngine.processSubProviders], by simp [preOrderList]⟩
  | p :: rest, st, hsup => by
    obtain ⟨hp, hrest⟩ := allSupported_preOrderList p rest hsup
    obtain ⟨st1, h1, h2⟩ := processProvider_addLayerCalls env p
      { engine := { st.engine with mSubProviders := st.engine.mSubProviders ++ [p] },
        calls := st.calls } hp
    obtain ⟨st2, h3, h4⟩ := processSubProviders_addLayerCalls env rest st1 hrest
    refine ⟨st2, ?_, ?_⟩
    · rw [QgsLabelingEngine.processSubProviders]
      simp only [h1]
      exact h3
    · rw [h4, h2, preOrderList]
      simp [List.append_assoc]

end

/-- C13: provider tree traversal is pre-order and complete: on a provider tree
with supported upside-down settings `processProvider` goes on to its end and
makes exactly one pal layer per provider of the tree, in pre-order: the layer
of a provider before the layers of its sub-providers, and sub-providers in
list order. -/
theorem processProvider_preOrder (env : RunEnvironment) (p : QgsAbstractLabelProvider)
    (st : RunState) (hsup : allSupported (preOrder p)) :
    ∃ st1, QgsLabelingEngine.processProvider env p st = Outcome.continues st1 ∧
      addLayerCalls st1.calls =
        addLayerCalls st.calls ++ (preOrder p).map QgsAbstractLabelProvider.key :=
  processProvider_addLayerCalls env p st hsup

theorem processProvider_preOrder_witness :
    ∃ st1, QgsLabelingEngine.processProvider calmEnvironment rootProvider ⟨freshEngine, []⟩ =
        Outcome.continues st1 ∧
      addLayerCalls st1.calls = [("roads", ""), ("roads", "a"), ("roads", "a1"), ("roads", "b")] ∧
      (addLayerCalls st1.calls).length = 4 := by
  obtain ⟨st1, h1, h2⟩ := processProvider_preOrder calmEnvironment rootProvider
    ⟨freshEngine, []⟩ (by
      intro p hp
      simp only [rootProvider, subA, subB, leafA1, preOrder, preOrderList, List.mem_cons,
        List.append_nil, List.cons_append, List.nil_append, List.mem_singleton,
        List.not_mem_nil, or_false] at hp
      rcases hp with h | h | h | h <;> subst h <;> rfl)
  have h3 : addLayerCalls st1.calls =
      [("roads", ""), ("roads", "a"), ("roads", "a1"), ("roads", "b")] := by
    rw [h2]; rfl
  exact ⟨st1, h1, h3, by rw [h3]; rfl⟩

/-! ## Registration failures -/

theorem withoutRegistrationsOn_append (layer : String × String) (a b : List Event) :
    withoutRegistrationsOn layer (a ++ b) =
      withoutRegistrationsOn layer a ++ withoutRegistrationsOn layer b := by
  simp [withoutRegistrationsOn, List.filter_append]

theorem registerFeatures_eq_map (env : RunEnvironment) (layer : String × String)
    (features : List QgsLabelFeature) :
    QgsLabelingEngine.registerFeatures env layer features =
      features.map (fun f => Event.registerFeature layer f (!env.registerFails layer f)) := by
  induction features with
  | nil => rfl
  | cons f fs ih => simp [QgsLabelingEngine.registerFeatures, ih]

/-- Registrations on other layers are the same with and without the failures
on `layer`; registrations on `layer` itself are left out on both sides. -/
theorem withoutRegistrationsOn_registerFeatures (env : RunEnvironment)
    (layer l : String × String) (features : List QgsLabelFeature) :
    withoutRegistrationsOn layer (QgsLabelingEngine.registerFeatures env l features) =
      withoutRegistrationsOn layer
        (QgsLabelingEngine.registerFeatures (env.withoutFailuresOn layer) l features) := by
  induction features with
  | nil => rfl
  | cons f fs ih =>
    simp only [withoutRegistrationsOn] at ih ⊢
    by_cases hl : l = layer
    · subst hl
      simp only [QgsLabelingEngine.registerFeatures, List.filter_cons, decide_True,
        Bool.not_true, Bool.false_eq_true, if_false]
      exact ih
    · have hd : (!decide (l = layer)) = true := by simp [hl]
      have hf : (env.withoutFailuresOn layer).registerFails l f = env.registerFails l f := by
        simp [RunEnvironment.withoutFailuresOn, hl]
      simp only [QgsLabelingEngine.registerFeatures, List.filter_cons, hd, if_true, hf]
      rw [ih]

mutual

/-- Processing a provider gives the same outcome with and without the failures
on `layer`, up to the registrations on `layer`. -/
theorem processProvider_agrees (env : RunEnvironment) (layer : String × String) :
    ∀ (p : QgsAbstractLabelProvider) (st1 st2 : RunState), st1.engine = st2.engine →
      withoutRegistrationsOn layer st1.calls = withoutRegistrationsOn layer st2.calls →
      Outcome.AgreesUpTo layer (QgsLabelingEngine.processProvider env p st1)
        (QgsLabelingEngine.processProvider (env.withoutFailuresOn layer) p st2)
  | QgsAbstractLabelProvider.mk m features subProviders, st1, st2, he, hc => by
    rw [QgsLabelingEngine.processProvider, QgsLabelingEngine.processProvider]
    simp only
    cases hud : QgsLabelingEngine.upsidedownLabels m.mUpsidedownLabels with
    | none =>
      simp only
      have ha : (env.withoutFailuresOn layer).assertsEnabled = env.assertsEnabled := rfl
      rw [ha]
      cases env.assertsEnabled
      · exact Outcome.AgreesUpTo.continues _ _ he
          (by simp only [withoutRegistrationsOn_append, hc])
      · exact Outcome.AgreesUpTo.aborted _ _ he
          (by simp only [withoutRegistrationsOn_append, hc])
    | some ud =>
      simp only
      apply processSubProviders_agrees env layer subProviders
      · exact he
      · simp only [withoutRegistrationsOn_append, hc,
          withoutRegistrationsOn_registerFeatures env layer]

theorem processSubProviders_agrees (env : RunEnvironment) (layer : String × String) :
    ∀ (ps : List QgsAbstractLabelProvider) (st1 st2 : RunState), st1.engine = st2.engine →
      withoutRegistrationsOn layer st1.calls = withoutRegistrationsOn layer st2.calls →
      Outcome.AgreesUpTo layer (QgsLabelingEngine.processSubProviders env ps st1)
        (QgsLabelingEngine.processSubProviders (env.withoutFailuresOn layer) ps st2)
  | [], st1, st2, he, hc => by
    rw [QgsLabelingEngine.processSubProviders, QgsLabelingEngine.processSubProviders]
    exact Outcome.AgreesUpTo.continues _ _ he hc
  | p :: rest, st1, st2, he, hc => by
    rw [QgsLabelingEngine.processSubProviders, QgsLabelingEngine.processSubProviders]
    simp only
    have h := processProvider_agrees env layer p
      { engine := { st1.engine with mSubProviders := st1.engine.mSubProviders ++ [p] },
        calls := st1.calls }
      { engine := { st2.engine with mSubProviders := st2.engine.mSubProviders ++ [p] },
        calls := st2.calls } (by simp [he]) hc
    generalize QgsLabelingEngine.processProvider env p
      { engine := { st1.engine with mSubProviders := st1.engine.mSubProviders ++ [p] },
        calls := st1.calls } = o1 at h
    generalize QgsLabelingEngine.processProvider (env.withoutFailuresOn layer) p
      { engine := { st2.engine with mSubProviders := st2.engine.mSubProviders ++ [p] },
        calls := st2.calls } = o2 at h
    cases h with
    | continues a b hea hca => exact processSubProviders_agrees env layer rest a b hea hca
    | aborted a b hea hca => exact Outcome.AgreesUpTo.aborted a b hea hca

end

theorem processProviders_agrees (env : RunEnvironment) (layer : String × String) :
    ∀ (ps : List QgsAbstractLabelProvider) (st1 st2 : RunState), st1.engine = st2.engine →
      withoutRegistrationsOn layer st1.calls = withoutRegistrationsOn layer st2.calls →
      Outcome.AgreesUpTo layer (QgsLabelingEngine.processProviders env ps st1)
        (QgsLabelingEngine.processProviders (env.withoutFailuresOn layer) ps st2)
  | [], st1, st2, he, hc => by
    rw [QgsLabelingEngine.processProviders, QgsLabelingEngine.processProviders]
    exact Outcome.AgreesUpTo.continues _ _ he hc
  | p :: rest, st1, st2, he, hc => by
    rw [QgsLabelingEngine.processProviders, QgsLabelingEngine.processProviders]
    have h := processProvider_agrees env layer p st1 st2 he hc
    generalize QgsLabelingEngine.processProvider env p st1 = o1 at h
    generalize QgsLabelingEngine.processProvider (env.withoutFailuresOn layer) p st2 = o2 at h
    cases h with
    | continues a b hea hca => exact processProviders_agrees env layer rest a b hea hca
    | aborted a b hea hca => exact Outcome.AgreesUpTo.aborted a b hea hca

/-- C14 (as stated, refuted): the provider `oddProvider` yields one feature whose
registration would not fail, but its upside-down setting is none of the three
supported values, and `processProvider` returns before the feature loop: no
registration is attempted. -/
theorem processProvider_unsupported_registers_nothing :
    oddProvider.labelFeatures = [riverFeature 1] ∧
    withoutAsserts.registerFails ("rivers", "") (riverFeature 1) = false ∧
    QgsLabelingEngine.processProvider withoutAsserts oddProvider ⟨freshEngine, []⟩ =
      Outcome.continues ⟨freshEngine, QgsLabelingEngine.configureLayer oddProvider.members⟩ ∧
    registerFeatureCalls ("rivers", "")
      (QgsLabelingEngine.processProvider withoutAsserts oddProvider
        ⟨freshEngine, []⟩).state.calls = [] :=
  ⟨rfl, rfl, rfl, rfl⟩

/-- C14 (amended): per-feature failure isolation: for every provider with a
supported upside-down setting, whatever registrations fail, `processProvider`
calls `registerFeature` for every feature in list order, right after the
layer is configured, and each feature is registered unless its own
registration fails; and for every list of providers the outcome, the engine
and all calls other than the registrations on this provider are the same as
when no registration on this provider fails. -/
theorem processProvider_failure_isolation (env : RunEnvironment) (m : ProviderMembers)
    (features : List QgsLabelFeature) (subProviders : List QgsAbstractLabelProvider)
    (st : RunState) (ud : PalUpsideDownLabels)
    (hud : QgsLabelingEngine.upsidedownLabels m.mUpsidedownLabels = some ud) :
    (∃ rest,
      (QgsLabelingEngine.processProvider env
          (QgsAbstractLabelProvider.mk m features subProviders) st).state.calls =
        st.calls ++ QgsLabelingEngine.configureLayer m ++
          [Event.setUpsidedownLabels (m.mLayerId, m.mProviderId) ud] ++
          features.map (fun f => Event.registerFeature (m.mLayerId, m.mProviderId) f
            (!env.registerFails (m.mLayerId, m.mProviderId) f)) ++ rest) ∧
    (∀ (ps : List QgsAbstractLabelProvider) (st0 : RunState),
      Outcome.AgreesUpTo (m.mLayerId, m.mProviderId)
        (QgsLabelingEngine.processProviders env ps st0)
        (QgsLabelingEngine.processProviders
          (env.withoutFailuresOn (m.mLayerId, m.mProviderId)) ps st0)) := by
  constructor
  · obtain ⟨evs, subs, h, -⟩ := processSubProviders_frame env subProviders
      { engine := st.engine,
        calls := st.calls ++ QgsLabelingEngine.configureLayer m ++
          [Event.setUpsidedownLabels (m.mLayerId, m.mProviderId) ud] ++
          QgsLabelingEngine.registerFeatures env (m.mLayerId, m.mProviderId) features }
    refine ⟨evs, ?_⟩
    rw [QgsLabelingEngine.processProvider]
    simp only [hud]
    rw [h, registerFeatures_eq_map]
  · intro ps st0
    exact processProviders_agrees env _ ps st0 st0 rfl rfl

theorem processProvider_failure_isolation_witness :
    (∃ rest,
      (QgsLabelingEngine.processProvider thirdFails fiveFeatures ⟨freshEngine, []⟩).state.calls =
        QgsLabelingEngine.configureLayer (ProviderMembers.new "rivers" "") ++
          [Event.setUpsidedownLabels ("rivers", "") PalUpsideDownLabels.Upright] ++
          [Event.registerFeature ("rivers", "") (riverFeature 1) true,
            Event.registerFeature ("rivers", "") (riverFeature 2) true,
            Event.registerFeature ("rivers", "") (riverFeature 3) false,
            Event.registerFeature ("rivers", "") (riverFeature 4) true,
            Event.registerFeature ("rivers", "") (riverFeature 5) true] ++ rest) ∧
    Outcome.AgreesUpTo ("rivers", "")
      (QgsLabelingEngine.processProviders thirdFails [fiveFeatures, rootProvider]
        ⟨freshEngine, []⟩)
      (QgsLabelingEngine.processProviders (thirdFails.withoutFailuresOn ("rivers", ""))
        [fiveFeatures, rootProvider] ⟨freshEngine, []⟩) := by
  have hud : QgsLabelingEngine.upsidedownLabels
      (ProviderMembers.new "rivers" "").mUpsidedownLabels = some PalUpsideDownLabels.Upright :=
    rfl
  have hk : ((ProviderMembers.new "rivers" "").mLayerId,
      (ProviderMembers.new "rivers" "").mProviderId) = ("rivers", "") := rfl
  have h := processProvider_failure_isolation thirdFails (ProviderMembers.new "rivers" "")
    [riverFeature 1, riverFeature 2, riverFeature 3, riverFeature 4, riverFeature 5]
    [QgsAbstractLabelProvider.mk (ProviderMembers.new "rivers" "sub") [riverFeature 6] []]
    ⟨freshEngine, []⟩ PalUpsideDownLabels.Upright hud
  rw [hk] at h
  obtain ⟨⟨rest, hr⟩, hagree⟩ := h
  have hmap : List.map (fun f => Event.registerFeature ("rivers", "") f
        (!thirdFails.registerFails ("rivers", "") f))
      [riverFeature 1, riverFeature 2, riverFeature 3, riverFeature 4, riverFeature 5] =
      [Event.registerFeature ("rivers", "") (riverFeature 1) true,
        Event.registerFeature ("rivers", "") (riverFeature 2) true,
        Event.registerFeature ("rivers", "") (riverFeature 3) false,
        Event.registerFeature ("rivers", "") (riverFeature 4) true,
        Event.registerFeature ("rivers", "") (riverFeature 5) true] := by
    simp [thirdFails, riverFeature]
  rw [hmap, List.nil_append] at hr
  exact ⟨⟨rest, hr⟩, hagree [fiveFeatures, rootProvider] ⟨freshEngine, []⟩⟩

/-! ## The sort of label positions and the sort of their features -/

theorem qSortInsertM_features (layerIds : List String) (epsilon : ℚ) (x : LabelPosition)
    (fx : QgsLabelFeature) (hx : x.feature = some fx) :
    ∀ (l : List LabelPosition) (fl : List QgsLabelFeature),
      l.map (fun lp => lp.feature) = fl.map some →
      ∃ r, qSortInsertM (QgsLabelSorter.operator layerIds epsilon) x l = some r ∧
        r.map (fun lp => lp.feature) =
          (qSortInsert (QgsLabelSorter layerIds epsilon) fx fl).map some
  | [], fl, h => by
    cases fl with
    | nil => exact ⟨[x], rfl, by simp [qSortInsert, hx]⟩
    | cons f fs => simp at h
  | y :: ys, fl, h => by
    cases fl with
    | nil => simp at h
    | cons f fs =>
      simp only [List.map_cons, List.cons.injEq] at h
      obtain ⟨hy, hys⟩ := h
      have hop : QgsLabelSorter.operator layerIds epsilon y x =
          some (QgsLabelSorter layerIds epsilon f fx) := by
        simp [QgsLabelSorter.operator, hx, hy]
      rw [qSortInsertM, qSortInsert]
      cases hc : QgsLabelSorter layerIds epsilon f fx with
      | false =>
        refine ⟨x :: y :: ys, by simp [hop, hc], ?_⟩
        simp [hx, hy, hys]
      | true =>
        obtain ⟨r, hr, hmap⟩ := qSortInsertM_features layerIds epsilon x fx hx ys fs hys
        refine ⟨y :: r, by simp [hop, hc, hr], ?_⟩
        simp [hy, hmap]

/-- When every feature resolves, the sort of the label positions succeeds and
orders the features as `sortLabels` does. -/
theorem sortLabelPositions_features (layerIds : List String) (epsilon : ℚ) :
    ∀ (labels : List LabelPosition) (fs : List QgsLabelFeature),
      labels.map (fun lp => lp.feature) = fs.map some →
      ∃ sorted, sortLabelPositions layerIds epsilon labels = some sorted ∧
        sorted.map (fun lp => lp.feature) = (sortLabels layerIds epsilon fs).map some
  | [], fs, h => by
    cases fs with
    | nil => exact ⟨[], rfl, rfl⟩
    | cons f fs => simp at h
  | x :: xs, fs, h => by
    cases fs with
    | nil => simp at h
    | cons f fs1 =>
      simp only [List.map_cons, List.cons.injEq] at h
      obtain ⟨hx, hxs⟩ := h
      obtain ⟨r1, hr1, hmap1⟩ := sortLabelPositions_features layerIds epsilon xs fs1 hxs
      unfold sortLabelPositions at hr1
      unfold sortLabels at hmap1
      obtain ⟨r, hr, hmap⟩ := qSortInsertM_features layerIds epsilon x f hx r1
        (qSort (QgsLabelSorter layerIds epsilon) fs1) hmap1
      refine ⟨r, ?_, ?_⟩
      · unfold sortLabelPositions
        rw [qSortM, hr1]
        exact hr
      · unfold sortLabels
        rw [qSort]
        exact hmap

/-! ## The configuration of the solver and the candidate rectangles -/

theorem solveProblemCalls_append (a b : List Event) :
    solveProblemCalls (a ++ b) = solveProblemCalls a ++ solveProblemCalls b := by
  simp [solveProblemCalls, List.filterMap_append]

/-- A list of setup calls holds no call of `solveProblem`. -/
theorem solveProblemCalls_setup (l : List Event) (h : ∀ ev ∈ l, ev.isSetupCall = true) :
    solveProblemCalls l = [] := by
  rw [solveProblemCalls, List.filterMap_eq_nil_iff]
  intro ev hev
  have hs := h ev hev
  clear h hev
  cases ev <;> simp_all [Event.isSetupCall]

/-- The calls other than setup calls leave the list of pal layers as it is. -/
theorem addLayerCalls_of_not_setup (l : List Event) (h : ∀ ev ∈ l, ev.isSetupCall = false) :
    addLayerCalls l = [] := by
  rw [addLayerCalls, List.filterMap_eq_nil_iff]
  intro ev hev
  have hs := h ev hev
  clear h hev
  cases ev <;> simp_all [Event.isSetupCall]

theorem not_setup_append {a b : List Event}
    (ha : ∀ ev ∈ a, ev.isSetupCall = false) (hb : ∀ ev ∈ b, ev.isSetupCall = false) :
    ∀ ev ∈ a ++ b, ev.isSetupCall = false := by
  intro ev hev
  rcases List.mem_append.mp hev with h | h
  · exact ha ev h
  · exact hb ev h

theorem drawCandidates_not_setup (cs : List (List LabelPosition)) :
    ∀ ev ∈ QgsLabelingEngine.drawCandidates cs, ev.isSetupCall = false := by
  induction cs with
  | nil => simp [QgsLabelingEngine.drawCandidates]
  | cons c cs ih =>
    intro ev hev
    simp only [QgsLabelingEngine.drawCandidates, List.mem_append, List.mem_map] at hev
    rcases hev with ⟨lp, -, h⟩ | h
    · subst h; rfl
    · exact ih ev h

theorem drawAllCandidates_not_setup (mFlags : Nat) (problem : Option Problem) :
    ∀ ev ∈ QgsLabelingEngine.drawAllCandidates mFlags problem, ev.isSetupCall = false := by
  cases problem with
  | none => simp [QgsLabelingEngine.drawAllCandidates]
  | some prob =>
    simp only [QgsLabelingEngine.drawAllCandidates]
    by_cases hf : testFlag mFlags Flag.DrawCandidates = true
    · rw [if_pos hf]
      intro ev hev
      rcases List.mem_cons.mp hev with h | h
      · subst h; rfl
      · exact drawCandidates_not_setup _ ev h
    · rw [if_neg hf]
      simp

theorem deleteProblem_not_setup (problem : Option Problem) :
    ∀ ev ∈ QgsLabelingEngine.deleteProblem problem, ev.isSetupCall = false := by
  cases problem <;> simp [QgsLabelingEngine.deleteProblem, Event.isSetupCall]

theorem drawLabels_not_setup (env : RunEnvironment) (labels : List LabelPosition) :
    ∀ (poll : Nat), ∀ ev ∈ QgsLabelingEngine.drawLabels env poll labels,
      ev.isSetupCall = false := by
  induction labels with
  | nil => simp [QgsLabelingEngine.drawLabels]
  | cons lp rest ih =>
    intro poll
    unfold QgsLabelingEngine.drawLabels
    split
    · simp
    · split
      · exact ih (poll + 1)
      · intro ev hev
        rcases List.mem_cons.mp hev with h | h
        · subst h; rfl
        · exact ih (poll + 1) ev h

theorem singleton_not_setup (ev0 : Event) (h : ev0.isSetupCall = false) :
    ∀ ev ∈ [ev0], ev.isSetupCall = false := by
  intro ev hev
  rw [List.mem_singleton] at hev
  subst hev
  exact h

theorem solveProblemCalls_of_count (l : List Event) (h : solveProblemCount l = 0) :
    solveProblemCalls l = [] := by
  rw [solveProblemCount, List.countP_eq_zero] at h
  rw [solveProblemCalls, List.filterMap_eq_nil_iff]
  intro ev hev
  have hs := h ev hev
  clear h hev
  cases ev <;> simp_all

/-- The candidate rectangles drawn by the block guarded by `DrawCandidates`. -/
theorem drawAllCandidates_candidateRectCalls (mFlags : Nat) (problem : Problem) :
    (testFlag mFlags Flag.DrawCandidates = true →
      candidateRectCalls (QgsLabelingEngine.drawAllCandidates mFlags (some problem)) =
        problem.candidates.flatten) ∧
    (∀ p, testFlag mFlags Flag.DrawCandidates = false →
      QgsLabelingEngine.drawAllCandidates mFlags p = []) := by
  constructor
  · intro hf
    simp only [QgsLabelingEngine.drawAllCandidates]
    rw [if_pos hf]
    have hc : ∀ l : List Event, Event.setBrushNoBrush :: l = [Event.setBrushNoBrush] ++ l :=
      fun _ => rfl
    rw [hc, candidateRectCalls_append, (drawCandidates_calls problem.candidates).2.1]
    rfl
  · intro p hf
    cases p with
    | none => rfl
    | some prob =>
      simp only [QgsLabelingEngine.drawAllCandidates]
      rw [if_neg (by simp [hf])]

/-- The second part of `run` appends to the record, and what it appends holds
no setup call. -/
theorem layout_calls (env : RunEnvironment) (st : RunState) :
    ∃ rest, (QgsLabelingEngine.layout env st).calls = st.calls ++ rest ∧
      ∀ ev ∈ rest, ev.isSetupCall = false := by
  have hda := drawAllCandidates_not_setup st.engine.mFlags
  have hdp := deleteProblem_not_setup
  cases hext : env.extractProblem with
  | exception what =>
    refine ⟨[Event.registerCancellationCallback] ++
      [Event.extractProblem (ExtractResult.exception what)], ?_, ?_⟩
    · rw [layout_extraction_failed env st what hext, List.append_assoc]
    · exact not_setup_append (singleton_not_setup _ rfl) (singleton_not_setup _ rfl)
  | problem problem =>
    cases h0 : env.renderingStopped 0 with
    | true =>
      refine ⟨[Event.registerCancellationCallback] ++
        [Event.extractProblem (ExtractResult.problem problem)] ++
        QgsLabelingEngine.deleteProblem problem, ?_, ?_⟩
      · rw [layout_cancelled_after_extraction env st problem hext h0]
        simp only [List.append_assoc]
      · exact not_setup_append (not_setup_append (singleton_not_setup _ rfl)
          (singleton_not_setup _ rfl)) (hdp problem)
    | false =>
      cases h1 : env.renderingStopped 1 with
      | true =>
        refine ⟨[Event.registerCancellationCallback] ++
          [Event.extractProblem (ExtractResult.problem problem)] ++
          QgsLabelingEngine.drawAllCandidates st.engine.mFlags problem ++
          [Event.solveProblem problem (testFlag st.engine.mFlags Flag.UseAllLabels)] ++
          QgsLabelingEngine.deleteProblem problem ++ [Event.deleteLabels], ?_, ?_⟩
        · rw [layout_cancelled_after_solving env st problem hext h0 h1]
          simp only [List.append_assoc]
        · exact not_setup_append (not_setup_append (not_setup_append (not_setup_append
            (not_setup_append (singleton_not_setup _ rfl) (singleton_not_setup _ rfl))
            (hda problem)) (singleton_not_setup _ rfl)) (hdp problem))
            (singleton_not_setup _ rfl)
      | false =>
        cases hsort : sortLabelPositions st.engine.mMapSettings.layerIds env.epsilon
            (env.solveProblem problem (testFlag st.engine.mFlags Flag.UseAllLabels)) with
        | none =>
          refine ⟨[Event.registerCancellationCallback] ++
            [Event.extractProblem (ExtractResult.problem problem)] ++
            QgsLabelingEngine.drawAllCandidates st.engine.mFlags problem ++
            [Event.solveProblem problem (testFlag st.engine.mFlags Flag.UseAllLabels)] ++
            [Event.setRenderHintAntialiasing], ?_, ?_⟩
          · rw [layout_null_feature env st problem hext h0 h1 hsort]
            simp only [List.append_assoc]
          · exact not_setup_append (not_setup_append (not_setup_append
              (not_setup_append (singleton_not_setup _ rfl) (singleton_not_setup _ rfl))
              (hda problem)) (singleton_not_setup _ rfl)) (singleton_not_setup _ rfl)
        | some sorted =>
          refine ⟨[Event.registerCancellationCallback] ++
            [Event.extractProblem (ExtractResult.problem problem)] ++
            QgsLabelingEngine.drawAllCandidates st.engine.mFlags problem ++
            [Event.solveProblem problem (testFlag st.engine.mFlags Flag.UseAllLabels)] ++
            [Event.setRenderHintAntialiasing] ++ QgsLabelingEngine.drawLabels env 2 sorted ++
            [Event.setCompositionModeSourceOver] ++ QgsLabelingEngine.deleteProblem problem ++
            [Event.deleteLabels], ?_, ?_⟩
          · rw [layout_completed env st problem sorted hext h0 h1 hsort]
            simp only [List.append_assoc]
          · exact not_setup_append (not_setup_append (not_setup_append (not_setup_append
              (not_setup_append (not_setup_append (not_setup_append
              (not_setup_append (singleton_not_setup _ rfl) (singleton_not_setup _ rfl))
              (hda problem)) (singleton_not_setup _ rfl)) (singleton_not_setup _ rfl))
              (drawLabels_not_setup env sorted 2)) (singleton_not_setup _ rfl)) (hdp problem))
              (singleton_not_setup _ rfl)

/-- The record of a run starts with the five calls that configure the solver. -/
theorem run_calls_start (e : QgsLabelingEngine) (env : RunEnvironment) :
    ∃ rest, (e.run env).calls =
      [Event.setSearch (QgsLabelingEngine.searchMethod e.mSearchMethod),
        Event.setPointP e.mCandPoint, Event.setLineP e.mCandLine, Event.setPolyP e.mCandPolygon,
        Event.setShowPartial (testFlag e.mFlags Flag.UsePartialCandidates)] ++ rest := by
  obtain ⟨evs, subs, h, -⟩ := processProviders_frame env e.mProviders
    ⟨e, [Event.setSearch (QgsLabelingEngine.searchMethod e.mSearchMethod),
      Event.setPointP e.mCandPoint, Event.setLineP e.mCandLine, Event.setPolyP e.mCandPolygon,
      Event.setShowPartial (testFlag e.mFlags Flag.UsePartialCandidates)]⟩
  have hcalls : (e.registerProviders env).state.calls = _ := congrArg RunState.calls h
  unfold QgsLabelingEngine.run
  cases hreg : e.registerProviders env with
  | aborted st =>
    rw [hreg] at hcalls
    exact ⟨evs, hcalls⟩
  | continues st =>
    rw [hreg] at hcalls
    obtain ⟨rest, hl, -⟩ := layout_calls env st
    refine ⟨evs ++ rest, ?_⟩
    simp only [Outcome.state] at hcalls
    simp only
    rw [hl, hcalls, List.append_assoc]

/-- The calls of `solveProblem` made by the second part of `run`: one, with the
extracted problem and the flag `UseAllLabels`, when the extraction gives a
problem and no cancellation is seen after it, and none otherwise. -/
theorem layout_solveProblemCalls (env : RunEnvironment) (st : RunState)
    (hsetup : ∀ ev ∈ st.calls, ev.isSetupCall = true) :
    (∀ problem, env.extractProblem = ExtractResult.problem problem →
      env.renderingStopped 0 = false →
      solveProblemCalls (QgsLabelingEngine.layout env st).calls =
        [(problem, testFlag st.engine.mFlags Flag.UseAllLabels)]) ∧
    ∀ x ∈ solveProblemCalls (QgsLabelingEngine.layout env st).calls,
      x.2 = testFlag st.engine.mFlags Flag.UseAllLabels := by
  have s0 := solveProblemCalls_setup st.calls hsetup
  have hda := fun p => solveProblemCalls_of_count _
    (QGIS.drawAllCandidates_calls st.engine.mFlags p).2.1
  have hdp := fun p => solveProblemCalls_of_count _ (deleteProblem_calls p).2.2.1
  have hone : ∀ p, solveProblemCalls (QgsLabelingEngine.layout env st).calls =
      [(p, testFlag st.engine.mFlags Flag.UseAllLabels)] →
      ∀ x ∈ solveProblemCalls (QgsLabelingEngine.layout env st).calls,
        x.2 = testFlag st.engine.mFlags Flag.UseAllLabels := by
    intro p hp x hx
    rw [hp, List.mem_singleton] at hx
    rw [hx]
  have hmain : ∀ problem, env.extractProblem = ExtractResult.problem problem →
      env.renderingStopped 0 = false →
      solveProblemCalls (QgsLabelingEngine.layout env st).calls =
        [(problem, testFlag st.engine.mFlags Flag.UseAllLabels)] := by
    intro problem hext h0
    cases h1 : env.renderingStopped 1 with
    | true =>
      rw [layout_cancelled_after_solving env st problem hext h0 h1]
      simp only [solveProblemCalls_append, s0, hda, hdp]
      rfl
    | false =>
      cases hsort : sortLabelPositions st.engine.mMapSettings.layerIds env.epsilon
          (env.solveProblem problem (testFlag st.engine.mFlags Flag.UseAllLabels)) with
      | none =>
        rw [layout_null_feature env st problem hext h0 h1 hsort]
        simp only [solveProblemCalls_append, s0, hda, hdp]
        rfl
      | some sorted =>
        have hdl := solveProblemCalls_of_count _ (drawLabels_calls env sorted 2).2.1
        rw [layout_completed env st problem sorted hext h0 h1 hsort]
        simp only [solveProblemCalls_append, s0, hda, hdp, hdl]
        rfl
  refine ⟨hmain, ?_⟩
  cases hext : env.extractProblem with
  | exception what =>
    rw [layout_extraction_failed env st what hext]
    simp only [solveProblemCalls_append, s0]
    intro x hx
    simp [solveProblemCalls] at hx
  | problem problem =>
    cases h0 : env.renderingStopped 0 with
    | true =>
      rw [layout_cancelled_after_extraction env st problem hext h0]
      simp only [solveProblemCalls_append, s0, hdp]
      intro x hx
      simp [solveProblemCalls] at hx
    | false => exact hone problem (hmain problem hext h0)

/-- C25: the engine configuration is applied to the solver unchanged: the
record of every run starts, before any call for a provider, with the search
strategy that corresponds to `mSearchMethod` (each of the five search methods
gives the pal strategy of the same name), the three candidate budgets
`mCandPoint`, `mCandLine` and `mCandPolygon` and the flag
`UsePartialCandidates`; and every call of `solveProblem` passes the flag
`UseAllLabels`: there is one such call, on the extracted problem, whenever the
extraction gives a problem and no cancellation is seen right after it. -/
theorem run_applies_configuration (e : QgsLabelingEngine) (env : RunEnvironment) :
    (∃ rest, (e.run env).calls =
      [Event.setSearch (QgsLabelingEngine.searchMethod e.mSearchMethod),
        Event.setPointP e.mCandPoint, Event.setLineP e.mCandLine, Event.setPolyP e.mCandPolygon,
        Event.setShowPartial (testFlag e.mFlags Flag.UsePartialCandidates)] ++ rest) ∧
    (QgsLabelingEngine.searchMethod Search.Chain.toInt = PalSearchMethod.CHAIN ∧
      QgsLabelingEngine.searchMethod Search.Popmusic_Tabu.toInt =
        PalSearchMethod.POPMUSIC_TABU ∧
      QgsLabelingEngine.searchMethod Search.Popmusic_Chain.toInt =
        PalSearchMethod.POPMUSIC_CHAIN ∧
      QgsLabelingEngine.searchMethod Search.Popmusic_Tabu_Chain.toInt =
        PalSearchMethod.POPMUSIC_TABU_CHAIN ∧
      QgsLabelingEngine.searchMethod Search.Falp.toInt = PalSearchMethod.FALP) ∧
    (∀ x ∈ solveProblemCalls (e.run env).calls, x.2 = testFlag e.mFlags Flag.UseAllLabels) ∧
    (∀ st problem, e.registerProviders env = Outcome.continues st →
      env.extractProblem = ExtractResult.problem problem →
      env.renderingStopped 0 = false →
      solveProblemCalls (e.run env).calls =
        [(problem, testFlag e.mFlags Flag.UseAllLabels)]) := by
  refine ⟨?_, ⟨rfl, rfl, rfl, rfl, rfl⟩, ?_, ?_⟩
  · exact run_calls_start e env
  · cases hreg : e.registerProviders env with
    | aborted st =>
      obtain ⟨evs, subs, h, hs⟩ := registerProviders_frame e env
      rw [hreg] at h
      simp only [Outcome.state] at h
      intro x hx
      have h0 : solveProblemCalls (e.run env).calls = [] := by
        simp only [QgsLabelingEngine.run, hreg, h]
        exact solveProblemCalls_setup evs hs
      rw [h0] at hx
      cases hx
    | continues st =>
      obtain ⟨hrun, hsetup, hflags, -, -⟩ := run_of_registerProviders e env st hreg
      rw [hrun, ← hflags]
      exact (layout_solveProblemCalls env st hsetup).2
  · intro st problem hreg hext h0
    obtain ⟨hrun, hsetup, hflags, -, -⟩ := run_of_registerProviders e env st hreg
    rw [hrun, ← hflags]
    exact (layout_solveProblemCalls env st hsetup).1 problem hext h0

theorem run_applies_configuration_witness :
    (∃ rest, (tunedEngine.run calmEnvironment).calls =
      [Event.setSearch PalSearchMethod.FALP, Event.setPointP 8, Event.setLineP 9,
        Event.setPolyP 10, Event.setShowPartial true] ++ rest) ∧
    solveProblemCalls (tunedEngine.run calmEnvironment).calls =
      [(some ⟨[[lpBig], [lpSmall]]⟩, true)] := by
  have h := run_applies_configuration tunedEngine calmEnvironment
  obtain ⟨⟨rest, hrest⟩, -, -, hsolve⟩ := h
  exact ⟨⟨rest, hrest⟩,
    hsolve (tunedEngine.registerProviders calmEnvironment).state (some ⟨[[lpBig], [lpSmall]]⟩)
      rfl rfl rfl⟩

/-- C29: an unrecognised search method value falls back to the chain
strategy: when `mSearchMethod` holds an integer that is none of the five
known identifiers, the switch of `run` gives `CHAIN`, and the first call of
the run sets the search strategy of the solver to `CHAIN`; on the five known
identifiers the mapping to pal strategies is injective. -/
theorem searchMethod_unrecognised_is_chain (e : QgsLabelingEngine) (env : RunEnvironment)
    (hnone : ∀ s : Search, e.mSearchMethod ≠ s.toInt) :
    QgsLabelingEngine.searchMethod e.mSearchMethod = PalSearchMethod.CHAIN ∧
    (∃ rest, (e.run env).calls = Event.setSearch PalSearchMethod.CHAIN :: rest) ∧
    ∀ a b : Search, QgsLabelingEngine.searchMethod a.toInt =
      QgsLabelingEngine.searchMethod b.toInt → a = b := by
  have hchain : QgsLabelingEngine.searchMethod e.mSearchMethod = PalSearchMethod.CHAIN := by
    unfold QgsLabelingEngine.searchMethod
    rw [if_neg (hnone Search.Popmusic_Tabu), if_neg (hnone Search.Popmusic_Chain),
      if_neg (hnone Search.Popmusic_Tabu_Chain), if_neg (hnone Search.Falp)]
  refine ⟨hchain, ?_, ?_⟩
  · obtain ⟨rest, h⟩ := run_calls_start e env
    rw [hchain] at h
    exact ⟨_, h⟩
  · intro a b h
    cases a <;> cases b <;> first | rfl | (exact absurd h (by decide))

theorem searchMethod_unrecognised_is_chain_witness :
    strangeEngine.mSearchMethod = 9 ∧
    QgsLabelingEngine.searchMethod strangeEngine.mSearchMethod = PalSearchMethod.CHAIN ∧
    ∃ rest, (strangeEngine.run calmEnvironment).calls =
      Event.setSearch PalSearchMethod.CHAIN :: rest :=
  have h := searchMethod_unrecognised_is_chain strangeEngine calmEnvironment
    (by intro s; cases s <;> decide)
  ⟨rfl, h.1, h.2.1⟩

/-- No candidate rectangle is drawn in a run in which the block guarded by
`DrawCandidates` has nothing to draw on what the extraction returns. -/
theorem run_candidateRectCalls_nil (e : QgsLabelingEngine) (env : RunEnvironment)
    (h : ∀ p, env.extractProblem = ExtractResult.problem p →
      QgsLabelingEngine.drawAllCandidates e.mFlags p = []) :
    candidateRectCalls (e.run env).calls = [] := by
  cases hreg : e.registerProviders env with
  | aborted st =>
    obtain ⟨evs, subs, hst, hs⟩ := registerProviders_frame e env
    rw [hreg] at hst
    simp only [Outcome.state] at hst
    simp only [QgsLabelingEngine.run, hreg, hst]
    exact (setup_calls_silent evs hs).2.1
  | continues st =>
    obtain ⟨hrun, hsetup, hflags, -, -⟩ := run_of_registerProviders e env st hreg
    obtain ⟨-, s2, -, -, -, -⟩ := setup_calls_silent st.calls hsetup
    have hda : ∀ p, env.extractProblem = ExtractResult.problem p →
        QgsLabelingEngine.drawAllCandidates st.engine.mFlags p = [] := by
      rw [hflags]; exact h
    have hdp := fun p => (deleteProblem_calls p).2.1
    rw [hrun]
    cases hext : env.extractProblem with
    | exception what =>
      rw [layout_extraction_failed env st what hext]
      simp only [candidateRectCalls_append, s2]
      rfl
    | problem problem =>
      cases h0 : env.renderingStopped 0 with
      | true =>
        rw [layout_cancelled_after_extraction env st problem hext h0]
        simp only [candidateRectCalls_append, s2, hdp]
        rfl
      | false =>
        cases h1 : env.renderingStopped 1 with
        | true =>
          rw [layout_cancelled_after_solving env st problem hext h0 h1]
          simp only [candidateRectCalls_append, s2, hdp, hda problem hext]
          rfl
        | false =>
          cases hsort : sortLabelPositions st.engine.mMapSettings.layerIds env.epsilon
              (env.solveProblem problem (testFlag st.engine.mFlags Flag.UseAllLabels)) with
          | none =>
            rw [layout_null_feature env st problem hext h0 h1 hsort]
            simp only [candidateRectCalls_append, s2, hdp, hda problem hext]
            rfl
          | some sorted =>
            rw [layout_completed env st problem sorted hext h0 h1 hsort]
            simp only [candidateRectCalls_append, s2, hdp, hda problem hext,
              (drawLabels_calls env sorted 2).1]
            rfl

/-- C24: candidate visualization covers the unreduced set before solving: when
the flag `DrawCandidates` is set, the extraction gives a problem and no
cancellation is seen right after it, `run` draws the rectangle of every
candidate of every feature of the problem once, features in order and the
candidates of a feature in order, all of them before the call of
`solveProblem`, and none after it; when the flag is not set, no candidate
rectangle is drawn in any run, and none is drawn either when the extraction
returns a null pointer. -/
theorem run_draws_candidates_before_solving (e : QgsLabelingEngine) (env : RunEnvironment) :
    (∀ st problem, testFlag e.mFlags Flag.DrawCandidates = true →
      e.registerProviders env = Outcome.continues st →
      env.extractProblem = ExtractResult.problem (some problem) →
      env.renderingStopped 0 = false →
      ∃ before after,
        (e.run env).calls = before ++
          [Event.solveProblem (some problem) (testFlag e.mFlags Flag.UseAllLabels)] ++ after ∧
        candidateRectCalls before = problem.candidates.flatten ∧
        (candidateRectCalls before).length = (problem.candidates.map List.length).sum ∧
        solveProblemCount before = 0 ∧
        candidateRectCalls after = []) ∧
    (testFlag e.mFlags Flag.DrawCandidates = false →
      candidateRectCalls (e.run env).calls = []) ∧
    (env.extractProblem = ExtractResult.problem none →
      candidateRectCalls (e.run env).calls = []) := by
  refine ⟨?_, ?_, ?_⟩
  · intro st problem hflag hreg hext h0
    obtain ⟨hrun, hsetup, hflags, -, -⟩ := run_of_registerProviders e env st hreg
    obtain ⟨-, s2, s3, -, -, -⟩ := setup_calls_silent st.calls hsetup
    have hcr := (drawAllCandidates_candidateRectCalls st.engine.mFlags problem).1
      (by rw [hflags]; exact hflag)
    have hsc := (QGIS.drawAllCandidates_calls st.engine.mFlags (some problem)).2.1
    have hbefore : candidateRectCalls (st.calls ++ [Event.registerCancellationCallback] ++
          [Event.extractProblem (ExtractResult.problem (some problem))] ++
          QgsLabelingEngine.drawAllCandidates st.engine.mFlags (some problem)) =
        problem.candidates.flatten := by
      simp only [candidateRectCalls_append, s2, hcr]
      rfl
    have hcount : solveProblemCount (st.calls ++ [Event.registerCancellationCallback] ++
          [Event.extractProblem (ExtractResult.problem (some problem))] ++
          QgsLabelingEngine.drawAllCandidates st.engine.mFlags (some problem)) = 0 := by
      simp only [solveProblemCount_append, s3, hsc]
      rfl
    have hdp := (deleteProblem_calls (some problem)).2.1
    rw [hrun, ← hflags]
    cases h1 : env.renderingStopped 1 with
    | true =>
      refine ⟨_, QgsLabelingEngine.deleteProblem (some problem) ++ [Event.deleteLabels], ?_,
        hbefore, by rw [hbefore, List.length_flatten], hcount, ?_⟩
      · rw [layout_cancelled_after_solving env st (some problem) hext h0 h1]
        simp only [List.append_assoc]
      · simp only [candidateRectCalls_append, hdp]
        rfl
    | false =>
      cases hsort : sortLabelPositions st.engine.mMapSettings.layerIds env.epsilon
          (env.solveProblem (some problem) (testFlag st.engine.mFlags Flag.UseAllLabels)) with
      | none =>
        refine ⟨_, [Event.setRenderHintAntialiasing], ?_,
          hbefore, by rw [hbefore, List.length_flatten], hcount, rfl⟩
        rw [layout_null_feature env st (some problem) hext h0 h1 hsort]
      | some sorted =>
        refine ⟨_, [Event.setRenderHintAntialiasing] ++
          QgsLabelingEngine.drawLabels env 2 sorted ++ [Event.setCompositionModeSourceOver] ++
          QgsLabelingEngine.deleteProblem (some problem) ++ [Event.deleteLabels], ?_,
          hbefore, by rw [hbefore, List.length_flatten], hcount, ?_⟩
        · rw [layout_completed env st (some problem) sorted hext h0 h1 hsort]
          simp only [List.append_assoc]
        · simp only [candidateRectCalls_append, hdp, (drawLabels_calls env sorted 2).1]
          rfl
  · intro hflag
    exact run_candidateRectCalls_nil e env
      (fun p _ => (drawAllCandidates_candidateRectCalls e.mFlags ⟨[]⟩).2 p hflag)
  · intro hext
    refine run_candidateRectCalls_nil e env (fun p hp => ?_)
    rw [hext] at hp
    cases hp
    rfl

theorem run_draws_candidates_before_solving_witness :
    (∃ before after,
      (busyEngine.run calmEnvironment).calls =
        before ++ [Event.solveProblem (some ⟨[[lpBig], [lpSmall]]⟩) false] ++ after ∧
      candidateRectCalls before = [lpBig, lpSmall] ∧
      (candidateRectCalls before).length = 2 ∧
      solveProblemCount before = 0 ∧
      candidateRectCalls after = []) ∧
    candidateRectCalls (tunedEngine.run calmEnvironment).calls = [] :=
  ⟨(run_draws_candidates_before_solving busyEngine calmEnvironment).1
      (busyEngine.registerProviders calmEnvironment).state ⟨[[lpBig], [lpSmall]]⟩
      (by decide) rfl rfl rfl,
    (run_draws_candidates_before_solving tunedEngine calmEnvironment).2.1 (by decide)⟩

/-! ## The tracked sub-providers and the upside-down setting -/

theorem preOrder_eq (p : QgsAbstractLabelProvider) :
    preOrder p = p :: preOrderList p.subProviders := by
  cases p with
  | mk m fs ps => rw [preOrder]; rfl

theorem addLayerCalls_configureLayer (m : ProviderMembers) :
    addLayerCalls (QgsLabelingEngine.configureLayer m) = [(m.mLayerId, m.mProviderId)] := rfl

mutual

/-- What `processProvider` records in `mSubProviders`: sub-providers of the
tree only, one for each pal layer made after the first; on a tree with
supported settings, all of them in pre-order. -/
theorem processProvider_subProviders (env : RunEnvironment) :
    ∀ (p : QgsAbstractLabelProvider) (st : RunState), ∃ evs subs,
      (QgsLabelingEngine.processProvider env p st).state =
        ⟨{ st.engine with mSubProviders := st.engine.mSubProviders ++ subs },
          st.calls ++ evs⟩ ∧
      (∀ sp ∈ subs, sp ∈ preOrderList p.subProviders) ∧
      (addLayerCalls evs).length = 1 + subs.length ∧
      (allSupported (preOrder p) →
        (∃ st1, QgsLabelingEngine.processProvider env p st = Outcome.continues st1) ∧
        subs = preOrderList p.subProviders)
  | QgsAbstractLabelProvider.mk m features subProviders, st => by
    rw [QgsLabelingEngine.processProvider]
    simp only
    cases hud : QgsLabelingEngine.upsidedownLabels m.mUpsidedownLabels with
    | none =>
      refine ⟨QgsLabelingEngine.configureLayer m, [], ?_, by simp, rfl, ?_⟩
      · simp only
        split <;> simp [Outcome.state]
      · intro hsup
        have h := (allSupported_preOrder m features subProviders hsup).1
        rw [hud] at h
        exact absurd h (by decide)
    | some ud =>
      obtain ⟨evs, subs, h, hmem, hcount, hsup⟩ := processSubProviders_subProviders env
        subProviders
        { engine := st.engine,
          calls := st.calls ++ QgsLabelingEngine.configureLayer m ++
            [Event.setUpsidedownLabels (m.mLayerId, m.mProviderId) ud] ++
            QgsLabelingEngine.registerFeatures env (m.mLayerId, m.mProviderId) features }
      refine ⟨QgsLabelingEngine.configureLayer m ++
        [Event.setUpsidedownLabels (m.mLayerId, m.mProviderId) ud] ++
        QgsLabelingEngine.registerFeatures env (m.mLayerId, m.mProviderId) features ++ evs,
        subs, ?_, hmem, ?_, ?_⟩
      · simp only
        rw [h]
        simp [List.append_assoc]
      · simp only [addLayerCalls_append, addLayerCalls_registerFeatures,
          addLayerCalls_configureLayer, List.length_append, hcount]
        rfl
      · intro hall
        exact hsup (allSupported_preOrder m features subProviders hall).2

theorem processSubProviders_subProviders (env : RunEnvironment) :
    ∀ (ps : List QgsAbstractLabelProvider) (st : RunState), ∃ evs subs,
      (QgsLabelingEngine.processSubProviders env ps st).state =
        ⟨{ st.engine with mSubProviders := st.engine.mSubProviders ++ subs },
          st.calls ++ evs⟩ ∧
      (∀ sp ∈ subs, sp ∈ preOrderList ps) ∧
      (addLayerCalls evs).length = subs.length ∧
      (allSupported (preOrderList ps) →
        (∃ st1, QgsLabelingEngine.processSubProviders env ps st = Outcome.continues st1) ∧
        subs = preOrderList ps)
  | [], st => ⟨[], [], by simp [QgsLabelingEngine.processSubProviders, Outcome.state],
      by simp, rfl, fun _ => ⟨⟨st, by simp [QgsLabelingEngine.processSubProviders]⟩,
        by simp [preOrderList]⟩⟩
  | p :: rest, st => by
    rw [QgsLabelingEngine.processSubProviders]
    simp only
    obtain ⟨evs, subs, h, hmem, hcount, hsup⟩ := processProvider_subProviders env p
      { engine := { st.engine with mSubProviders := st.engine.mSubProviders ++ [p] },
        calls := st.calls }
    have hp : ∀ sp ∈ [p] ++ subs, sp ∈ preOrder p := by
      intro sp hsp
      rw [preOrder_eq]
      rcases List.mem_append.mp hsp with h1 | h1
      · rw [List.mem_singleton] at h1
        rw [h1]
        exact List.mem_cons_self _ _
      · exact List.mem_cons_of_mem _ (hmem sp h1)
    cases hpp : QgsLabelingEngine.processProvider env p
      { engine := { st.engine with mSubProviders := st.engine.mSubProviders ++ [p] },
        calls := st.calls } with
    | aborted st1 =>
      rw [hpp] at h hsup
      simp only [Outcome.state] at h ⊢
      refine ⟨evs, [p] ++ subs, by rw [h]; simp [List.append_assoc], ?_, ?_, ?_⟩
      · intro sp hsp
        rw [preOrderList]
        exact List.mem_append_left _ (hp sp hsp)
      · rw [hcount]; simp; omega
      · intro hall
        obtain ⟨⟨st2, h2⟩, -⟩ := hsup (allSupported_preOrderList p rest hall).1
        cases h2
    | continues st1 =>
      rw [hpp] at h hsup
      simp only [Outcome.state] at h
      obtain ⟨evs2, subs2, h2, hmem2, hcount2, hsup2⟩ :=
        processSubProviders_subProviders env rest st1
      refine ⟨evs ++ evs2, [p] ++ subs ++ subs2, ?_, ?_, ?_, ?_⟩
      · simp only
        rw [h2, h]
        simp [List.append_assoc]
      · intro sp hsp
        rw [preOrderList]
        rcases List.mem_append.mp hsp with h1 | h1
        · exact List.mem_append_left _ (hp sp h1)
        · exact List.mem_append_right _ (hmem2 sp h1)
      · rw [addLayerCalls_append, List.length_append, hcount, hcount2]
        simp; omega
      · intro hall
        obtain ⟨ha, hb⟩ := allSupported_preOrderList p rest hall
        obtain ⟨-, hs1⟩ := hsup ha
        obtain ⟨hc2, hs2⟩ := hsup2 hb
        refine ⟨hc2, ?_⟩
        rw [preOrderList, preOrder_eq, hs1, hs2]
        simp

end

/-- What the loop of `run` over `mProviders` records in `mSubProviders`. The
number `k` is the number of providers of the list that the loop reaches. -/
theorem processProviders_subProviders (env : RunEnvironment) :
    ∀ (ps : List QgsAbstractLabelProvider) (st : RunState), ∃ evs subs k,
      (QgsLabelingEngine.processProviders env ps st).state =
        ⟨{ st.engine with mSubProviders := st.engine.mSubProviders ++ subs },
          st.calls ++ evs⟩ ∧
      (∀ sp ∈ subs, sp ∈ descendants ps) ∧
      (addLayerCalls evs).length = k + subs.length ∧
      ((∃ st1, QgsLabelingEngine.processProviders env ps st = Outcome.continues st1) →
        k = ps.length) ∧
      (allSupported (preOrderList ps) →
        (∃ st1, QgsLabelingEngine.processProviders env ps st = Outcome.continues st1) ∧
        subs = descendants ps)
  | [], st => ⟨[], [], 0, by simp [QgsLabelingEngine.processProviders, Outcome.state],
      by simp, rfl, fun _ => rfl,
      fun _ => ⟨⟨st, by simp [QgsLabelingEngine.processProviders]⟩, by simp [descendants]⟩⟩
  | p :: rest, st => by
    rw [QgsLabelingEngine.processProviders]
    obtain ⟨evs, subs, h, hmem, hcount, hsup⟩ := processProvider_subProviders env p st
    cases hpp : QgsLabelingEngine.processProvider env p st with
    | aborted st1 =>
      rw [hpp] at h hsup
      simp only [Outcome.state] at h ⊢
      refine ⟨evs, subs, 1, h, ?_, hcount, ?_, ?_⟩
      · intro sp hsp
        rw [descendants]
        exact List.mem_append_left _ (hmem sp hsp)
      · intro hc
        obtain ⟨st2, h2⟩ := hc
        cases h2
      · intro hall
        obtain ⟨⟨st2, h2⟩, -⟩ := hsup (allSupported_preOrderList p rest hall).1
        cases h2
    | continues st1 =>
      rw [hpp] at h hsup
      simp only [Outcome.state] at h
      obtain ⟨evs2, subs2, k2, h2, hmem2, hcount2, hk2, hsup2⟩ :=
        processProviders_subProviders env rest st1
      refine ⟨evs ++ evs2, subs ++ subs2, 1 + k2, ?_, ?_, ?_, ?_, ?_⟩
      · simp only
        rw [h2, h]
        simp [List.append_assoc]
      · intro sp hsp
        rw [descendants]
        rcases List.mem_append.mp hsp with h1 | h1
        · exact List.mem_append_left _ (hmem sp h1)
        · exact List.mem_append_right _ (hmem2 sp h1)
      · rw [addLayerCalls_append, List.length_append, hcount, hcount2]
        simp; omega
      · intro hc
        simp only at hc
        rw [hk2 hc]
        simp; omega
      · intro hall
        obtain ⟨ha, hb⟩ := allSupported_preOrderList p rest hall
        obtain ⟨-, hs1⟩ := hsup ha
        obtain ⟨hc2, hs2⟩ := hsup2 hb
        refine ⟨hc2, ?_⟩
        rw [descendants, hs1, hs2]

/-- What a run does to the engine: `mSubProviders` grows by sub-providers of
the provider trees, one for each pal layer made for a sub-provider, and no
other member changes. -/
theorem run_subProviders (e : QgsLabelingEngine) (env : RunEnvironment) :
    ∃ subs, (e.run env).engine = { e with mSubProviders := e.mSubProviders ++ subs } ∧
      (∀ sp ∈ subs, sp ∈ descendants e.mProviders) ∧
      ((e.run env).exit ≠ RunExit.assertionFailed →
        (addLayerCalls (e.run env).calls).length = e.mProviders.length + subs.length) ∧
      (allSupported (preOrderList e.mProviders) →
        (e.run env).exit ≠ RunExit.assertionFailed ∧ subs = descendants e.mProviders) := by
  obtain ⟨evs, subs, k, h, hmem, hcount, hk, hsup⟩ := processProviders_subProviders env
    e.mProviders
    ⟨e, [Event.setSearch (QgsLabelingEngine.searchMethod e.mSearchMethod),
      Event.setPointP e.mCandPoint, Event.setLineP e.mCandLine, Event.setPolyP e.mCandPolygon,
      Event.setShowPartial (testFlag e.mFlags Flag.UsePartialCandidates)]⟩
  have hreg : e.registerProviders env = QgsLabelingEngine.processProviders env e.mProviders
    ⟨e, [Event.setSearch (QgsLabelingEngine.searchMethod e.mSearchMethod),
      Event.setPointP e.mCandPoint, Event.setLineP e.mCandLine, Event.setPolyP e.mCandPolygon,
      Event.setShowPartial (testFlag e.mFlags Flag.UsePartialCandidates)]⟩ := rfl
  rw [← hreg] at h hk hsup
  refine ⟨subs, ?_, hmem, ?_, ?_⟩
  · unfold QgsLabelingEngine.run
    cases hr : e.registerProviders env with
    | aborted st =>
      rw [hr] at h
      simp only [Outcome.state] at h
      simp [h]
    | continues st =>
      rw [hr] at h
      simp only [Outcome.state] at h
      simp [layout_engine, h]
  · cases hr : e.registerProviders env with
    | aborted st =>
      intro hne
      simp [QgsLabelingEngine.run, hr] at hne
    | continues st =>
      intro _
      rw [hr] at h
      simp only [Outcome.state] at h
      have hkk := hk ⟨st, hr⟩
      obtain ⟨rest, hl, hns⟩ := layout_calls env st
      have hrun : e.run env = QgsLabelingEngine.layout env st := by
        simp [QgsLabelingEngine.run, hr]
      rw [hrun, hl, addLayerCalls_append, addLayerCalls_of_not_setup rest hns, h]
      simp only [addLayerCalls_append, List.append_nil, List.length_append, hcount, hkk]
      have h5 : addLayerCalls
          [Event.setSearch (QgsLabelingEngine.searchMethod e.mSearchMethod),
            Event.setPointP e.mCandPoint, Event.setLineP e.mCandLine,
            Event.setPolyP e.mCandPolygon,
            Event.setShowPartial (testFlag e.mFlags Flag.UsePartialCandidates)] = [] := rfl
      rw [h5, List.length_nil, Nat.zero_add]
  · intro hall
    obtain ⟨⟨st, hc⟩, hs⟩ := hsup hall
    refine ⟨?_, hs⟩
    have hrun : e.run env = QgsLabelingEngine.layout env st := by
      simp [QgsLabelingEngine.run, hc]
    rw [hrun]
    unfold QgsLabelingEngine.layout
    simp only
    split
    · simp
    · split
      · simp
      · split
        · simp
        · split <;> simp



theorem flatten_replicate_length {α : Type} (l : List α) (n : Nat) :
    (List.replicate n l).flatten.length = n * l.length := by
  induction n with
  | zero => simp
  | succ n ih => simp [List.replicate_succ, ih, Nat.succ_mul, Nat.add_comm]

theorem flatten_replicate_count {α : Type} [DecidableEq α] (l : List α) (n : Nat) (a : α) :
    (List.replicate n l).flatten.count a = n * l.count a := by
  induction n with
  | zero => simp
  | succ n ih => simp [List.replicate_succ, ih, Nat.succ_mul, Nat.add_comm]

/-- Runs on a provider tree with supported settings, one after another: every
run appends the sub-providers of the tree, and the providers stay as they are. -/
theorem runAll_subProviders :
    ∀ (envs : List RunEnvironment) (e : QgsLabelingEngine),
      allSupported (preOrderList e.mProviders) →
      (e.runAll envs).mProviders = e.mProviders ∧
      (e.runAll envs).mSubProviders =
        e.mSubProviders ++ (List.replicate envs.length (descendants e.mProviders)).flatten
  | [], e, _ => by simp [QgsLabelingEngine.runAll]
  | env :: rest, e, hsup => by
    obtain ⟨subs, heng, -, -, hall⟩ := run_subProviders e env
    obtain ⟨-, hsubs⟩ := hall hsup
    have hp : (e.run env).engine.mProviders = e.mProviders := by rw [heng]
    have hs : (e.run env).engine.mSubProviders = e.mSubProviders ++ descendants e.mProviders := by
      rw [heng, hsubs]
    obtain ⟨h1, h2⟩ := runAll_subProviders rest (e.run env).engine (by rw [hp]; exact hsup)
    rw [QgsLabelingEngine.runAll]
    refine ⟨by rw [h1, hp], ?_⟩
    rw [h2, hs, hp]
    simp [List.replicate_succ, List.append_assoc]

/-- C26: sub-providers are tracked separately from top-level providers: every
run leaves `mProviders` exactly as it was and appends to `mSubProviders`
sub-providers of the provider trees only; when `run` gets past the
registration, the pal layers made are as many as the top-level providers and
the appended sub-providers together, so that every sub-provider that was
reached is recorded; on trees with supported upside-down settings these are
all the sub-providers below the top-level providers, in pre-order. -/
theorem run_tracks_subProviders_separately (e : QgsLabelingEngine) (env : RunEnvironment) :
    (e.run env).engine.mProviders = e.mProviders ∧
    ∃ subs, (e.run env).engine.mSubProviders = e.mSubProviders ++ subs ∧
      (∀ sp ∈ subs, sp ∈ descendants e.mProviders) ∧
      ((e.run env).exit ≠ RunExit.assertionFailed →
        (addLayerCalls (e.run env).calls).length = e.mProviders.length + subs.length) ∧
      (allSupported (preOrderList e.mProviders) → subs = descendants e.mProviders) := by
  obtain ⟨subs, heng, hmem, hcount, hall⟩ := run_subProviders e env
  refine ⟨by rw [heng], subs, by rw [heng], hmem, hcount, fun h => (hall h).2⟩

theorem allSupported_rootProvider : allSupported (preOrderList [rootProvider]) := by
  intro p hp
  simp only [rootProvider, subA, subB, leafA1, preOrder, preOrderList, List.mem_cons,
    List.append_nil, List.cons_append, List.nil_append, List.mem_singleton,
    List.not_mem_nil, or_false] at hp
  rcases hp with h | h | h | h <;> subst h <;> rfl

theorem run_tracks_subProviders_separately_witness :
    (busyEngine.run calmEnvironment).engine.mProviders = [rootProvider] ∧
    (busyEngine.run calmEnvironment).engine.mSubProviders = [subA, leafA1, subB] := by
  obtain ⟨h1, subs, h2, -, -, h4⟩ :=
    run_tracks_subProviders_separately busyEngine calmEnvironment
  refine ⟨h1, ?_⟩
  rw [h2, h4 allSupported_rootProvider]
  rfl

/-- C27 (as stated, refuted): one of the two top-level providers of `oddEngine`
has an upside-down setting that is none of the three supported values and one
sub-provider. The providers of `oddEngine` have four descendants, but a run
that goes to its end appends three entries to `mSubProviders`. -/
theorem run_skips_subProviders_of_unsupported :
    descendants oddEngine.mProviders = [subB, subA, leafA1, subB] ∧
    (oddEngine.run withoutAsserts).exit = RunExit.completed ∧
    (oddEngine.run withoutAsserts).engine.mSubProviders = [subA, leafA1, subB] := by
  have hreg : oddEngine.registerProviders withoutAsserts =
    Outcome.continues (oddEngine.registerProviders withoutAsserts).state := rfl
  have hrun := (run_of_registerProviders _ _ _ hreg).1
  have hlay := layout_completed withoutAsserts
    (oddEngine.registerProviders withoutAsserts).state (some ⟨[[lpBig], [lpSmall]]⟩)
    [lpBig, lpSmall, lpLowZ] rfl rfl rfl sortLabelPositions_example
  refine ⟨rfl, ?_, ?_⟩
  · rw [hrun, hlay]
  · rw [hrun, hlay]; rfl

/-- C27 (amended): on provider trees with supported upside-down settings the
tracked sub-provider list only grows across runs: each run appends to
`mSubProviders` one entry per descendant of the top-level providers, in
pre-order, and removes none, and leaves `mProviders` as it is; so after `n`
runs over a tree with `d` descendants the list has `n * d` entries more than
before, every provider occurs in it `n` times as often as among the
descendants more than before, and after two or more runs over a tree that
has a descendant the list has duplicates. -/
theorem subProviders_grow_across_runs (e : QgsLabelingEngine) (envs : List RunEnvironment)
    (hsup : allSupported (preOrderList e.mProviders)) :
    (∀ env, (e.run env).engine.mSubProviders = e.mSubProviders ++ descendants e.mProviders) ∧
    (e.runAll envs).mProviders = e.mProviders ∧
    (e.runAll envs).mSubProviders =
      e.mSubProviders ++ (List.replicate envs.length (descendants e.mProviders)).flatten ∧
    (e.runAll envs).mSubProviders.length =
      e.mSubProviders.length + envs.length * (descendants e.mProviders).length ∧
    (∀ sp, (e.runAll envs).mSubProviders.count sp =
      e.mSubProviders.count sp + envs.length * (descendants e.mProviders).count sp) ∧
    (2 ≤ envs.length → descendants e.mProviders ≠ [] →
      ¬ (e.runAll envs).mSubProviders.Nodup) := by
  obtain ⟨hp, hs⟩ := runAll_subProviders envs e hsup
  have hcount : ∀ sp, (e.runAll envs).mSubProviders.count sp =
      e.mSubProviders.count sp + envs.length * (descendants e.mProviders).count sp := by
    intro sp
    rw [hs, List.count_append, flatten_replicate_count]
  refine ⟨?_, hp, hs, ?_, hcount, ?_⟩
  · intro env
    obtain ⟨subs, heng, -, -, hall⟩ := run_subProviders e env
    rw [heng, (hall hsup).2]
  · rw [hs, List.length_append, flatten_replicate_length]
  · intro hn hd hnodup
    obtain ⟨sp, hsp⟩ := List.exists_mem_of_ne_nil _ hd
    have h1 : 1 ≤ (descendants e.mProviders).count sp := List.count_pos_iff.mpr hsp
    have h2 := List.nodup_iff_count_le_one.mp hnodup sp
    rw [hcount sp] at h2
    have h3 : 2 * 1 ≤ envs.length * (descendants e.mProviders).count sp :=
      Nat.mul_le_mul hn h1
    omega

theorem subProviders_grow_across_runs_witness :
    (busyEngine.runAll [calmEnvironment, cancelAfterExtraction]).mSubProviders =
      [subA, leafA1, subB, subA, leafA1, subB] ∧
    (busyEngine.runAll [calmEnvironment, cancelAfterExtraction]).mSubProviders.length = 2 * 3 ∧
    ¬ (busyEngine.runAll [calmEnvironment, cancelAfterExtraction]).mSubProviders.Nodup := by
  have h := subProviders_grow_across_runs busyEngine [calmEnvironment, cancelAfterExtraction]
    allSupported_rootProvider
  refine ⟨h.2.2.1.trans rfl, h.2.2.2.1.trans rfl, h.2.2.2.2.2 (by decide) ?_⟩
  intro hd
  have h3 : descendants busyEngine.mProviders = [subA, leafA1, subB] := rfl
  rw [h3] at hd
  cases hd

/-- C21 (as stated, refuted): the provider `oddParent` has an upside-down
setting that is none of the three supported values. In a build in which
`Q_ASSERT` does nothing, `processProvider` returns after the layer is
configured, without an error, and the run goes on with the next provider to
its end. -/
theorem run_unsupported_setting_goes_on :
    QgsLabelingEngine.upsidedownLabels oddParent.members.mUpsidedownLabels = none ∧
    QgsLabelingEngine.processProvider withoutAsserts oddParent ⟨freshEngine, []⟩ =
      Outcome.continues ⟨freshEngine, QgsLabelingEngine.configureLayer oddParent.members⟩ ∧
    (oddEngine.run withoutAsserts).exit = RunExit.completed ∧
    addLayerCalls (oddEngine.run withoutAsserts).calls =
      [("lakes", ""), ("roads", ""), ("roads", "a"), ("roads", "a1"), ("roads", "b")] := by
  have hreg : oddEngine.registerProviders withoutAsserts =
    Outcome.continues (oddEngine.registerProviders withoutAsserts).state := rfl
  have hrun := (run_of_registerProviders _ _ _ hreg).1
  have hlay := layout_completed withoutAsserts
    (oddEngine.registerProviders withoutAsserts).state (some ⟨[[lpBig], [lpSmall]]⟩)
    [lpBig, lpSmall, lpLowZ] rfl rfl rfl sortLabelPositions_example
  refine ⟨rfl, rfl, ?_, ?_⟩
  · rw [hrun, hlay]
  · rw [hrun, hlay]; rfl

/-- C21 (amended): for every provider whose upside-down setting is none of
`Upright`, `ShowDefined` and `ShowAll`, `processProvider` configures the layer
and reaches `Q_ASSERT`; in a build in which `Q_ASSERT` stops the program it
stops there, and in a build in which `Q_ASSERT` does nothing it returns
there; either way no upside-down policy is set, no feature is registered and
no sub-provider is processed. For each of the three supported values it sets
the policy of the layer to the value of the same name, right after the layer
is configured. -/
theorem processProvider_upsidedownLabels (env : RunEnvironment) (m : ProviderMembers)
    (features : List QgsLabelFeature) (subProviders : List QgsAbstractLabelProvider)
    (st : RunState) :
    (QgsLabelingEngine.upsidedownLabels m.mUpsidedownLabels = none →
      (env.assertsEnabled = true →
        QgsLabelingEngine.processProvider env
            (QgsAbstractLabelProvider.mk m features subProviders) st =
          Outcome.aborted ⟨st.engine, st.calls ++ QgsLabelingEngine.configureLayer m⟩) ∧
      (env.assertsEnabled = false →
        QgsLabelingEngine.processProvider env
            (QgsAbstractLabelProvider.mk m features subProviders) st =
          Outcome.continues ⟨st.engine, st.calls ++ QgsLabelingEngine.configureLayer m⟩)) ∧
    (∀ ud, QgsLabelingEngine.upsidedownLabels m.mUpsidedownLabels = some ud →
      ∃ rest,
        (QgsLabelingEngine.processProvider env
            (QgsAbstractLabelProvider.mk m features subProviders) st).state.calls =
          st.calls ++ QgsLabelingEngine.configureLayer m ++
            [Event.setUpsidedownLabels (m.mLayerId, m.mProviderId) ud] ++ rest) ∧
    (QgsLabelingEngine.upsidedownLabels UpsideDownLabels.Upright.toInt =
        some PalUpsideDownLabels.Upright ∧
      QgsLabelingEngine.upsidedownLabels UpsideDownLabels.ShowDefined.toInt =
        some PalUpsideDownLabels.ShowDefined ∧
      QgsLabelingEngine.upsidedownLabels UpsideDownLabels.ShowAll.toInt =
        some PalUpsideDownLabels.ShowAll) ∧
    ((∀ u : UpsideDownLabels, m.mUpsidedownLabels ≠ u.toInt) ↔
      QgsLabelingEngine.upsidedownLabels m.mUpsidedownLabels = none) := by
  refine ⟨?_, ?_, ⟨rfl, rfl, rfl⟩, ?_⟩
  · intro hud
    constructor
    · intro ha
      rw [QgsLabelingEngine.processProvider]
      simp [hud, ha]
    · intro ha
      rw [QgsLabelingEngine.processProvider]
      simp [hud, ha]
  · intro ud hud
    obtain ⟨evs, subs, h, -⟩ := processSubProviders_frame env subProviders
      { engine := st.engine,
        calls := st.calls ++ QgsLabelingEngine.configureLayer m ++
          [Event.setUpsidedownLabels (m.mLayerId, m.mProviderId) ud] ++
          QgsLabelingEngine.registerFeatures env (m.mLayerId, m.mProviderId) features }
    refine ⟨QgsLabelingEngine.registerFeatures env (m.mLayerId, m.mProviderId) features ++ evs,
      ?_⟩
    rw [QgsLabelingEngine.processProvider]
    simp only [hud]
    rw [h]
    simp only [List.append_assoc]
  · constructor
    · intro h
      unfold QgsLabelingEngine.upsidedownLabels
      rw [if_neg (h UpsideDownLabels.Upright), if_neg (h UpsideDownLabels.ShowDefined),
        if_neg (h UpsideDownLabels.ShowAll)]
    · intro h u hu
      rw [hu] at h
      cases u <;> exact absurd h (by decide)

theorem processProvider_upsidedownLabels_witness :
    QgsLabelingEngine.processProvider calmEnvironment oddParent ⟨freshEngine, []⟩ =
      Outcome.aborted ⟨freshEngine, QgsLabelingEngine.configureLayer oddParent.members⟩ ∧
    QgsLabelingEngine.processProvider withoutAsserts oddParent ⟨freshEngine, []⟩ =
      Outcome.continues ⟨freshEngine, QgsLabelingEngine.configureLayer oddParent.members⟩ ∧
    ∃ rest,
      (QgsLabelingEngine.processProvider calmEnvironment subB ⟨freshEngine, []⟩).state.calls =
        QgsLabelingEngine.configureLayer subB.members ++
          [Event.setUpsidedownLabels ("roads", "b") PalUpsideDownLabels.Upright] ++ rest := by
  have hodd := processProvider_upsidedownLabels calmEnvironment oddParent.members [] [subB]
    ⟨freshEngine, []⟩
  have hodd2 := processProvider_upsidedownLabels withoutAsserts oddParent.members [] [subB]
    ⟨freshEngine, []⟩
  have hb := processProvider_upsidedownLabels calmEnvironment subB.members [] []
    ⟨freshEngine, []⟩
  have hnone : QgsLabelingEngine.upsidedownLabels oddParent.members.mUpsidedownLabels = none :=
    rfl
  have hsome : QgsLabelingEngine.upsidedownLabels subB.members.mUpsidedownLabels =
    some PalUpsideDownLabels.Upright := rfl
  exact ⟨(hodd.1 hnone).1 rfl, (hodd2.1 hnone).2 rfl, hb.2.1 _ hsome⟩

/-! ## The settings round trip -/

/-- The five tests of `readSettingsFromProject` rebuild a set of flags of the engine. -/
theorem flags_rebuilt : ∀ m, m < 64 → m % 2 = 0 →
    (((((if testFlag m Flag.DrawCandidates then Flag.DrawCandidates.bit else 0) |||
      (if testFlag m Flag.DrawLabelRectOnly then Flag.DrawLabelRectOnly.bit else 0)) |||
      (if testFlag m Flag.UseAllLabels then Flag.UseAllLabels.bit else 0)) |||
      (if testFlag m Flag.UsePartialCandidates then Flag.UsePartialCandidates.bit else 0)) |||
      (if testFlag m Flag.RenderOutlineLabels then Flag.RenderOutlineLabels.bit else 0)) = m := by
  decide

theorem flags_insert (g f : Flag) : ∀ m, m < 64 → m % 2 = 0 →
    (g.bit ||| m < 64 ∧ (g.bit ||| m) % 2 = 0 ∧
      testFlag (g.bit ||| m) f = (decide (f = g) || testFlag m f)) := by
  cases g <;> cases f <;> decide



/-- The flags of a list are five bits at most, and a flag is set in their
value when it is in the list. -/
theorem flagsOf_spec : ∀ fs : List Flag,
    (flagsOf fs < 64 ∧ flagsOf fs % 2 = 0) ∧ ∀ f, testFlag (flagsOf fs) f = decide (f ∈ fs)
  | [] => ⟨by decide, fun f => by cases f <;> decide⟩
  | g :: fs => by
    obtain ⟨⟨h1, h2⟩, h3⟩ := flagsOf_spec fs
    rw [flagsOf]
    refine ⟨⟨(flags_insert g g _ h1 h2).1, (flags_insert g g _ h1 h2).2.1⟩, ?_⟩
    intro f
    rw [(flags_insert g f _ h1 h2).2.2, h3]
    simp

/-- The flags of an engine after `readSettingsFromProject`, from the five
Booleans read. -/
theorem readSettingsFromProject_mFlags (e : QgsLabelingEngine) (prj : QgsProject) :
    (e.readSettingsFromProject prj).mFlags =
      (((((if prj.readBoolEntry "PAL" "/ShowingCandidates" false
          then Flag.DrawCandidates.bit else 0) |||
        (if prj.readBoolEntry "PAL" "/DrawRectOnly" false
          then Flag.DrawLabelRectOnly.bit else 0)) |||
        (if prj.readBoolEntry "PAL" "/ShowingAllLabels" false
          then Flag.UseAllLabels.bit else 0)) |||
        (if prj.readBoolEntry "PAL" "/ShowingPartialsLabels" true
          then Flag.UsePartialCandidates.bit else 0)) |||
        (if prj.readBoolEntry "PAL" "/DrawOutlineLabels" true
          then Flag.RenderOutlineLabels.bit else 0)) := by
  unfold QgsLabelingEngine.readSettingsFromProject
  generalize prj.readBoolEntry "PAL" "/ShowingCandidates" false = c at *
  generalize prj.readBoolEntry "PAL" "/DrawRectOnly" false = r at *
  generalize prj.readBoolEntry "PAL" "/ShowingAllLabels" false = a at *
  generalize prj.readBoolEntry "PAL" "/ShowingPartialsLabels" true = p at *
  generalize prj.readBoolEntry "PAL" "/DrawOutlineLabels" true = o at *
  cases c <;> cases r <;> cases a <;> cases p <;> cases o <;>
    (simp only [if_true, Bool.false_eq_true, if_false] <;> try decide)

/-- C23: general configuration round trip: for every configuration of the
writing engine whose flags are a set of the five flags, whatever its search
method and its three candidate budgets, for every reading engine and every
project store, `writeSettingsToProject` on the first followed by
`readSettingsFromProject` on the second makes the search method, the three
budgets and the flags of the second equal to those of the first; a flag is
set after the read when it is in the set written, whatever the flags of the
reading engine were before. -/
theorem settings_round_trip (writer reader : QgsLabelingEngine) (prj : QgsProject)
    (fs : List Flag) (hflags : writer.mFlags = flagsOf fs) :
    (reader.readSettingsFromProject (writer.writeSettingsToProject prj)).mSearchMethod =
      writer.mSearchMethod ∧
    (reader.readSettingsFromProject (writer.writeSettingsToProject prj)).mCandPoint =
      writer.mCandPoint ∧
    (reader.readSettingsFromProject (writer.writeSettingsToProject prj)).mCandLine =
      writer.mCandLine ∧
    (reader.readSettingsFromProject (writer.writeSettingsToProject prj)).mCandPolygon =
      writer.mCandPolygon ∧
    (reader.readSettingsFromProject (writer.writeSettingsToProject prj)).mFlags =
      writer.mFlags ∧
    ∀ f, testFlag (reader.readSettingsFromProject (writer.writeSettingsToProject prj)).mFlags f =
      decide (f ∈ fs) := by
  have hr := reads_after_writeSettingsToProject writer prj
  obtain ⟨h1, h2, h3, h4, -⟩ :=
    readSettingsFromProject_fields reader (writer.writeSettingsToProject prj)
  obtain ⟨⟨hlt, heven⟩, hmem⟩ := flagsOf_spec fs
  have hm : (reader.readSettingsFromProject (writer.writeSettingsToProject prj)).mFlags =
      writer.mFlags := by
    rw [readSettingsFromProject_mFlags, (hr 0 false).2.2.2.2.1, (hr 0 false).2.2.2.2.2.1,
      (hr 0 false).2.2.2.2.2.2.1, (hr 0 true).2.2.2.2.2.2.2.1, (hr 0 true).2.2.2.2.2.2.2.2]
    rw [hflags]
    exact flags_rebuilt _ hlt heven
  refine ⟨?_, ?_, ?_, ?_, hm, ?_⟩
  · rw [h1, (hr _ false).1]
  · rw [h2, (hr _ false).2.1]
  · rw [h3, (hr _ false).2.2.1]
  · rw [h4, (hr _ false).2.2.2.1]
  · intro f
    rw [hm, hflags]
    exact hmem f

theorem settings_round_trip_witness :
    busyEngine.mSearchMethod = 0 ∧ testFlag busyEngine.mFlags Flag.DrawCandidates = true ∧
    (busyEngine.readSettingsFromProject
      (tunedEngine.writeSettingsToProject partialProject)).mSearchMethod = 4 ∧
    (busyEngine.readSettingsFromProject
      (tunedEngine.writeSettingsToProject partialProject)).mCandPoint = 8 ∧
    (busyEngine.readSettingsFromProject
      (tunedEngine.writeSettingsToProject partialProject)).mFlags = tunedEngine.mFlags ∧
    testFlag (busyEngine.readSettingsFromProject
      (tunedEngine.writeSettingsToProject partialProject)).mFlags Flag.DrawCandidates = false ∧
    testFlag (busyEngine.readSettingsFromProject
      (tunedEngine.writeSettingsToProject partialProject)).mFlags Flag.UseAllLabels = true := by
  have h := settings_round_trip tunedEngine busyEngine partialProject
    [Flag.RenderOutlineLabels, Flag.UsePartialCandidates, Flag.UseAllLabels] (by decide)
  exact ⟨rfl, by decide, h.1, h.2.1, h.2.2.2.2.1, (h.2.2.2.2.2 Flag.DrawCandidates).trans
    (by decide), (h.2.2.2.2.2 Flag.UseAllLabels).trans (by decide)⟩

/-! ## The position-order codec -/

theorem foldl_append_singleton {α β : Type} (f : α → β) (l : List α) (init : List β) :
    l.foldl (fun acc a => acc ++ [f a]) init = init ++ l.map f := by
  induction l generalizing init with
  | nil => simp
  | cons a l ih => simp [List.foldl_cons, ih, List.append_assoc]

theorem foldl_of_step {α β : Type} (F : List β → α → List β) (g : α → Option β)
    (hsome : ∀ r a b, g a = some b → F r a = r ++ [b])
    (hnone : ∀ r a, g a = none → F r a = r) (l : List α) (init : List β) :
    l.foldl F init = init ++ l.filterMap g := by
  induction l generalizing init with
  | nil => simp
  | cons a l ih =>
    rw [List.foldl_cons, ih, List.filterMap_cons]
    cases hg : g a with
    | none => rw [hnone init a hg]
    | some b => rw [hsome init a b hg]; simp

theorem split_of_not_mem (sep : Char) (t : QString) (h : sep ∉ t) :
    QString.split sep t = [t] := by
  induction t with
  | nil => rfl
  | cons c t ih =>
    have hc : c ≠ sep := fun hc => h (by rw [hc]; exact List.mem_cons_self _ _)
    have ht : sep ∉ t := fun ht => h (List.mem_cons_of_mem _ ht)
    rw [QString.split, if_neg hc, ih ht]

theorem split_append (sep : Char) (rest : QString) (t : QString) (h : sep ∉ t) :
    QString.split sep (t ++ sep :: rest) = t :: QString.split sep rest := by
  induction t with
  | nil =>
    rw [List.nil_append, QString.split, if_pos rfl]
  | cons c t ih =>
    have hc : c ≠ sep := fun hc => h (by rw [hc]; exact List.mem_cons_self _ _)
    have ht : sep ∉ t := fun ht => h (List.mem_cons_of_mem _ ht)
    rw [List.cons_append, QString.split, if_neg hc, ih ht]

/-- Splitting a joined list gives the list back when it is not empty and no
string of it holds the separator. -/
theorem split_join (sep : Char) :
    ∀ toks : List QString, toks ≠ [] → (∀ t ∈ toks, sep ∉ t) →
      QString.split sep (QStringList.join [sep] toks) = toks
  | [], h, _ => absurd rfl h
  | [t], _, hs => by
    rw [QStringList.join]
    exact split_of_not_mem sep t (hs t (List.mem_singleton_self t))
  | t :: t2 :: rest, _, hs => by
    rw [QStringList.join]
    · rw [List.append_assoc, List.singleton_append,
        split_append sep _ t (hs t (List.mem_cons_self _ _)),
        split_join sep (t2 :: rest) (by simp) (fun x hx => hs x (List.mem_cons_of_mem _ hx))]
    · simp

theorem decodePredefinedPositionOrder_eq_filterMap (s : QString) :
    QgsLabelingUtils.decodePredefinedPositionOrder s =
      (QString.split ',' s).filterMap
        (fun token => QgsLabelingUtils.decodeToken (QString.toUpper (QString.trimmed token))) := by
  unfold QgsLabelingUtils.decodePredefinedPositionOrder
  simp only
  rw [foldl_of_step _
    (fun token => QgsLabelingUtils.decodeToken (QString.toUpper (QString.trimmed token)))
    (fun r a b h => by simp only [h]) (fun r a h => by simp only [h]), List.nil_append]

theorem encodePredefinedPositionOrder_eq_join (v : List PredefinedPointPosition) :
    QgsLabelingUtils.encodePredefinedPositionOrder v =
      QStringList.join [','] (v.map QgsLabelingUtils.positionCode) := by
  unfold QgsLabelingUtils.encodePredefinedPositionOrder
  simp only
  rw [foldl_append_singleton QgsLabelingUtils.positionCode, List.nil_append]

/-- The code of a position holds no comma, and the chain of comparisons turns
its cleaned form back into the position. -/
theorem positionCode_spec (p : PredefinedPointPosition) :
    ',' ∉ QgsLabelingUtils.positionCode p ∧
    QgsLabelingUtils.decodeToken
      (QString.toUpper (QString.trimmed (QgsLabelingUtils.positionCode p))) = some p := by
  cases p <;> exact ⟨by decide, by decide⟩

/-- The chain of comparisons gives a position for its code and for no other string. -/
theorem decodeToken_eq_some (cleaned : QString) (p : PredefinedPointPosition) :
    QgsLabelingUtils.decodeToken cleaned = some p ↔ cleaned = QgsLabelingUtils.positionCode p := by
  constructor
  · intro h
    unfold QgsLabelingUtils.decodeToken at h
    by_cases h1 : cleaned = ['T', 'L']
    · rw [if_pos h1] at h
      cases h
      exact h1
    rw [if_neg h1] at h
    by_cases h2 : cleaned = ['T', 'S', 'L']
    · rw [if_pos h2] at h
      cases h
      exact h2
    rw [if_neg h2] at h
    by_cases h3 : cleaned = ['T']
    · rw [if_pos h3] at h
      cases h
      exact h3
    rw [if_neg h3] at h
    by_cases h4 : cleaned = ['T', 'S', 'R']
    · rw [if_pos h4] at h
      cases h
      exact h4
    rw [if_neg h4] at h
    by_cases h5 : cleaned = ['T', 'R']
    · rw [if_pos h5] at h
      cases h
      exact h5
    rw [if_neg h5] at h
    by_cases h6 : cleaned = ['L']
    · rw [if_pos h6] at h
      cases h
      exact h6
    rw [if_neg h6] at h
    by_cases h7 : cleaned = ['R']
    · rw [if_pos h7] at h
      cases h
      exact h7
    rw [if_neg h7] at h
    by_cases h8 : cleaned = ['B', 'L']
    · rw [if_pos h8] at h
      cases h
      exact h8
    rw [if_neg h8] at h
    by_cases h9 : cleaned = ['B', 'S', 'L']
    · rw [if_pos h9] at h
      cases h
      exact h9
    rw [if_neg h9] at h
    by_cases h10 : cleaned = ['B']
    · rw [if_pos h10] at h
      cases h
      exact h10
    rw [if_neg h10] at h
    by_cases h11 : cleaned = ['B', 'S', 'R']
    · rw [if_pos h11] at h
      cases h
      exact h11
    rw [if_neg h11] at h
    by_cases h12 : cleaned = ['B', 'R']
    · rw [if_pos h12] at h
      cases h
      exact h12
    rw [if_neg h12] at h
    cases h
  · intro h
    subst h
    cases p <;> rfl

/-- C22: position-order codec round trip: for every finite sequence `v` of
predefined point positions, with repetitions and also when it is empty,
decoding the encoded sequence gives `v`. -/
theorem decode_encode_round_trip (v : List PredefinedPointPosition) :
    QgsLabelingUtils.decodePredefinedPositionOrder
      (QgsLabelingUtils.encodePredefinedPositionOrder v) = v := by
  rw [decodePredefinedPositionOrder_eq_filterMap, encodePredefinedPositionOrder_eq_join]
  cases v with
  | nil => decide
  | cons p ps =>
    rw [split_join ',' _ (by simp) (by
      intro t ht
      obtain ⟨q, -, hq⟩ := List.mem_map.mp ht
      rw [← hq]
      exact (positionCode_spec q).1)]
    rw [List.filterMap_map]
    have hf : ((fun token => QgsLabelingUtils.decodeToken
        (QString.toUpper (QString.trimmed token))) ∘ QgsLabelingUtils.positionCode) = some := by
      funext q
      exact (positionCode_spec q).2
    rw [hf, List.filterMap_some]

/-- C28: `decodePredefinedPositionOrder` is tolerant and order-preserving: for
every string the result is the list, in order, of the positions of those
comma-separated tokens that, after trimming surrounding white space and
upper-casing, are the code of a position, where the codes of the twelve
positions are `TL`, `TSL`, `T`, `TSR`, `TR`, `L`, `R`, `BL`, `BSL`, `B`, `BSR`
and `BR` and no other string gives a position; so the result is never longer
than the number of tokens, and decoding the empty string gives the empty list. -/
theorem decodePredefinedPositionOrder_tolerant (s : QString) :
    QgsLabelingUtils.decodePredefinedPositionOrder s =
      (QString.split ',' s).filterMap
        (fun token => QgsLabelingUtils.decodeToken (QString.toUpper (QString.trimmed token))) ∧
    (∀ cleaned p, QgsLabelingUtils.decodeToken cleaned = some p ↔
      cleaned = QgsLabelingUtils.positionCode p) ∧
    (QgsLabelingUtils.decodePredefinedPositionOrder s).length ≤ (QString.split ',' s).length ∧
    QgsLabelingUtils.decodePredefinedPositionOrder [] = [] := by
  refine ⟨decodePredefinedPositionOrder_eq_filterMap s, decodeToken_eq_some, ?_, by decide⟩
  rw [decodePredefinedPositionOrder_eq_filterMap]
  exact List.length_filterMap_le _ _

/-- A string with white space, lower case, an empty token and two tokens that
are no codes. -/
theorem decodePredefinedPositionOrder_example :
    QgsLabelingUtils.decodePredefinedPositionOrder " tl, x,,BSR ,t r,B".toList =
      [PredefinedPointPosition.TopLeft, PredefinedPointPosition.BottomSlightlyRight,
        PredefinedPointPosition.BottomMiddle] := by
  decide

/-! ## The list of providers -/

theorem providerIndexOfFrom_of_not_mem (p : QgsAbstractLabelProvider) :
    ∀ (l : List QgsAbstractLabelProvider) (i : Int), p ∉ l →
      QgsLabelingEngine.providerIndexOfFrom p l i = -1
  | [], _, _ => rfl
  | x :: xs, i, h => by
    have hx : x ≠ p := fun hx => h (by rw [hx]; exact List.mem_cons_self _ _)
    rw [QgsLabelingEngine.providerIndexOfFrom, if_neg hx]
    exact providerIndexOfFrom_of_not_mem p xs (i + 1) (fun hm => h (List.mem_cons_of_mem _ hm))

theorem providerIndexOfFrom_first (p : QgsAbstractLabelProvider)
    (after : List QgsAbstractLabelProvider) :
    ∀ (before : List QgsAbstractLabelProvider) (i : Int), p ∉ before →
      QgsLabelingEngine.providerIndexOfFrom p (before ++ p :: after) i = i + before.length
  | [], i, _ => by simp [QgsLabelingEngine.providerIndexOfFrom]
  | x :: xs, i, h => by
    have hx : x ≠ p := fun hx => h (by rw [hx]; exact List.mem_cons_self _ _)
    rw [List.cons_append, QgsLabelingEngine.providerIndexOfFrom, if_neg hx,
      providerIndexOfFrom_first p after xs (i + 1) (fun hm => h (List.mem_cons_of_mem _ hm))]
    simp only [List.length_cons, Nat.cast_add, Nat.cast_one]
    omega

theorem takeAt_first (p : QgsAbstractLabelProvider)
    (before after : List QgsAbstractLabelProvider) :
    QgsLabelingEngine.takeAt (before ++ p :: after) (0 + before.length) = before ++ after := by
  unfold QgsLabelingEngine.takeAt
  rw [Int.zero_add, Int.toNat_ofNat]
  induction before with
  | nil => rfl
  | cons x xs ih => simp [List.eraseIdx, ih]

/-- A list that holds `p` splits at the first occurrence of `p`. -/
theorem split_at_first (p : QgsAbstractLabelProvider) :
    ∀ l : List QgsAbstractLabelProvider, p ∈ l →
      ∃ before after, l = before ++ p :: after ∧ p ∉ before
  | [], h => by cases h
  | x :: xs, h => by
    by_cases hx : x = p
    · exact ⟨[], xs, by rw [hx]; rfl, by simp⟩
    · have hm : p ∈ xs := by
        rcases List.mem_cons.mp h with h1 | h1
        · exact absurd h1.symm hx
        · exact h1
      obtain ⟨before, after, h1, h2⟩ := split_at_first p xs hm
      refine ⟨x :: before, after, by rw [h1]; rfl, ?_⟩
      intro hmem
      rcases List.mem_cons.mp hmem with h3 | h3
      · exact hx h3.symm
      · exact h2 h3

/-- C30: `addProvider` and `removeProvider` maintain the top-level list:
`addProvider( p )` sets the engine back-reference of `p` to this engine,
changes nothing else of `p`, and appends `p` at the end of `mProviders`,
leaving all earlier entries and all other members of the engine as they are;
`removeProvider( p )` leaves the engine as it is when `p` is not in the list,
and otherwise removes the first occurrence of `p` and nothing else, keeping
the order of all other entries. -/
theorem addProvider_removeProvider (e : QgsLabelingEngine) (this : Nat)
    (p : QgsAbstractLabelProvider) :
    (e.addProvider this p = { e with mProviders := e.mProviders ++ [p.setEngine this] } ∧
      (p.setEngine this).members = { p.members with mEngine := some this } ∧
      (p.setEngine this).labelFeatures = p.labelFeatures ∧
      (p.setEngine this).subProviders = p.subProviders) ∧
    (p ∉ e.mProviders → e.removeProvider p = e) ∧
    (∀ before after, e.mProviders = before ++ p :: after → p ∉ before →
      e.removeProvider p = { e with mProviders := before ++ after }) ∧
    (p ∈ e.mProviders → ∃ before after, e.mProviders = before ++ p :: after ∧ p ∉ before) := by
  refine ⟨⟨rfl, ?_, ?_, ?_⟩, ?_, ?_, split_at_first p e.mProviders⟩
  · cases p; rfl
  · cases p; rfl
  · cases p; rfl
  · intro h
    unfold QgsLabelingEngine.removeProvider
    simp only
    rw [providerIndexOfFrom_of_not_mem p e.mProviders 0 h, if_neg (by decide)]
  · intro before after h1 h2
    unfold QgsLabelingEngine.removeProvider
    simp only
    rw [h1, providerIndexOfFrom_first p after before 0 h2, takeAt_first,
      if_pos (by omega)]

theorem addProvider_removeProvider_witness :
    (freshEngine.addProvider 7 subB).mProviders =
      [QgsAbstractLabelProvider.mk
        { ProviderMembers.new "roads" "b" with mEngine := some 7 } [] []] ∧
    freshEngine.removeProvider subB = freshEngine ∧
    (crowdedEngine.removeProvider subA).mProviders = [subB, subA] := by
  have h1 := addProvider_removeProvider freshEngine 7 subB
  have h2 := addProvider_removeProvider crowdedEngine 7 subA
  refine ⟨congrArg QgsLabelingEngine.mProviders h1.1.1, h1.2.1 (by simp [freshEngine,
    QgsLabelingEngine.new]), ?_⟩
  exact congrArg QgsLabelingEngine.mProviders (h2.2.2.1 [] [subB, subA] rfl (by simp))

end QGIS
